import Mathlib

/-!
DCC toy model (`RunDccToyModel.C`): event generator and moments accumulator.

A shallow embedding of the classes that carry the algorithm of the toy model, `KaonEvent`,
`KaonMoments`, `KaonGenerator` and `KaonDccSimulator`, followed by the properties established
about them.

Conventions of the embedding.

* A C++ `double` is a value of `Dbl`: a rational, or one of the three special values `+inf`,
  `-inf`, `NaN`.  There is no signed zero; the special values follow the IEEE 754 rules, a zero
  divisor being read as `+0`.
* The arithmetic of the program is given two readings.
  In the *exact reading* (`Dbl.add`, `Dbl.sub`, `Dbl.mul`, `Dbl.div`, `Dbl.toInt`, and on them
  `KaonGenerator.generate`, `KaonMoments.fill`, `KaonMoments.calculateMoments`) an operation on
  finite doubles gives the exact rational result, and `+`, `-`, `++` on `int` are the operations
  of the integers; only the `int * int` products of `KaonMoments::fill` are reduced to the 32-bit
  two's-complement range (`wrapInt32`), since they leave that range for a single count of 46341
  or more.
  In the *machine reading* (`Dbl.fadd`, `Dbl.fsub`, `Dbl.fmul`, `Dbl.fdiv`, `Dbl.toInt32`, and on
  them `Machine.generate`, `Machine.fill`, `Machine.calculateMoments`) every operation on doubles
  gives the exact result rounded to binary64 (round to nearest, ties to even, with subnormal
  numbers and overflow to an infinity), one operation at a time; every `int` operation is reduced
  to the 32-bit two's-complement range; and a conversion `double → int` of a value beyond that
  range gives `-2147483648`, as on x86-64.  A finite `Dbl` of this reading stands for a double;
  the type also holds the rationals that are not doubles, and a property stated for every `Dbl`
  covers them as well.
* The properties that depend on the rounding of a `double` operation or on the width of `int`
  (the identities of the charge decomposition, the split of the kaons between the two categories,
  the formulas of the ratios, the merge law and the invariant of the running sums) are stated on
  the machine reading.  The other properties are stated on the exact reading.
* The random generator (`TRandom3`, from ROOT) is not part of the repository.  It is modelled by
  a table of outcomes, one per call, together with the record of the calls made so far.
* The ROOT histograms filled and scaled next to the running sums are not modelled.
-/

namespace DccToy

/-! ## `double` -/

/-- A C++ `double`: a finite value, carried exactly, or `+inf`, `-inf`, `NaN`. -/
inductive Dbl where
  | fin (q : ℚ)
  | pinf
  | ninf
  | nan
  deriving DecidableEq

namespace Dbl

/-- Conversion `int → double`. -/
def ofInt (i : Int) : Dbl := fin i

/-- Unary minus. -/
def neg : Dbl → Dbl
  | fin a => fin (-a)
  | pinf => ninf
  | ninf => pinf
  | nan => nan

/-- The sum `x + y` of two doubles. -/
def add : Dbl → Dbl → Dbl
  | fin a, fin b => fin (a + b)
  | nan, _ => nan
  | _, nan => nan
  | pinf, ninf => nan
  | ninf, pinf => nan
  | pinf, _ => pinf
  | ninf, _ => ninf
  | fin _, pinf => pinf
  | fin _, ninf => ninf

/-- The difference `x - y` of two doubles. -/
def sub (x y : Dbl) : Dbl := add x (neg y)

/-- An infinity of the sign of `s * t`, where `s` is `+1` or `-1` and `t` is finite;
`NaN` when `t` is zero (`inf * 0`). -/
def infTimes (positive : Bool) (t : ℚ) : Dbl :=
  if t = 0 then nan
  else if (0 < t) = positive then pinf else ninf

/-- The product `x * y` of two doubles. -/
def mul : Dbl → Dbl → Dbl
  | fin a, fin b => fin (a * b)
  | nan, _ => nan
  | _, nan => nan
  | pinf, pinf => pinf
  | ninf, ninf => pinf
  | pinf, ninf => ninf
  | ninf, pinf => ninf
  | pinf, fin b => infTimes true b
  | ninf, fin b => infTimes false b
  | fin a, pinf => infTimes true a
  | fin a, ninf => infTimes false a

/-- The quotient `x / y` of two doubles.  A finite value divided by zero is an infinity of the
sign of the dividend, and `0 / 0` is `NaN`. -/
def div : Dbl → Dbl → Dbl
  | fin a, fin b =>
    if b = 0 then (if a = 0 then nan else if 0 < a then pinf else ninf)
    else fin (a / b)
  | nan, _ => nan
  | _, nan => nan
  | fin _, pinf => fin 0
  | fin _, ninf => fin 0
  | pinf, fin b => if 0 ≤ b then pinf else ninf
  | ninf, fin b => if 0 ≤ b then ninf else pinf
  | pinf, pinf => nan
  | pinf, ninf => nan
  | ninf, pinf => nan
  | ninf, ninf => nan

instance : Add Dbl := ⟨add⟩
instance : Sub Dbl := ⟨sub⟩
instance : Mul Dbl := ⟨mul⟩
instance : Div Dbl := ⟨div⟩

/-- The comparison `x == y` of two doubles: `NaN` equals nothing, itself included. -/
def eq : Dbl → Dbl → Bool
  | fin a, fin b => decide (a = b)
  | pinf, pinf => true
  | ninf, ninf => true
  | _, _ => false

/-- Whether the double is a finite number (neither an infinity nor `NaN`). -/
def isFinite : Dbl → Bool
  | fin _ => true
  | _ => false

/-- Conversion `double → int`: truncation toward zero.  The conversion of an infinity or of
`NaN` is undefined in C++; the model gives it the value the x86-64 conversion yields. -/
def toInt : Dbl → Int
  | fin q => Int.tdiv q.num q.den
  | _ => -2147483648

end Dbl

/-- Reduction of an integer to the range of a 32-bit two's-complement `int`. -/
def wrapInt32 (x : Int) : Int := (x + 2147483648) % 4294967296 - 2147483648

/-! ## `KaonEvent` -/

/-- The class `KaonEvent`: one generated event.  The `int` counts and the `double` fractions
are public data members; the constructor sets none of them. -/
structure KaonEvent where
  centrality : Dbl
  k : Int
  k0 : Int
  k0s : Int
  kc : Int
  k_Binomial : Int
  k0_Binomial : Int
  k0s_Binomial : Int
  kc_Binomial : Int
  k_DCC : Int
  k0_DCC : Int
  k0s_DCC : Int
  kc_DCC : Int
  k0Fraction : Dbl
  k0sFraction : Dbl
  k0Fraction_DCC : Dbl
  k0sFraction_DCC : Dbl
  k0Fraction_Binomial : Dbl
  k0sFraction_Binomial : Dbl
  deriving DecidableEq

/-! ## `KaonMoments` -/

/-- The data members of the class `KaonMoments`: the event counter, the running sums, and the
moments, ratios and `nuDyn` values derived from them.  The histogram members and the members
that only configure them (`baseName`, `nBinsKmult`, `minKmult`, `maxKmult`) are left out. -/
structure KaonMoments where
  nEvents : Int
  sum_k : Dbl
  sum_kSq : Dbl
  sum_k0 : Dbl
  sum_k0Sq : Dbl
  sum_k0s : Dbl
  sum_k0sSq : Dbl
  sum_kc : Dbl
  sum_kcSq : Dbl
  sum_kck0 : Dbl
  sum_kck0s : Dbl
  sum_k_Binomial : Dbl
  sum_kSq_Binomial : Dbl
  sum_k0_Binomial : Dbl
  sum_k0Sq_Binomial : Dbl
  sum_k0s_Binomial : Dbl
  sum_k0sSq_Binomial : Dbl
  sum_kc_Binomial : Dbl
  sum_kcSq_Binomial : Dbl
  sum_k_DCC : Dbl
  sum_kSq_DCC : Dbl
  sum_k0_DCC : Dbl
  sum_k0Sq_DCC : Dbl
  sum_k0s_DCC : Dbl
  sum_k0sSq_DCC : Dbl
  sum_kc_DCC : Dbl
  sum_kcSq_DCC : Dbl
  k_avg : Dbl
  kSq_avg : Dbl
  kF_avg : Dbl
  k0_avg : Dbl
  k0Sq_avg : Dbl
  k0F_avg : Dbl
  k0s_avg : Dbl
  k0sSq_avg : Dbl
  k0sF_avg : Dbl
  kc_avg : Dbl
  kcSq_avg : Dbl
  kcF_avg : Dbl
  kck0_avg : Dbl
  kck0s_avg : Dbl
  k_Binomial_avg : Dbl
  kSq_Binomial_avg : Dbl
  kF_Binomial_avg : Dbl
  k0_Binomial_avg : Dbl
  k0Sq_Binomial_avg : Dbl
  k0F_Binomial_avg : Dbl
  k0s_Binomial_avg : Dbl
  k0sSq_Binomial_avg : Dbl
  k0sF_Binomial_avg : Dbl
  kc_Binomial_avg : Dbl
  kcSq_Binomial_avg : Dbl
  kcF_Binomial_avg : Dbl
  k_DCC_avg : Dbl
  kSq_DCC_avg : Dbl
  kF_DCC_avg : Dbl
  k0_DCC_avg : Dbl
  k0Sq_DCC_avg : Dbl
  k0F_DCC_avg : Dbl
  k0s_DCC_avg : Dbl
  k0sSq_DCC_avg : Dbl
  k0sF_DCC_avg : Dbl
  kc_DCC_avg : Dbl
  kcSq_DCC_avg : Dbl
  kcF_DCC_avg : Dbl
  r00 : Dbl
  r0s0s : Dbl
  rchch : Dbl
  rch0 : Dbl
  rch0s : Dbl
  nuDyn_ch0 : Dbl
  nuDyn_ch0s : Dbl
  deriving DecidableEq

/-- The method `KaonMoments::initialize` (the name is a reserved word of Lean, hence the longer
one here): the counter and every running sum are set to zero.  The derived members are not
assigned.  (The histograms it allocates are not modelled.) -/
def KaonMoments.initializeCounters (m : KaonMoments) : KaonMoments :=
  { m with
    nEvents := 0
    sum_k := Dbl.fin 0
    sum_kSq := Dbl.fin 0
    sum_k0 := Dbl.fin 0
    sum_k0Sq := Dbl.fin 0
    sum_k0s := Dbl.fin 0
    sum_k0sSq := Dbl.fin 0
    sum_kc := Dbl.fin 0
    sum_kcSq := Dbl.fin 0
    sum_kck0 := Dbl.fin 0
    sum_kck0s := Dbl.fin 0
    sum_k_Binomial := Dbl.fin 0
    sum_kSq_Binomial := Dbl.fin 0
    sum_k0_Binomial := Dbl.fin 0
    sum_k0Sq_Binomial := Dbl.fin 0
    sum_k0s_Binomial := Dbl.fin 0
    sum_k0sSq_Binomial := Dbl.fin 0
    sum_kc_Binomial := Dbl.fin 0
    sum_kcSq_Binomial := Dbl.fin 0
    sum_k_DCC := Dbl.fin 0
    sum_kSq_DCC := Dbl.fin 0
    sum_k0_DCC := Dbl.fin 0
    sum_k0Sq_DCC := Dbl.fin 0
    sum_k0s_DCC := Dbl.fin 0
    sum_k0sSq_DCC := Dbl.fin 0
    sum_kc_DCC := Dbl.fin 0
    sum_kcSq_DCC := Dbl.fin 0 }

/-- The method `KaonMoments::fill`: the counter is incremented and every running sum receives
the corresponding quantity of the event.  A square or a cross product is formed in `int`
arithmetic before it is converted to `double` and added.  (The histogram fills are not
modelled.) -/
def KaonMoments.fill (m : KaonMoments) (kaonEvent : KaonEvent) : KaonMoments :=
  { m with
    nEvents := m.nEvents + 1
    sum_k := m.sum_k + Dbl.ofInt kaonEvent.k
    sum_kSq := m.sum_kSq + Dbl.ofInt (wrapInt32 (kaonEvent.k * kaonEvent.k))
    sum_k0 := m.sum_k0 + Dbl.ofInt kaonEvent.k0
    sum_k0Sq := m.sum_k0Sq + Dbl.ofInt (wrapInt32 (kaonEvent.k0 * kaonEvent.k0))
    sum_k0s := m.sum_k0s + Dbl.ofInt kaonEvent.k0s
    sum_k0sSq := m.sum_k0sSq + Dbl.ofInt (wrapInt32 (kaonEvent.k0s * kaonEvent.k0s))
    sum_kc := m.sum_kc + Dbl.ofInt kaonEvent.kc
    sum_kcSq := m.sum_kcSq + Dbl.ofInt (wrapInt32 (kaonEvent.kc * kaonEvent.kc))
    sum_kck0 := m.sum_kck0 + Dbl.ofInt (wrapInt32 (kaonEvent.kc * kaonEvent.k0))
    sum_kck0s := m.sum_kck0s + Dbl.ofInt (wrapInt32 (kaonEvent.kc * kaonEvent.k0s))
    sum_k_Binomial := m.sum_k_Binomial + Dbl.ofInt kaonEvent.k_Binomial
    sum_kSq_Binomial := m.sum_kSq_Binomial + Dbl.ofInt (wrapInt32 (kaonEvent.k_Binomial * kaonEvent.k_Binomial))
    sum_k0_Binomial := m.sum_k0_Binomial + Dbl.ofInt kaonEvent.k0_Binomial
    sum_k0Sq_Binomial := m.sum_k0Sq_Binomial + Dbl.ofInt (wrapInt32 (kaonEvent.k0_Binomial * kaonEvent.k0_Binomial))
    sum_k0s_Binomial := m.sum_k0s_Binomial + Dbl.ofInt kaonEvent.k0s_Binomial
    sum_k0sSq_Binomial := m.sum_k0sSq_Binomial + Dbl.ofInt (wrapInt32 (kaonEvent.k0s_Binomial * kaonEvent.k0s_Binomial))
    sum_kc_Binomial := m.sum_kc_Binomial + Dbl.ofInt kaonEvent.kc_Binomial
    sum_kcSq_Binomial := m.sum_kcSq_Binomial + Dbl.ofInt (wrapInt32 (kaonEvent.kc_Binomial * kaonEvent.kc_Binomial))
    sum_k_DCC := m.sum_k_DCC + Dbl.ofInt kaonEvent.k_DCC
    sum_kSq_DCC := m.sum_kSq_DCC + Dbl.ofInt (wrapInt32 (kaonEvent.k_DCC * kaonEvent.k_DCC))
    sum_k0_DCC := m.sum_k0_DCC + Dbl.ofInt kaonEvent.k0_DCC
    sum_k0Sq_DCC := m.sum_k0Sq_DCC + Dbl.ofInt (wrapInt32 (kaonEvent.k0_DCC * kaonEvent.k0_DCC))
    sum_k0s_DCC := m.sum_k0s_DCC + Dbl.ofInt kaonEvent.k0s_DCC
    sum_k0sSq_DCC := m.sum_k0sSq_DCC + Dbl.ofInt (wrapInt32 (kaonEvent.k0s_DCC * kaonEvent.k0s_DCC))
    sum_kc_DCC := m.sum_kc_DCC + Dbl.ofInt kaonEvent.kc_DCC
    sum_kcSq_DCC := m.sum_kcSq_DCC + Dbl.ofInt (wrapInt32 (kaonEvent.kc_DCC * kaonEvent.kc_DCC)) }

/-- How a call of `KaonMoments::calculateMoments` ends: with the line
`-E- calculateMoments() nEvents<2 -- Cannot calculate moments` and an early `return`, or by
running to the end of its body. -/
inductive Report where
  | cannotCalculate
  | calculated
  deriving DecidableEq

/-- The method `KaonMoments::calculateMoments`: the report, and the object after the call.
(The scaling of the histograms by `1.0/nev` is not modelled.) -/
def KaonMoments.calculateMoments (m : KaonMoments) : Report × KaonMoments :=
  if m.nEvents < 2 then (Report.cannotCalculate, m)
  else
    let nev := Dbl.ofInt m.nEvents
    let m := { m with
      k_avg := m.sum_k / nev
      kSq_avg := m.sum_kSq / nev
      k0_avg := m.sum_k0 / nev
      k0Sq_avg := m.sum_k0Sq / nev
      k0s_avg := m.sum_k0s / nev
      k0sSq_avg := m.sum_k0sSq / nev
      kc_avg := m.sum_kc / nev
      kcSq_avg := m.sum_kcSq / nev
      k_Binomial_avg := m.sum_k_Binomial / nev
      kSq_Binomial_avg := m.sum_kSq_Binomial / nev
      k0_Binomial_avg := m.sum_k0_Binomial / nev
      k0Sq_Binomial_avg := m.sum_k0Sq_Binomial / nev
      k0s_Binomial_avg := m.sum_k0s_Binomial / nev
      k0sSq_Binomial_avg := m.sum_k0sSq_Binomial / nev
      kc_Binomial_avg := m.sum_kc_Binomial / nev
      kcSq_Binomial_avg := m.sum_kcSq_Binomial / nev
      k_DCC_avg := m.sum_k_DCC / nev
      kSq_DCC_avg := m.sum_kSq_DCC / nev
      k0_DCC_avg := m.sum_k0_DCC / nev
      k0Sq_DCC_avg := m.sum_k0Sq_DCC / nev
      k0s_DCC_avg := m.sum_k0s_DCC / nev
      k0sSq_DCC_avg := m.sum_k0sSq_DCC / nev
      kc_DCC_avg := m.sum_kc_DCC / nev
      kcSq_DCC_avg := m.sum_kcSq_DCC / nev }
    let m := { m with
      kF_avg := m.kSq_avg - m.k_avg
      k0F_avg := m.k0Sq_avg - m.k0_avg
      k0sF_avg := m.k0sSq_avg - m.k0s_avg
      kcF_avg := m.kcSq_avg - m.kc_avg
      kF_Binomial_avg := m.kSq_Binomial_avg - m.k_Binomial_avg
      k0F_Binomial_avg := m.k0Sq_Binomial_avg - m.k0_Binomial_avg
      k0sF_Binomial_avg := m.k0sSq_Binomial_avg - m.k0s_Binomial_avg
      kcF_Binomial_avg := m.kcSq_Binomial_avg - m.kc_Binomial_avg
      kF_DCC_avg := m.kSq_DCC_avg - m.k_DCC_avg
      k0F_DCC_avg := m.k0Sq_DCC_avg - m.k0_DCC_avg
      k0sF_DCC_avg := m.k0sSq_DCC_avg - m.k0s_DCC_avg
      kcF_DCC_avg := m.kcSq_DCC_avg - m.kc_DCC_avg }
    let m := { m with
      kck0_avg := m.sum_kck0 / nev
      kck0s_avg := m.sum_kck0s / nev }
    let m := { m with
      r00 := m.k0F_avg / m.k0_avg / m.k0_avg - Dbl.fin 1
      r0s0s := m.k0sF_avg / m.k0s_avg / m.k0s_avg - Dbl.fin 1
      rchch := m.kcF_avg / m.kc_avg / m.kc_avg - Dbl.fin 1
      rch0 := m.kck0_avg / m.kc_avg / m.k0_avg - Dbl.fin 1
      rch0s := m.kck0s_avg / m.kc_avg / m.k0s_avg - Dbl.fin 1 }
    let m := { m with
      nuDyn_ch0 := m.rchch + m.r00 - Dbl.fin 2 * m.rch0
      nuDyn_ch0s := m.rchch + m.r0s0s - Dbl.fin 2 * m.rch0s }
    (Report.calculated, m)

/-! ## The random generator -/

/-- One call of the random generator: its arguments and the value it returned. -/
inductive Draw where
  | uniform (x1 x2 : Dbl) (value : Dbl)
  | binomial (ntot : Int) (prob : Dbl) (value : Int)
  deriving DecidableEq

/-- The random generator held by a `KaonGenerator` (`TRandom3`, from ROOT; its code is not part
of the repository).  `uniformValue i x1 x2` is what the `i`-th call returns when it is
`Uniform(x1, x2)`, `binomialValue i ntot prob` what it returns when it is `Binomial(ntot, prob)`;
the two tables range over every possible behaviour of the generator.  `drawn` records the calls
made so far, oldest first, so that its length is the position in the stream. -/
structure TRandom where
  uniformValue : Nat → Dbl → Dbl → Dbl
  binomialValue : Nat → Int → Dbl → Int
  drawn : List Draw

/-- The call `random->Uniform(x1, x2)`: the value drawn and the generator after the call. -/
def TRandom.Uniform (r : TRandom) (x1 x2 : Dbl) : Dbl × TRandom :=
  let value := r.uniformValue r.drawn.length x1 x2
  (value, { r with drawn := r.drawn ++ [Draw.uniform x1 x2 value] })

/-- The call `random->Binomial(ntot, prob)`: the value drawn and the generator after the call. -/
def TRandom.Binomial (r : TRandom) (ntot : Int) (prob : Dbl) : Int × TRandom :=
  let value := r.binomialValue r.drawn.length ntot prob
  (value, { r with drawn := r.drawn ++ [Draw.binomial ntot prob value] })

/-! ## `KaonGenerator` -/

/-- The data members of the class `KaonGenerator`. -/
structure KaonGenerator where
  minMult : Int
  maxMult : Int
  kaonFraction : Dbl
  dccFraction : Dbl
  random : TRandom

/-- The constructor `KaonGenerator::KaonGenerator`: the four arguments are stored as they are
given; `random` stands for the generator that `new TRandom3()` creates. -/
def KaonGenerator.new (min_Mult max_Mult : Int) (frac_kaon frac_dcc : Dbl) (random : TRandom) :
    KaonGenerator :=
  { minMult := min_Mult
    maxMult := max_Mult
    kaonFraction := frac_kaon
    dccFraction := frac_dcc
    random := random }

/-- The method `KaonGenerator::generate`: the event written through the reference argument and
the generator after the call (its random stream has advanced). -/
def KaonGenerator.generate (g : KaonGenerator) (event : KaonEvent) : KaonEvent × KaonGenerator :=
  let (centrality, random) := g.random.Uniform (Dbl.ofInt g.minMult) (Dbl.ofInt g.maxMult)
  let event := { event with centrality := centrality }
  let (k, random) := random.Binomial event.centrality.toInt g.kaonFraction
  let event := { event with k := k }
  let (event, random) :=
    if g.dccFraction.eq (Dbl.fin 0) then
      let event := { event with
        k_DCC := (Dbl.fin 0).toInt
        k0_DCC := (Dbl.fin 0).toInt
        k0s_DCC := (Dbl.fin 0).toInt
        kc_DCC := (Dbl.fin 0).toInt }
      let event := { event with k_Binomial := event.k }
      let (k0_Binomial, random) := random.Binomial event.k_Binomial (Dbl.fin (1/2))
      let event := { event with k0_Binomial := k0_Binomial }
      let (k0s_Binomial, random) := random.Binomial event.k0_Binomial (Dbl.fin (1/2))
      let event := { event with k0s_Binomial := k0s_Binomial }
      let event := { event with kc_Binomial := event.k_Binomial - event.k0_Binomial }
      (event, random)
    else if g.dccFraction.eq (Dbl.fin 1) then
      let event := { event with k_DCC := event.k }
      let (k0Fraction_DCC, random) := random.Uniform (Dbl.fin 0) (Dbl.fin 1)
      let event := { event with k0Fraction_DCC := k0Fraction_DCC }
      let event := { event with k0_DCC := (Dbl.ofInt event.k_DCC * event.k0Fraction_DCC).toInt }
      let (k0s_DCC, random) := random.Binomial event.k0_DCC (Dbl.fin (1/2))
      let event := { event with k0s_DCC := k0s_DCC }
      let event := { event with kc_DCC := event.k_DCC - event.k0_DCC }
      let event := { event with
        k_Binomial := (Dbl.fin 0).toInt
        k0_Binomial := (Dbl.fin 0).toInt
        k0s_Binomial := (Dbl.fin 0).toInt
        kc_Binomial := (Dbl.fin 0).toInt }
      (event, random)
    else
      let event := { event with k_DCC := (g.dccFraction * Dbl.ofInt event.k).toInt }
      let (k0Fraction_DCC, random) := random.Uniform (Dbl.fin 0) (Dbl.fin 1)
      let event := { event with k0Fraction_DCC := k0Fraction_DCC }
      let event := { event with k0_DCC := (Dbl.ofInt event.k_DCC * event.k0Fraction_DCC).toInt }
      let (k0s_DCC, random) := random.Binomial event.k0_DCC (Dbl.fin (1/2))
      let event := { event with k0s_DCC := k0s_DCC }
      let event := { event with kc_DCC := event.k_DCC - event.k0_DCC }
      let event := { event with k_Binomial := event.k - event.k_DCC }
      let (k0_Binomial, random) := random.Binomial event.k_Binomial (Dbl.fin (1/2))
      let event := { event with k0_Binomial := k0_Binomial }
      let (k0s_Binomial, random) := random.Binomial event.k0_Binomial (Dbl.fin (1/2))
      let event := { event with k0s_Binomial := k0s_Binomial }
      let event := { event with kc_Binomial := event.k_Binomial - event.k0_Binomial }
      (event, random)
  let event := { event with k0 := event.k0_Binomial + event.k0_DCC }
  let event := { event with k0s := event.k0s_Binomial + event.k0s_DCC }
  let event := { event with kc := event.kc_Binomial + event.kc_DCC }
  let event := { event with k0Fraction := Dbl.ofInt event.k0 / Dbl.ofInt event.k }
  let event := { event with k0sFraction := Dbl.ofInt event.k0s / Dbl.ofInt event.k }
  let event := { event with k0Fraction_DCC := Dbl.ofInt event.k0_DCC / Dbl.ofInt event.k_DCC }
  let event := { event with k0sFraction_DCC := Dbl.ofInt event.k0s_DCC / Dbl.ofInt event.k_DCC }
  let event := { event with
    k0Fraction_Binomial := Dbl.ofInt event.k0_Binomial / Dbl.ofInt event.k_Binomial }
  let event := { event with
    k0sFraction_Binomial := Dbl.ofInt event.k0s_Binomial / Dbl.ofInt event.k_Binomial }
  (event, { g with random := random })

/-- The calls of the random generator made by one call of `generate`, in the order made. -/
def KaonGenerator.draws (g : KaonGenerator) (event : KaonEvent) : List Draw :=
  (g.generate event).2.random.drawn.drop g.random.drawn.length

/-! ## `KaonDccSimulator` -/

/-- The data members of the class `KaonDccSimulator`. -/
structure KaonDccSimulator where
  kaonEvent : KaonEvent
  kaonGenerator : KaonGenerator
  kaonMoments : KaonMoments
  debug : Bool

/-- The constructor `KaonDccSimulator::KaonDccSimulator`.  `event` and `moments` stand for the
unassigned members of the freshly allocated `KaonEvent` and `KaonMoments`, `random` for the
generator that `new TRandom3()` creates.  (The histogram base name built from the arguments is
not modelled.) -/
def KaonDccSimulator.new (kaonFraction dccFraction : Dbl) (minMult maxMult : Int)
    (debugOption : Bool) (event : KaonEvent) (moments : KaonMoments) (random : TRandom) :
    KaonDccSimulator :=
  { debug := debugOption
    kaonEvent := event
    kaonGenerator := KaonGenerator.new minMult maxMult kaonFraction dccFraction random
    kaonMoments := moments.initializeCounters }

/-- The loop of `KaonDccSimulator::run`: `n` times `generate` then `fill`. -/
def KaonDccSimulator.runLoop : Nat → KaonDccSimulator → KaonDccSimulator
  | 0, s => s
  | n + 1, s =>
    let (event, generator) := s.kaonGenerator.generate s.kaonEvent
    let s := { s with kaonEvent := event, kaonGenerator := generator }
    let s := { s with kaonMoments := s.kaonMoments.fill s.kaonEvent }
    KaonDccSimulator.runLoop n s

/-- The method `KaonDccSimulator::run`: the events are generated and accumulated, then
`calculateMoments` is called.  (Printing and plotting are not modelled.) -/
def KaonDccSimulator.run (s : KaonDccSimulator) (nEventsRequested : Int) :
    Report × KaonDccSimulator :=
  let s := KaonDccSimulator.runLoop nEventsRequested.toNat s
  let (report, moments) := s.kaonMoments.calculateMoments
  (report, { s with kaonMoments := moments })

/-! ## Vocabulary of the properties -/

/-- The draw stays in the range of a binomial deviate: a `Binomial(ntot, prob)` call returned an
integer between `0` and `ntot`.  Nothing is asked of a `Uniform` call. -/
def Draw.inRange : Draw → Prop
  | Draw.uniform _ _ _ => True
  | Draw.binomial ntot _ value => 0 ≤ value ∧ value ≤ ntot

instance (d : Draw) : Decidable d.inRange := by
  cases d <;> simp only [Draw.inRange] <;> infer_instance

/-- An event whose members are all zero. -/
def zeroEvent : KaonEvent :=
  { centrality := Dbl.fin 0
    k := 0, k0 := 0, k0s := 0, kc := 0
    k_Binomial := 0, k0_Binomial := 0, k0s_Binomial := 0, kc_Binomial := 0
    k_DCC := 0, k0_DCC := 0, k0s_DCC := 0, kc_DCC := 0
    k0Fraction := Dbl.fin 0, k0sFraction := Dbl.fin 0
    k0Fraction_DCC := Dbl.fin 0, k0sFraction_DCC := Dbl.fin 0
    k0Fraction_Binomial := Dbl.fin 0, k0sFraction_Binomial := Dbl.fin 0 }

/-- A random generator for the examples: every `Uniform(x1, x2)` call returns `x2` when the
bounds are the multiplicity bounds and `1/2` when they are `0` and `1`; every
`Binomial(ntot, prob)` call returns `ntot / 2` rounded down, and `0` for a negative `ntot`. -/
def halfRandom : TRandom :=
  { uniformValue := fun _ x1 x2 => if x1 = Dbl.fin 0 ∧ x2 = Dbl.fin 1 then Dbl.fin (1/2) else x2
    binomialValue := fun _ ntot _ => if 0 ≤ ntot then ntot / 2 else 0
    drawn := [] }

/-- A `KaonMoments` object whose members are all zero. -/
def zeroMoments : KaonMoments :=
  { nEvents := 0
    sum_k := Dbl.fin 0, sum_kSq := Dbl.fin 0, sum_k0 := Dbl.fin 0
    sum_k0Sq := Dbl.fin 0, sum_k0s := Dbl.fin 0, sum_k0sSq := Dbl.fin 0
    sum_kc := Dbl.fin 0, sum_kcSq := Dbl.fin 0, sum_kck0 := Dbl.fin 0
    sum_kck0s := Dbl.fin 0, sum_k_Binomial := Dbl.fin 0, sum_kSq_Binomial := Dbl.fin 0
    sum_k0_Binomial := Dbl.fin 0, sum_k0Sq_Binomial := Dbl.fin 0, sum_k0s_Binomial := Dbl.fin 0
    sum_k0sSq_Binomial := Dbl.fin 0, sum_kc_Binomial := Dbl.fin 0, sum_kcSq_Binomial := Dbl.fin 0
    sum_k_DCC := Dbl.fin 0, sum_kSq_DCC := Dbl.fin 0, sum_k0_DCC := Dbl.fin 0
    sum_k0Sq_DCC := Dbl.fin 0, sum_k0s_DCC := Dbl.fin 0, sum_k0sSq_DCC := Dbl.fin 0
    sum_kc_DCC := Dbl.fin 0, sum_kcSq_DCC := Dbl.fin 0, k_avg := Dbl.fin 0
    kSq_avg := Dbl.fin 0, kF_avg := Dbl.fin 0, k0_avg := Dbl.fin 0
    k0Sq_avg := Dbl.fin 0, k0F_avg := Dbl.fin 0, k0s_avg := Dbl.fin 0
    k0sSq_avg := Dbl.fin 0, k0sF_avg := Dbl.fin 0, kc_avg := Dbl.fin 0
    kcSq_avg := Dbl.fin 0, kcF_avg := Dbl.fin 0, kck0_avg := Dbl.fin 0
    kck0s_avg := Dbl.fin 0, k_Binomial_avg := Dbl.fin 0, kSq_Binomial_avg := Dbl.fin 0
    kF_Binomial_avg := Dbl.fin 0, k0_Binomial_avg := Dbl.fin 0, k0Sq_Binomial_avg := Dbl.fin 0
    k0F_Binomial_avg := Dbl.fin 0, k0s_Binomial_avg := Dbl.fin 0, k0sSq_Binomial_avg := Dbl.fin 0
    k0sF_Binomial_avg := Dbl.fin 0, kc_Binomial_avg := Dbl.fin 0, kcSq_Binomial_avg := Dbl.fin 0
    kcF_Binomial_avg := Dbl.fin 0, k_DCC_avg := Dbl.fin 0, kSq_DCC_avg := Dbl.fin 0
    kF_DCC_avg := Dbl.fin 0, k0_DCC_avg := Dbl.fin 0, k0Sq_DCC_avg := Dbl.fin 0
    k0F_DCC_avg := Dbl.fin 0, k0s_DCC_avg := Dbl.fin 0, k0sSq_DCC_avg := Dbl.fin 0
    k0sF_DCC_avg := Dbl.fin 0, kc_DCC_avg := Dbl.fin 0, kcSq_DCC_avg := Dbl.fin 0
    kcF_DCC_avg := Dbl.fin 0, r00 := Dbl.fin 0, r0s0s := Dbl.fin 0
    rchch := Dbl.fin 0, rch0 := Dbl.fin 0, rch0s := Dbl.fin 0
    nuDyn_ch0 := Dbl.fin 0, nuDyn_ch0s := Dbl.fin 0 }

/-- The comparison `x < y` of two doubles. -/
def Dbl.lt : Dbl → Dbl → Bool
  | Dbl.fin a, Dbl.fin b => decide (a < b)
  | Dbl.ninf, Dbl.fin _ => true
  | Dbl.ninf, Dbl.pinf => true
  | Dbl.fin _, Dbl.pinf => true
  | _, _ => false

/-- The comparison `x <= y` of two doubles. -/
def Dbl.le (x y : Dbl) : Bool := x.lt y || x.eq y

/-- The conditions the specification puts on the construction parameters:
`0 < kaonFraction < 1`, `0 ≤ dccFraction ≤ 1` and `0 ≤ minMult < maxMult`. -/
def validParameters (minMult maxMult : Int) (kaonFraction dccFraction : Dbl) : Prop :=
  ((Dbl.fin 0).lt kaonFraction = true ∧ kaonFraction.lt (Dbl.fin 1) = true) ∧
    ((Dbl.fin 0).le dccFraction = true ∧ dccFraction.le (Dbl.fin 1) = true) ∧
    (0 ≤ minMult ∧ minMult < maxMult)

/-- The specification's `average_X = sum_X / n`. -/
def specAverage (sum : Dbl) (n : Int) : Dbl := sum / Dbl.ofInt n

/-- The specification's `factorialAverage_X = average(X²) - average(X)`. -/
def specFactorialAverage (sumSq sum : Dbl) (n : Int) : Dbl :=
  specAverage sumSq n - specAverage sum n

/-- The specification's `R_XX = factorialAverage_X / average_X² - 1`. -/
def specRSame (sumSq sum : Dbl) (n : Int) : Dbl :=
  specFactorialAverage sumSq sum n / (specAverage sum n * specAverage sum n) - Dbl.fin 1

/-- The two accumulators have the same counter and the same running sums. -/
def KaonMoments.SameSums (a b : KaonMoments) : Prop :=
  a.nEvents = b.nEvents ∧
  a.sum_k = b.sum_k ∧
  a.sum_kSq = b.sum_kSq ∧
  a.sum_k0 = b.sum_k0 ∧
  a.sum_k0Sq = b.sum_k0Sq ∧
  a.sum_k0s = b.sum_k0s ∧
  a.sum_k0sSq = b.sum_k0sSq ∧
  a.sum_kc = b.sum_kc ∧
  a.sum_kcSq = b.sum_kcSq ∧
  a.sum_kck0 = b.sum_kck0 ∧
  a.sum_kck0s = b.sum_kck0s ∧
  a.sum_k_Binomial = b.sum_k_Binomial ∧
  a.sum_kSq_Binomial = b.sum_kSq_Binomial ∧
  a.sum_k0_Binomial = b.sum_k0_Binomial ∧
  a.sum_k0Sq_Binomial = b.sum_k0Sq_Binomial ∧
  a.sum_k0s_Binomial = b.sum_k0s_Binomial ∧
  a.sum_k0sSq_Binomial = b.sum_k0sSq_Binomial ∧
  a.sum_kc_Binomial = b.sum_kc_Binomial ∧
  a.sum_kcSq_Binomial = b.sum_kcSq_Binomial ∧
  a.sum_k_DCC = b.sum_k_DCC ∧
  a.sum_kSq_DCC = b.sum_kSq_DCC ∧
  a.sum_k0_DCC = b.sum_k0_DCC ∧
  a.sum_k0Sq_DCC = b.sum_k0Sq_DCC ∧
  a.sum_k0s_DCC = b.sum_k0s_DCC ∧
  a.sum_k0sSq_DCC = b.sum_k0sSq_DCC ∧
  a.sum_kc_DCC = b.sum_kc_DCC ∧
  a.sum_kcSq_DCC = b.sum_kcSq_DCC

/-- An event of 4 kaons, all of the binomial category: 2 neutral (1 short-lived), 2 charged. -/
def sampleEvent1 : KaonEvent :=
  { zeroEvent with
    k := 4, k0 := 2, k0s := 1, kc := 2
    k_Binomial := 4, k0_Binomial := 2, k0s_Binomial := 1, kc_Binomial := 2 }

/-- An event of 6 kaons, all of the DCC category: 2 neutral (1 short-lived), 4 charged. -/
def sampleEvent2 : KaonEvent :=
  { zeroEvent with
    k := 6, k0 := 2, k0s := 1, kc := 4
    k_DCC := 6, k0_DCC := 2, k0s_DCC := 1, kc_DCC := 4 }

/-- The accumulator after `initialize` and two events without any kaon. -/
def emptyEventsMoments : KaonMoments :=
  (zeroMoments.initializeCounters.fill zeroEvent).fill zeroEvent

/-- A random generator whose first call returns the centrality `154470` and whose three
binomial calls return `46341`, `23170` and `11585`. -/
def largeRandom : TRandom :=
  { uniformValue := fun _ _ _ => Dbl.fin 154470
    binomialValue := fun i _ _ => if i = 1 then 46341 else if i = 2 then 23170 else 11585
    drawn := [] }

/-- A pure binomial generator (`dccFraction = 0`) for multiplicities up to `200000`. -/
def largeGenerator : KaonGenerator :=
  KaonGenerator.new 1 200000 (Dbl.fin (3/10)) (Dbl.fin 0) largeRandom

/-- The event `largeGenerator` writes: 46341 kaons, 23170 of them neutral. -/
def largeEvent : KaonEvent := (largeGenerator.generate zeroEvent).1

/-- The double is a finite number of the interval `[0, 1)`. -/
def Dbl.inUnitInterval : Dbl → Prop
  | Dbl.fin q => 0 ≤ q ∧ q < 1
  | _ => False

instance (x : Dbl) : Decidable x.inUnitInterval := by
  cases x <;> simp only [Dbl.inUnitInterval] <;> infer_instance

/-- If the call is `Uniform(0.0, 1.0)`, the draw of a neutral fraction, it returned a finite
number.  Nothing is asked of another call. -/
def Draw.fractionFinite : Draw → Prop
  | Draw.uniform x1 x2 value => x1 = Dbl.fin 0 → x2 = Dbl.fin 1 → value.isFinite = true
  | Draw.binomial _ _ _ => True

instance (d : Draw) : Decidable d.fractionFinite := by
  cases d <;> simp only [Draw.fractionFinite] <;> infer_instance

/-- If the call is `Uniform(0.0, 1.0)`, the draw of a neutral fraction, it returned a number of
`[0, 1)`.  Nothing is asked of another call. -/
def Draw.fractionInUnit : Draw → Prop
  | Draw.uniform x1 x2 value => x1 = Dbl.fin 0 → x2 = Dbl.fin 1 → value.inUnitInterval
  | Draw.binomial _ _ _ => True

instance (d : Draw) : Decidable d.fractionInUnit := by
  cases d <;> simp only [Draw.fractionInUnit] <;> infer_instance

/-- The specification's `trunc`: the rational truncated toward zero to an integer. -/
def truncTowardZero (x : ℚ) : Int := if 0 ≤ x then ⌊x⌋ else ⌈x⌉

/-- The event is decomposed as the data model asks: `kc + k0 = k`, and each of `k`, `k0`, `k0s`,
`kc` is the sum of its Binomial and its DCC part. -/
def KaonEvent.Decomposed (e : KaonEvent) : Prop :=
  e.kc + e.k0 = e.k ∧
    e.k = e.k_Binomial + e.k_DCC ∧
    e.k0 = e.k0_Binomial + e.k0_DCC ∧
    e.k0s = e.k0s_Binomial + e.k0s_DCC ∧
    e.kc = e.kc_Binomial + e.kc_DCC

/-- A mixed generator (`dccFraction = 0.5`) on multiplicities 1 to 15; with `halfRandom` it draws
`k = 7`. -/
def mixedGenerator : KaonGenerator :=
  KaonGenerator.new 1 15 (Dbl.fin (3/10)) (Dbl.fin (1/2)) halfRandom

/-- A mixed generator (`dccFraction = 0.5`) on multiplicities 1 to 3; with `halfRandom` it draws
`k = 1`, so that `k_DCC = trunc(0.5) = 0`. -/
def singleKaonGenerator : KaonGenerator :=
  KaonGenerator.new 1 3 (Dbl.fin (3/10)) (Dbl.fin (1/2)) halfRandom

/-- A pure DCC generator (`dccFraction = 1`) on multiplicities 0 to 1; with `halfRandom` it draws
`k = 0`. -/
def noKaonDccGenerator : KaonGenerator :=
  KaonGenerator.new 0 1 (Dbl.fin (3/10)) (Dbl.fin 1) halfRandom

/-- A generator built with `dccFraction = 2` on multiplicities 1 to 2; with `halfRandom` it draws
`k = 1`. -/
def doubleDccGenerator : KaonGenerator :=
  KaonGenerator.new 1 2 (Dbl.fin (3/10)) (Dbl.fin 2) halfRandom

/-! ## The machine reading: binary64 doubles and 32-bit `int` -/

/-- Rounding of a rational to the nearest integer, a tie going to the even one. -/
def roundHalfEven (y : ℚ) : Int :=
  if y - ⌊y⌋ < 1/2 then ⌊y⌋
  else if 1/2 < y - ⌊y⌋ then ⌊y⌋ + 1
  else if ⌊y⌋ % 2 = 0 then ⌊y⌋ else ⌊y⌋ + 1

/-- The spacing of the doubles around a non-zero rational `x`: `2 ^ (e - 52)`, where `e` is the
binary exponent of `x` (`2 ^ e ≤ |x| < 2 ^ (e + 1)`), or `-1022` when `x` is smaller than the
normal doubles. -/
def ulp (x : ℚ) : ℚ := (2 : ℚ) ^ (max (Int.log 2 |x|) (-1022) - 52)

/-- Rounding of a rational to a double (binary64, round to nearest, ties to even): the nearest
multiple of the spacing, a tie going to the even multiple, and an infinity when this is `2 ^ 1024`
or more in absolute value. -/
def round64 (x : ℚ) : Dbl :=
  if x = 0 then Dbl.fin 0
  else if (2 : ℚ) ^ (1024 : Int) ≤ |(roundHalfEven (x / ulp x) : ℚ) * ulp x| then
    (if 0 < x then Dbl.pinf else Dbl.ninf)
  else Dbl.fin ((roundHalfEven (x / ulp x) : ℚ) * ulp x)

namespace Dbl

/-- The double nearest to an exact result; an infinity or `NaN` is left as it is. -/
def round : Dbl → Dbl
  | fin q => round64 q
  | pinf => pinf
  | ninf => ninf
  | nan => nan

/-- The sum `x + y` as the machine computes it: the exact sum, rounded to a double. -/
def fadd (x y : Dbl) : Dbl := (x + y).round

/-- The difference `x - y` as the machine computes it: the exact difference, rounded. -/
def fsub (x y : Dbl) : Dbl := (x - y).round

/-- The product `x * y` as the machine computes it: the exact product, rounded. -/
def fmul (x y : Dbl) : Dbl := (x * y).round

/-- The quotient `x / y` as the machine computes it: the exact quotient, rounded. -/
def fdiv (x y : Dbl) : Dbl := (x / y).round

/-- Conversion `double → int` as the machine computes it: truncation toward zero when the
truncated value is in the range of a 32-bit `int`.  Otherwise (a value out of that range, an
infinity, `NaN`) the conversion is undefined in C++; the model gives it the value the x86-64
conversion yields, `-2147483648`. -/
def toInt32 : Dbl → Int
  | fin q =>
    if -2147483648 ≤ Int.tdiv q.num q.den ∧ Int.tdiv q.num q.den ≤ 2147483647 then
      Int.tdiv q.num q.den
    else -2147483648
  | _ => -2147483648

end Dbl

namespace Machine

/-- The call `random->Binomial(ntot, prob)`, whose result is an `Int_t`: the value drawn, reduced
to the range of a 32-bit `int`, and the generator after the call. -/
def Binomial (r : TRandom) (ntot : Int) (prob : Dbl) : Int × TRandom :=
  let value := wrapInt32 (r.binomialValue r.drawn.length ntot prob)
  (value, { r with drawn := r.drawn ++ [Draw.binomial ntot prob value] })

/-- The method `KaonGenerator::generate` as the machine runs it: every `double` operation is
rounded, every conversion `double → int` is the 32-bit one, and every `int` sum or difference is
reduced to the 32-bit range. -/
def generate (g : KaonGenerator) (event : KaonEvent) : KaonEvent × KaonGenerator :=
  let (centrality, random) := g.random.Uniform (Dbl.ofInt g.minMult) (Dbl.ofInt g.maxMult)
  let event := { event with centrality := centrality }
  let (k, random) := Binomial random event.centrality.toInt32 g.kaonFraction
  let event := { event with k := k }
  let (event, random) :=
    if g.dccFraction.eq (Dbl.fin 0) then
      let event := { event with
        k_DCC := (Dbl.fin 0).toInt32
        k0_DCC := (Dbl.fin 0).toInt32
        k0s_DCC := (Dbl.fin 0).toInt32
        kc_DCC := (Dbl.fin 0).toInt32 }
      let event := { event with k_Binomial := event.k }
      let (k0_Binomial, random) := Binomial random event.k_Binomial (Dbl.fin (1/2))
      let event := { event with k0_Binomial := k0_Binomial }
      let (k0s_Binomial, random) := Binomial random event.k0_Binomial (Dbl.fin (1/2))
      let event := { event with k0s_Binomial := k0s_Binomial }
      let event := { event with
        kc_Binomial := wrapInt32 (event.k_Binomial - event.k0_Binomial) }
      (event, random)
    else if g.dccFraction.eq (Dbl.fin 1) then
      let event := { event with k_DCC := event.k }
      let (k0Fraction_DCC, random) := random.Uniform (Dbl.fin 0) (Dbl.fin 1)
      let event := { event with k0Fraction_DCC := k0Fraction_DCC }
      let event := { event with
        k0_DCC := (Dbl.fmul (Dbl.ofInt event.k_DCC) event.k0Fraction_DCC).toInt32 }
      let (k0s_DCC, random) := Binomial random event.k0_DCC (Dbl.fin (1/2))
      let event := { event with k0s_DCC := k0s_DCC }
      let event := { event with kc_DCC := wrapInt32 (event.k_DCC - event.k0_DCC) }
      let event := { event with
        k_Binomial := (Dbl.fin 0).toInt32
        k0_Binomial := (Dbl.fin 0).toInt32
        k0s_Binomial := (Dbl.fin 0).toInt32
        kc_Binomial := (Dbl.fin 0).toInt32 }
      (event, random)
    else
      let event := { event with
        k_DCC := (Dbl.fmul g.dccFraction (Dbl.ofInt event.k)).toInt32 }
      let (k0Fraction_DCC, random) := random.Uniform (Dbl.fin 0) (Dbl.fin 1)
      let event := { event with k0Fraction_DCC := k0Fraction_DCC }
      let event := { event with
        k0_DCC := (Dbl.fmul (Dbl.ofInt event.k_DCC) event.k0Fraction_DCC).toInt32 }
      let (k0s_DCC, random) := Binomial random event.k0_DCC (Dbl.fin (1/2))
      let event := { event with k0s_DCC := k0s_DCC }
      let event := { event with kc_DCC := wrapInt32 (event.k_DCC - event.k0_DCC) }
      let event := { event with k_Binomial := wrapInt32 (event.k - event.k_DCC) }
      let (k0_Binomial, random) := Binomial random event.k_Binomial (Dbl.fin (1/2))
      let event := { event with k0_Binomial := k0_Binomial }
      let (k0s_Binomial, random) := Binomial random event.k0_Binomial (Dbl.fin (1/2))
      let event := { event with k0s_Binomial := k0s_Binomial }
      let event := { event with
        kc_Binomial := wrapInt32 (event.k_Binomial - event.k0_Binomial) }
      (event, random)
  let event := { event with k0 := wrapInt32 (event.k0_Binomial + event.k0_DCC) }
  let event := { event with k0s := wrapInt32 (event.k0s_Binomial + event.k0s_DCC) }
  let event := { event with kc := wrapInt32 (event.kc_Binomial + event.kc_DCC) }
  let event := { event with k0Fraction := Dbl.fdiv (Dbl.ofInt event.k0) (Dbl.ofInt event.k) }
  let event := { event with k0sFraction := Dbl.fdiv (Dbl.ofInt event.k0s) (Dbl.ofInt event.k) }
  let event := { event with
    k0Fraction_DCC := Dbl.fdiv (Dbl.ofInt event.k0_DCC) (Dbl.ofInt event.k_DCC) }
  let event := { event with
    k0sFraction_DCC := Dbl.fdiv (Dbl.ofInt event.k0s_DCC) (Dbl.ofInt event.k_DCC) }
  let event := { event with
    k0Fraction_Binomial := Dbl.fdiv (Dbl.ofInt event.k0_Binomial) (Dbl.ofInt event.k_Binomial) }
  let event := { event with
    k0sFraction_Binomial :=
      Dbl.fdiv (Dbl.ofInt event.k0s_Binomial) (Dbl.ofInt event.k_Binomial) }
  (event, { g with random := random })

/-- The calls of the random generator made by one call of `generate`, in the order made. -/
def draws (g : KaonGenerator) (event : KaonEvent) : List Draw :=
  (generate g event).2.random.drawn.drop g.random.drawn.length

/-- The method `KaonMoments::fill` as the machine runs it: the counter is incremented in 32-bit
`int` arithmetic, a square or a cross product is formed in 32-bit `int` arithmetic, and every
addition to a running sum is a rounded `double` addition. -/
def fill (m : KaonMoments) (kaonEvent : KaonEvent) : KaonMoments :=
  { m with
    nEvents := wrapInt32 (m.nEvents + 1)
    sum_k := Dbl.fadd m.sum_k (Dbl.ofInt kaonEvent.k)
    sum_kSq := Dbl.fadd m.sum_kSq (Dbl.ofInt (wrapInt32 (kaonEvent.k * kaonEvent.k)))
    sum_k0 := Dbl.fadd m.sum_k0 (Dbl.ofInt kaonEvent.k0)
    sum_k0Sq := Dbl.fadd m.sum_k0Sq (Dbl.ofInt (wrapInt32 (kaonEvent.k0 * kaonEvent.k0)))
    sum_k0s := Dbl.fadd m.sum_k0s (Dbl.ofInt kaonEvent.k0s)
    sum_k0sSq := Dbl.fadd m.sum_k0sSq (Dbl.ofInt (wrapInt32 (kaonEvent.k0s * kaonEvent.k0s)))
    sum_kc := Dbl.fadd m.sum_kc (Dbl.ofInt kaonEvent.kc)
    sum_kcSq := Dbl.fadd m.sum_kcSq (Dbl.ofInt (wrapInt32 (kaonEvent.kc * kaonEvent.kc)))
    sum_kck0 := Dbl.fadd m.sum_kck0 (Dbl.ofInt (wrapInt32 (kaonEvent.kc * kaonEvent.k0)))
    sum_kck0s := Dbl.fadd m.sum_kck0s (Dbl.ofInt (wrapInt32 (kaonEvent.kc * kaonEvent.k0s)))
    sum_k_Binomial := Dbl.fadd m.sum_k_Binomial (Dbl.ofInt kaonEvent.k_Binomial)
    sum_kSq_Binomial := Dbl.fadd m.sum_kSq_Binomial
      (Dbl.ofInt (wrapInt32 (kaonEvent.k_Binomial * kaonEvent.k_Binomial)))
    sum_k0_Binomial := Dbl.fadd m.sum_k0_Binomial (Dbl.ofInt kaonEvent.k0_Binomial)
    sum_k0Sq_Binomial := Dbl.fadd m.sum_k0Sq_Binomial
      (Dbl.ofInt (wrapInt32 (kaonEvent.k0_Binomial * kaonEvent.k0_Binomial)))
    sum_k0s_Binomial := Dbl.fadd m.sum_k0s_Binomial (Dbl.ofInt kaonEvent.k0s_Binomial)
    sum_k0sSq_Binomial := Dbl.fadd m.sum_k0sSq_Binomial
      (Dbl.ofInt (wrapInt32 (kaonEvent.k0s_Binomial * kaonEvent.k0s_Binomial)))
    sum_kc_Binomial := Dbl.fadd m.sum_kc_Binomial (Dbl.ofInt kaonEvent.kc_Binomial)
    sum_kcSq_Binomial := Dbl.fadd m.sum_kcSq_Binomial
      (Dbl.ofInt (wrapInt32 (kaonEvent.kc_Binomial * kaonEvent.kc_Binomial)))
    sum_k_DCC := Dbl.fadd m.sum_k_DCC (Dbl.ofInt kaonEvent.k_DCC)
    sum_kSq_DCC := Dbl.fadd m.sum_kSq_DCC
      (Dbl.ofInt (wrapInt32 (kaonEvent.k_DCC * kaonEvent.k_DCC)))
    sum_k0_DCC := Dbl.fadd m.sum_k0_DCC (Dbl.ofInt kaonEvent.k0_DCC)
    sum_k0Sq_DCC := Dbl.fadd m.sum_k0Sq_DCC
      (Dbl.ofInt (wrapInt32 (kaonEvent.k0_DCC * kaonEvent.k0_DCC)))
    sum_k0s_DCC := Dbl.fadd m.sum_k0s_DCC (Dbl.ofInt kaonEvent.k0s_DCC)
    sum_k0sSq_DCC := Dbl.fadd m.sum_k0sSq_DCC
      (Dbl.ofInt (wrapInt32 (kaonEvent.k0s_DCC * kaonEvent.k0s_DCC)))
    sum_kc_DCC := Dbl.fadd m.sum_kc_DCC (Dbl.ofInt kaonEvent.kc_DCC)
    sum_kcSq_DCC := Dbl.fadd m.sum_kcSq_DCC
      (Dbl.ofInt (wrapInt32 (kaonEvent.kc_DCC * kaonEvent.kc_DCC))) }

/-- The method `KaonMoments::calculateMoments` as the machine runs it: every division,
subtraction, addition and product is a rounded `double` operation. -/
def calculateMoments (m : KaonMoments) : Report × KaonMoments :=
  if m.nEvents < 2 then (Report.cannotCalculate, m)
  else
    let nev := Dbl.ofInt m.nEvents
    let m := { m with
      k_avg := Dbl.fdiv m.sum_k nev
      kSq_avg := Dbl.fdiv m.sum_kSq nev
      k0_avg := Dbl.fdiv m.sum_k0 nev
      k0Sq_avg := Dbl.fdiv m.sum_k0Sq nev
      k0s_avg := Dbl.fdiv m.sum_k0s nev
      k0sSq_avg := Dbl.fdiv m.sum_k0sSq nev
      kc_avg := Dbl.fdiv m.sum_kc nev
      kcSq_avg := Dbl.fdiv m.sum_kcSq nev
      k_Binomial_avg := Dbl.fdiv m.sum_k_Binomial nev
      kSq_Binomial_avg := Dbl.fdiv m.sum_kSq_Binomial nev
      k0_Binomial_avg := Dbl.fdiv m.sum_k0_Binomial nev
      k0Sq_Binomial_avg := Dbl.fdiv m.sum_k0Sq_Binomial nev
      k0s_Binomial_avg := Dbl.fdiv m.sum_k0s_Binomial nev
      k0sSq_Binomial_avg := Dbl.fdiv m.sum_k0sSq_Binomial nev
      kc_Binomial_avg := Dbl.fdiv m.sum_kc_Binomial nev
      kcSq_Binomial_avg := Dbl.fdiv m.sum_kcSq_Binomial nev
      k_DCC_avg := Dbl.fdiv m.sum_k_DCC nev
      kSq_DCC_avg := Dbl.fdiv m.sum_kSq_DCC nev
      k0_DCC_avg := Dbl.fdiv m.sum_k0_DCC nev
      k0Sq_DCC_avg := Dbl.fdiv m.sum_k0Sq_DCC nev
      k0s_DCC_avg := Dbl.fdiv m.sum_k0s_DCC nev
      k0sSq_DCC_avg := Dbl.fdiv m.sum_k0sSq_DCC nev
      kc_DCC_avg := Dbl.fdiv m.sum_kc_DCC nev
      kcSq_DCC_avg := Dbl.fdiv m.sum_kcSq_DCC nev }
    let m := { m with
      kF_avg := Dbl.fsub m.kSq_avg m.k_avg
      k0F_avg := Dbl.fsub m.k0Sq_avg m.k0_avg
      k0sF_avg := Dbl.fsub m.k0sSq_avg m.k0s_avg
      kcF_avg := Dbl.fsub m.kcSq_avg m.kc_avg
      kF_Binomial_avg := Dbl.fsub m.kSq_Binomial_avg m.k_Binomial_avg
      k0F_Binomial_avg := Dbl.fsub m.k0Sq_Binomial_avg m.k0_Binomial_avg
      k0sF_Binomial_avg := Dbl.fsub m.k0sSq_Binomial_avg m.k0s_Binomial_avg
      kcF_Binomial_avg := Dbl.fsub m.kcSq_Binomial_avg m.kc_Binomial_avg
      kF_DCC_avg := Dbl.fsub m.kSq_DCC_avg m.k_DCC_avg
      k0F_DCC_avg := Dbl.fsub m.k0Sq_DCC_avg m.k0_DCC_avg
      k0sF_DCC_avg := Dbl.fsub m.k0sSq_DCC_avg m.k0s_DCC_avg
      kcF_DCC_avg := Dbl.fsub m.kcSq_DCC_avg m.kc_DCC_avg }
    let m := { m with
      kck0_avg := Dbl.fdiv m.sum_kck0 nev
      kck0s_avg := Dbl.fdiv m.sum_kck0s nev }
    let m := { m with
      r00 := Dbl.fsub (Dbl.fdiv (Dbl.fdiv m.k0F_avg m.k0_avg) m.k0_avg) (Dbl.fin 1)
      r0s0s := Dbl.fsub (Dbl.fdiv (Dbl.fdiv m.k0sF_avg m.k0s_avg) m.k0s_avg) (Dbl.fin 1)
      rchch := Dbl.fsub (Dbl.fdiv (Dbl.fdiv m.kcF_avg m.kc_avg) m.kc_avg) (Dbl.fin 1)
      rch0 := Dbl.fsub (Dbl.fdiv (Dbl.fdiv m.kck0_avg m.kc_avg) m.k0_avg) (Dbl.fin 1)
      rch0s := Dbl.fsub (Dbl.fdiv (Dbl.fdiv m.kck0s_avg m.kc_avg) m.k0s_avg) (Dbl.fin 1) }
    let m := { m with
      nuDyn_ch0 := Dbl.fsub (Dbl.fadd m.rchch m.r00) (Dbl.fmul (Dbl.fin 2) m.rch0)
      nuDyn_ch0s := Dbl.fsub (Dbl.fadd m.rchch m.r0s0s) (Dbl.fmul (Dbl.fin 2) m.rch0s) }
    (Report.calculated, m)

/-- The merge of the specification's merge law as a machine would compute it: the counters of
the two accumulators are added in 32-bit `int` arithmetic and the running sums component-wise
in rounded `double` arithmetic.  (The repository has no merge operation; this is the operation
the law is stated with.)  The derived members, which `calculateMoments` recomputes, are those of
`a`. -/
def merge (a b : KaonMoments) : KaonMoments :=
  { a with
    nEvents := wrapInt32 (a.nEvents + b.nEvents)
    sum_k := Dbl.fadd a.sum_k b.sum_k
    sum_kSq := Dbl.fadd a.sum_kSq b.sum_kSq
    sum_k0 := Dbl.fadd a.sum_k0 b.sum_k0
    sum_k0Sq := Dbl.fadd a.sum_k0Sq b.sum_k0Sq
    sum_k0s := Dbl.fadd a.sum_k0s b.sum_k0s
    sum_k0sSq := Dbl.fadd a.sum_k0sSq b.sum_k0sSq
    sum_kc := Dbl.fadd a.sum_kc b.sum_kc
    sum_kcSq := Dbl.fadd a.sum_kcSq b.sum_kcSq
    sum_kck0 := Dbl.fadd a.sum_kck0 b.sum_kck0
    sum_kck0s := Dbl.fadd a.sum_kck0s b.sum_kck0s
    sum_k_Binomial := Dbl.fadd a.sum_k_Binomial b.sum_k_Binomial
    sum_kSq_Binomial := Dbl.fadd a.sum_kSq_Binomial b.sum_kSq_Binomial
    sum_k0_Binomial := Dbl.fadd a.sum_k0_Binomial b.sum_k0_Binomial
    sum_k0Sq_Binomial := Dbl.fadd a.sum_k0Sq_Binomial b.sum_k0Sq_Binomial
    sum_k0s_Binomial := Dbl.fadd a.sum_k0s_Binomial b.sum_k0s_Binomial
    sum_k0sSq_Binomial := Dbl.fadd a.sum_k0sSq_Binomial b.sum_k0sSq_Binomial
    sum_kc_Binomial := Dbl.fadd a.sum_kc_Binomial b.sum_kc_Binomial
    sum_kcSq_Binomial := Dbl.fadd a.sum_kcSq_Binomial b.sum_kcSq_Binomial
    sum_k_DCC := Dbl.fadd a.sum_k_DCC b.sum_k_DCC
    sum_kSq_DCC := Dbl.fadd a.sum_kSq_DCC b.sum_kSq_DCC
    sum_k0_DCC := Dbl.fadd a.sum_k0_DCC b.sum_k0_DCC
    sum_k0Sq_DCC := Dbl.fadd a.sum_k0Sq_DCC b.sum_k0Sq_DCC
    sum_k0s_DCC := Dbl.fadd a.sum_k0s_DCC b.sum_k0s_DCC
    sum_k0sSq_DCC := Dbl.fadd a.sum_k0sSq_DCC b.sum_k0sSq_DCC
    sum_kc_DCC := Dbl.fadd a.sum_kc_DCC b.sum_kc_DCC
    sum_kcSq_DCC := Dbl.fadd a.sum_kcSq_DCC b.sum_kcSq_DCC }

end Machine

/-- A random generator as `halfRandom`, except that the neutral fraction drawn is
`1 - 2 ^ (-31)`. -/
def edgeRandom : TRandom :=
  { uniformValue := fun _ x1 x2 =>
      if x1 = Dbl.fin 0 ∧ x2 = Dbl.fin 1 then Dbl.fin (2147483647/2147483648) else x2
    binomialValue := fun _ ntot _ => if 0 ≤ ntot then ntot / 2 else 0
    drawn := [] }

/-- A generator built with `dccFraction = 3e9` on multiplicities 1 to 2; with `edgeRandom` it
draws `k = 1`. -/
def overflowGenerator : KaonGenerator :=
  KaonGenerator.new 1 2 (Dbl.fin (1/4)) (Dbl.fin 3000000000) edgeRandom

/-- The double nearest to `0.7`. -/
def double07 : ℚ := 3152519739159347 / 4503599627370496

/-- A mixed generator with `dccFraction = 0.7` (the double) on multiplicities 1 to 20; with
`halfRandom` it draws `k = 10`. -/
def seventyGenerator : KaonGenerator :=
  KaonGenerator.new 1 20 (Dbl.fin (1/4)) (Dbl.fin double07) halfRandom

/-- Every count of the event is in the range of a 32-bit `int`, as the members of a `KaonEvent`
are. -/
def KaonEvent.CountsInt32 (e : KaonEvent) : Prop :=
  (-2147483648 ≤ e.k ∧ e.k ≤ 2147483647) ∧
    (-2147483648 ≤ e.k0 ∧ e.k0 ≤ 2147483647) ∧
    (-2147483648 ≤ e.k0s ∧ e.k0s ≤ 2147483647) ∧
    (-2147483648 ≤ e.kc ∧ e.kc ≤ 2147483647) ∧
    (-2147483648 ≤ e.k_Binomial ∧ e.k_Binomial ≤ 2147483647) ∧
    (-2147483648 ≤ e.k0_Binomial ∧ e.k0_Binomial ≤ 2147483647) ∧
    (-2147483648 ≤ e.k0s_Binomial ∧ e.k0s_Binomial ≤ 2147483647) ∧
    (-2147483648 ≤ e.kc_Binomial ∧ e.kc_Binomial ≤ 2147483647) ∧
    (-2147483648 ≤ e.k_DCC ∧ e.k_DCC ≤ 2147483647) ∧
    (-2147483648 ≤ e.k0_DCC ∧ e.k0_DCC ≤ 2147483647) ∧
    (-2147483648 ≤ e.k0s_DCC ∧ e.k0s_DCC ≤ 2147483647) ∧
    (-2147483648 ≤ e.kc_DCC ∧ e.kc_DCC ≤ 2147483647)

/-- The names of the running sums of `KaonMoments`. -/
inductive SumIndex where
  | k
  | kSq
  | k0
  | k0Sq
  | k0s
  | k0sSq
  | kc
  | kcSq
  | kck0
  | kck0s
  | k_Binomial
  | kSq_Binomial
  | k0_Binomial
  | k0Sq_Binomial
  | k0s_Binomial
  | k0sSq_Binomial
  | kc_Binomial
  | kcSq_Binomial
  | k_DCC
  | kSq_DCC
  | k0_DCC
  | k0Sq_DCC
  | k0s_DCC
  | k0sSq_DCC
  | kc_DCC
  | kcSq_DCC
  deriving DecidableEq

/-- The running sum of that name. -/
def KaonMoments.sumOf (m : KaonMoments) : SumIndex → Dbl
  | SumIndex.k => m.sum_k
  | SumIndex.kSq => m.sum_kSq
  | SumIndex.k0 => m.sum_k0
  | SumIndex.k0Sq => m.sum_k0Sq
  | SumIndex.k0s => m.sum_k0s
  | SumIndex.k0sSq => m.sum_k0sSq
  | SumIndex.kc => m.sum_kc
  | SumIndex.kcSq => m.sum_kcSq
  | SumIndex.kck0 => m.sum_kck0
  | SumIndex.kck0s => m.sum_kck0s
  | SumIndex.k_Binomial => m.sum_k_Binomial
  | SumIndex.kSq_Binomial => m.sum_kSq_Binomial
  | SumIndex.k0_Binomial => m.sum_k0_Binomial
  | SumIndex.k0Sq_Binomial => m.sum_k0Sq_Binomial
  | SumIndex.k0s_Binomial => m.sum_k0s_Binomial
  | SumIndex.k0sSq_Binomial => m.sum_k0sSq_Binomial
  | SumIndex.kc_Binomial => m.sum_kc_Binomial
  | SumIndex.kcSq_Binomial => m.sum_kcSq_Binomial
  | SumIndex.k_DCC => m.sum_k_DCC
  | SumIndex.kSq_DCC => m.sum_kSq_DCC
  | SumIndex.k0_DCC => m.sum_k0_DCC
  | SumIndex.k0Sq_DCC => m.sum_k0Sq_DCC
  | SumIndex.k0s_DCC => m.sum_k0s_DCC
  | SumIndex.k0sSq_DCC => m.sum_k0sSq_DCC
  | SumIndex.kc_DCC => m.sum_kc_DCC
  | SumIndex.kcSq_DCC => m.sum_kcSq_DCC

/-- The `int` that `fill` converts and adds to the running sum of that name: a count of the
event, or a square or cross product of counts formed in 32-bit `int` arithmetic. -/
def KaonEvent.addend (e : KaonEvent) : SumIndex → Int
  | SumIndex.k => e.k
  | SumIndex.kSq => wrapInt32 (e.k * e.k)
  | SumIndex.k0 => e.k0
  | SumIndex.k0Sq => wrapInt32 (e.k0 * e.k0)
  | SumIndex.k0s => e.k0s
  | SumIndex.k0sSq => wrapInt32 (e.k0s * e.k0s)
  | SumIndex.kc => e.kc
  | SumIndex.kcSq => wrapInt32 (e.kc * e.kc)
  | SumIndex.kck0 => wrapInt32 (e.kc * e.k0)
  | SumIndex.kck0s => wrapInt32 (e.kc * e.k0s)
  | SumIndex.k_Binomial => e.k_Binomial
  | SumIndex.kSq_Binomial => wrapInt32 (e.k_Binomial * e.k_Binomial)
  | SumIndex.k0_Binomial => e.k0_Binomial
  | SumIndex.k0Sq_Binomial => wrapInt32 (e.k0_Binomial * e.k0_Binomial)
  | SumIndex.k0s_Binomial => e.k0s_Binomial
  | SumIndex.k0sSq_Binomial => wrapInt32 (e.k0s_Binomial * e.k0s_Binomial)
  | SumIndex.kc_Binomial => e.kc_Binomial
  | SumIndex.kcSq_Binomial => wrapInt32 (e.kc_Binomial * e.kc_Binomial)
  | SumIndex.k_DCC => e.k_DCC
  | SumIndex.kSq_DCC => wrapInt32 (e.k_DCC * e.k_DCC)
  | SumIndex.k0_DCC => e.k0_DCC
  | SumIndex.k0Sq_DCC => wrapInt32 (e.k0_DCC * e.k0_DCC)
  | SumIndex.k0s_DCC => e.k0s_DCC
  | SumIndex.k0sSq_DCC => wrapInt32 (e.k0s_DCC * e.k0s_DCC)
  | SumIndex.kc_DCC => e.kc_DCC
  | SumIndex.kcSq_DCC => wrapInt32 (e.kc_DCC * e.kc_DCC)

/-- The invariant of the running sums as the machine evaluates it, every `+` being a rounded
`double` addition: `sum_kc + sum_k0 == sum_k`, and each of `sum_k`, `sum_k0`, `sum_k0s`, `sum_kc`
equals the sum of its Binomial and its DCC counterpart. -/
def Machine.Invariant (m : KaonMoments) : Prop :=
  Dbl.fadd m.sum_kc m.sum_k0 = m.sum_k ∧
    m.sum_k = Dbl.fadd m.sum_k_Binomial m.sum_k_DCC ∧
    m.sum_k0 = Dbl.fadd m.sum_k0_Binomial m.sum_k0_DCC ∧
    m.sum_k0s = Dbl.fadd m.sum_k0s_Binomial m.sum_k0s_DCC ∧
    m.sum_kc = Dbl.fadd m.sum_kc_Binomial m.sum_kc_DCC

/-- An event of `2 ^ 30` kaons, all charged and of the binomial category. -/
def bigEvent : KaonEvent :=
  { zeroEvent with
    k := 1073741824, kc := 1073741824, k_Binomial := 1073741824, kc_Binomial := 1073741824 }

/-- An event of one kaon, neutral and of the binomial category. -/
def unitEvent : KaonEvent :=
  { zeroEvent with k := 1, k0 := 1, k_Binomial := 1, k0_Binomial := 1 }

/-- A list of `2 ^ 23` events, each `bigEvent`. -/
def bigList : List KaonEvent := List.replicate 8388608 bigEvent

/-- A list of `2 ^ 23 + 3` events: `2 ^ 23` times `bigEvent`, then three times `unitEvent`. -/
def longList : List KaonEvent := bigList ++ [unitEvent, unitEvent, unitEvent]

/-- The accumulator holds the events of the list exactly: its counter is their number and every
running sum is the exact sum of the integers `fill` adds for them. -/
def KaonMoments.Accumulates (m : KaonMoments) (es : List KaonEvent) : Prop :=
  m.nEvents = (es.length : Int) ∧
    ∀ i, m.sumOf i = Dbl.fin (((es.map (fun e => e.addend i)).sum : Int) : ℚ)

/-- The average `average_X` as the code computes it: the rounded quotient `sum_X / n`. -/
def roundedAverage (sum : Dbl) (n : Int) : Dbl := Dbl.fdiv sum (Dbl.ofInt n)

/-- The factorial average as the code computes it: the rounded difference of the two rounded
averages. -/
def roundedFactorialAverage (sumSq sum : Dbl) (n : Int) : Dbl :=
  Dbl.fsub (roundedAverage sumSq n) (roundedAverage sum n)

/-- The ratio `R_XX` as the code computes it: the factorial average divided by the average, the
rounded quotient divided by the average again, and `1` subtracted from the rounded result. -/
def roundedRSame (sumSq sum : Dbl) (n : Int) : Dbl :=
  Dbl.fsub
    (Dbl.fdiv (Dbl.fdiv (roundedFactorialAverage sumSq sum n) (roundedAverage sum n))
      (roundedAverage sum n))
    (Dbl.fin 1)

/-- The ratio `R_XY` as the code computes it: the average of the product divided by the average
of `X`, the rounded quotient divided by the average of `Y`, and `1` subtracted. -/
def roundedRCross (sumXY sumX sumY : Dbl) (n : Int) : Dbl :=
  Dbl.fsub
    (Dbl.fdiv (Dbl.fdiv (roundedAverage sumXY n) (roundedAverage sumX n)) (roundedAverage sumY n))
    (Dbl.fin 1)

/-- The value `nuDyn` as the code computes it: `(R_cc + R_XX) - 2·R_cX`, each operation
rounded. -/
def roundedNuDyn (rcc rxx rcx : Dbl) : Dbl :=
  Dbl.fsub (Dbl.fadd rcc rxx) (Dbl.fmul (Dbl.fin 2) rcx)

/-- An event of 3 kaons of the binomial category: 2 neutral (1 short-lived), 1 charged. -/
def ratioEvent1 : KaonEvent :=
  { zeroEvent with
    k := 3, k0 := 2, k0s := 1, kc := 1
    k_Binomial := 3, k0_Binomial := 2, k0s_Binomial := 1, kc_Binomial := 1 }

/-- An event of 9 kaons of the binomial category: 7 neutral (3 short-lived), 2 charged. -/
def ratioEvent2 : KaonEvent :=
  { zeroEvent with
    k := 9, k0 := 7, k0s := 3, kc := 2
    k_Binomial := 9, k0_Binomial := 7, k0s_Binomial := 3, kc_Binomial := 2 }

/-- The accumulator after `initialize` and the two events `ratioEvent1`, `ratioEvent2`, as the
machine fills it. -/
def ratioMoments : KaonMoments :=
  [ratioEvent1, ratioEvent2].foldl Machine.fill zeroMoments.initializeCounters

/-- The accumulator after `initialize` and the two sample events, as the machine fills it. -/
def sampleMachineMoments : KaonMoments :=
  [sampleEvent1, sampleEvent2].foldl Machine.fill zeroMoments.initializeCounters

/-- Every count of the event is at most `B` in absolute value. -/
def KaonEvent.CountsWithin (e : KaonEvent) (B : Int) : Prop :=
  (|e.k| ≤ B ∧ |e.k0| ≤ B ∧ |e.k0s| ≤ B ∧ |e.kc| ≤ B) ∧
    (|e.k_Binomial| ≤ B ∧ |e.k0_Binomial| ≤ B ∧ |e.k0s_Binomial| ≤ B ∧ |e.kc_Binomial| ≤ B) ∧
    (|e.k_DCC| ≤ B ∧ |e.k0_DCC| ≤ B ∧ |e.k0s_DCC| ≤ B ∧ |e.kc_DCC| ≤ B)

/-- An event of `32768` kaons, all charged and of the binomial category; `32768² = 2 ^ 30` is in
the range of `int`. -/
def squareEvent : KaonEvent :=
  { zeroEvent with k := 32768, kc := 32768, k_Binomial := 32768, kc_Binomial := 32768 }

/-- A list of `2 ^ 23` events, each `squareEvent`. -/
def squareList : List KaonEvent := List.replicate 8388608 squareEvent

/-- A list of `2 ^ 23 + 3` events: `2 ^ 23` times `squareEvent`, then three times `unitEvent`. -/
def mergeList : List KaonEvent := squareList ++ [unitEvent, unitEvent, unitEvent]

/-! ## Arithmetic of `Dbl` -/

namespace Dbl

@[simp] theorem fin_add_fin (a b : ℚ) : fin a + fin b = fin (a + b) := rfl

@[simp] theorem fin_sub_fin (a b : ℚ) : fin a - fin b = fin (a - b) := by
  show add (fin a) (neg (fin b)) = fin (a - b)
  simp [add, neg, sub_eq_add_neg]

@[simp] theorem fin_mul_fin (a b : ℚ) : fin a * fin b = fin (a * b) := rfl

theorem fin_div_fin (a b : ℚ) (hb : b ≠ 0) : fin a / fin b = fin (a / b) := by
  show div (fin a) (fin b) = fin (a / b)
  simp [div, hb]

@[simp] theorem toInt_fin_zero : (fin 0).toInt = 0 := by
  simp [toInt]

@[simp] theorem eq_fin_iff (x : Dbl) (q : ℚ) : x.eq (fin q) = true ↔ x = fin q := by
  cases x <;> simp [eq]

theorem dadd_comm (x y : Dbl) : x + y = y + x := by
  show add x y = add y x
  cases x <;> cases y <;> simp [add, add_comm]

@[simp] theorem dadd_zero (x : Dbl) : x + fin 0 = x := by
  show add x (fin 0) = x
  cases x <;> simp [add]

theorem isFinite_div_zero (x : Dbl) : (x / fin 0).isFinite = false := by
  show (div x (fin 0)).isFinite = false
  cases x <;> simp [div, isFinite]
  split_ifs <;> rfl

theorem isFinite_div_left (x y : Dbl) (h : x.isFinite = false) : (x / y).isFinite = false := by
  show (div x y).isFinite = false
  cases x <;> cases y <;> simp [div, isFinite] at h ⊢ <;> split_ifs <;> rfl

theorem isFinite_sub_left (x y : Dbl) (h : x.isFinite = false) : (x - y).isFinite = false := by
  show (add x (neg y)).isFinite = false
  cases x <;> cases y <;> simp [add, neg, isFinite] at h ⊢

theorem isFinite_sub_right (x y : Dbl) (h : y.isFinite = false) : (x - y).isFinite = false := by
  show (add x (neg y)).isFinite = false
  cases x <;> cases y <;> simp [add, neg, isFinite] at h ⊢

theorem isFinite_add_left (x y : Dbl) (h : x.isFinite = false) : (x + y).isFinite = false := by
  show (add x y).isFinite = false
  cases x <;> cases y <;> simp [add, isFinite] at h ⊢

theorem isFinite_add_right (x y : Dbl) (h : y.isFinite = false) : (x + y).isFinite = false := by
  show (add x y).isFinite = false
  cases x <;> cases y <;> simp [add, isFinite] at h ⊢

theorem isFinite_two_mul (x : Dbl) (h : x.isFinite = false) : (fin 2 * x).isFinite = false := by
  show (mul (fin 2) x).isFinite = false
  cases x <;> simp [mul, infTimes, isFinite] at h ⊢

end Dbl

/-- An integer already in the 32-bit range is left as it is. -/
theorem wrapInt32_of_range (x : Int) (hlo : -2147483648 ≤ x) (hhi : x ≤ 2147483647) :
    wrapInt32 x = x := by
  unfold wrapInt32
  omega

/-! ## The generator -/

/-- C8. With `dccFraction = 0.0`, whatever the other parameters and the outcomes of the draws,
the event written by `generate` has `k_DCC = k0_DCC = k0s_DCC = kc_DCC = 0` and
`k_Binomial = k`. -/
theorem generate_pure_binomial (g : KaonGenerator) (event : KaonEvent)
    (h : g.dccFraction = Dbl.fin 0) :
    (g.generate event).1.k_DCC = 0 ∧ (g.generate event).1.k0_DCC = 0 ∧
      (g.generate event).1.k0s_DCC = 0 ∧ (g.generate event).1.kc_DCC = 0 ∧
      (g.generate event).1.k_Binomial = (g.generate event).1.k := by
  simp [KaonGenerator.generate, TRandom.Uniform, TRandom.Binomial, h]

/-- Witness of C8: a generator built with `dccFraction = 0.0` on multiplicities 1 to 200. -/
theorem generate_pure_binomial_witness :
    (KaonGenerator.new 1 200 (Dbl.fin (3/10)) (Dbl.fin 0) halfRandom).dccFraction = Dbl.fin 0 ∧
      ((KaonGenerator.new 1 200 (Dbl.fin (3/10)) (Dbl.fin 0) halfRandom).generate zeroEvent).1.k
        = 100 ∧
      ((KaonGenerator.new 1 200 (Dbl.fin (3/10)) (Dbl.fin 0) halfRandom).generate
        zeroEvent).1.k_Binomial = 100 ∧
      ((KaonGenerator.new 1 200 (Dbl.fin (3/10)) (Dbl.fin 0) halfRandom).generate
        zeroEvent).1.k_DCC = 0 :=
  ⟨rfl, by with_unfolding_all decide,
    (generate_pure_binomial (KaonGenerator.new 1 200 (Dbl.fin (3/10)) (Dbl.fin 0) halfRandom)
      zeroEvent rfl).2.2.2.2.trans (by with_unfolding_all decide),
    (generate_pure_binomial (KaonGenerator.new 1 200 (Dbl.fin (3/10)) (Dbl.fin 0) halfRandom)
      zeroEvent rfl).1⟩

/-- C9. With `dccFraction = 1.0`, whatever the other parameters and the outcomes of the draws,
the event written by `generate` has
`k_Binomial = k0_Binomial = k0s_Binomial = kc_Binomial = 0` and `k_DCC = k`. -/
theorem generate_pure_dcc (g : KaonGenerator) (event : KaonEvent)
    (h : g.dccFraction = Dbl.fin 1) :
    (g.generate event).1.k_Binomial = 0 ∧ (g.generate event).1.k0_Binomial = 0 ∧
      (g.generate event).1.k0s_Binomial = 0 ∧ (g.generate event).1.kc_Binomial = 0 ∧
      (g.generate event).1.k_DCC = (g.generate event).1.k := by
  simp [KaonGenerator.generate, TRandom.Uniform, TRandom.Binomial, h]

/-- Witness of C9: the scenario of the specification, `kaonFraction = 0.3`, `dccFraction = 1.0`,
multiplicities 800 to 1000. -/
theorem generate_pure_dcc_witness :
    (KaonGenerator.new 800 1000 (Dbl.fin (3/10)) (Dbl.fin 1) halfRandom).dccFraction
        = Dbl.fin 1 ∧
      ((KaonGenerator.new 800 1000 (Dbl.fin (3/10)) (Dbl.fin 1) halfRandom).generate
        zeroEvent).1.k = 500 ∧
      ((KaonGenerator.new 800 1000 (Dbl.fin (3/10)) (Dbl.fin 1) halfRandom).generate
        zeroEvent).1.k_DCC = 500 ∧
      ((KaonGenerator.new 800 1000 (Dbl.fin (3/10)) (Dbl.fin 1) halfRandom).generate
        zeroEvent).1.k_Binomial = 0 :=
  ⟨rfl, by with_unfolding_all decide,
    (generate_pure_dcc (KaonGenerator.new 800 1000 (Dbl.fin (3/10)) (Dbl.fin 1) halfRandom)
      zeroEvent rfl).2.2.2.2.trans (by with_unfolding_all decide),
    (generate_pure_dcc (KaonGenerator.new 800 1000 (Dbl.fin (3/10)) (Dbl.fin 1) halfRandom)
      zeroEvent rfl).1⟩

/-- C10. If every `Binomial(n, p)` call made by `generate` returns an integer between `0` and
`n`, the event written satisfies `k0s_Binomial ≤ k0_Binomial`, `k0s_DCC ≤ k0_DCC` and
`k0s ≤ k0`, whatever the parameters (all three branches on `dccFraction` are covered). -/
theorem generate_k0s_le_k0 (g : KaonGenerator) (event : KaonEvent)
    (h : ∀ d ∈ g.draws event, d.inRange) :
    (g.generate event).1.k0s_Binomial ≤ (g.generate event).1.k0_Binomial ∧
      (g.generate event).1.k0s_DCC ≤ (g.generate event).1.k0_DCC ∧
      (g.generate event).1.k0s ≤ (g.generate event).1.k0 := by
  simp only [KaonGenerator.draws, KaonGenerator.generate, TRandom.Uniform,
    TRandom.Binomial] at h ⊢
  split_ifs at h ⊢
  all_goals simp [Draw.inRange] at h ⊢
  all_goals omega

/-- Witness of C10: a mixed generator (`dccFraction = 0.5`) whose binomial calls return half of
the trial count. -/
theorem generate_k0s_le_k0_witness :
    (∀ d ∈ (KaonGenerator.new 1 200 (Dbl.fin (3/10)) (Dbl.fin (1/2)) halfRandom).draws zeroEvent,
        d.inRange) ∧
      ((KaonGenerator.new 1 200 (Dbl.fin (3/10)) (Dbl.fin (1/2)) halfRandom).generate
        zeroEvent).1.k0s_Binomial ≤
      ((KaonGenerator.new 1 200 (Dbl.fin (3/10)) (Dbl.fin (1/2)) halfRandom).generate
        zeroEvent).1.k0_Binomial :=
  ⟨by with_unfolding_all decide,
    (generate_k0s_le_k0 (KaonGenerator.new 1 200 (Dbl.fin (3/10)) (Dbl.fin (1/2)) halfRandom)
      zeroEvent (by with_unfolding_all decide)).1⟩

/-! ## The constructors -/

/-- C7, as the code has it: the constructors never fail and substitute nothing.  Whatever the
four parameters, `KaonGenerator::KaonGenerator` stores them as given, and
`KaonDccSimulator::KaonDccSimulator` hands them to it unchanged. -/
theorem constructor_stores_parameters (minMult maxMult : Int) (kaonFraction dccFraction : Dbl)
    (debugOption : Bool) (event : KaonEvent) (moments : KaonMoments) (random : TRandom) :
    (KaonGenerator.new minMult maxMult kaonFraction dccFraction random).minMult = minMult ∧
      (KaonGenerator.new minMult maxMult kaonFraction dccFraction random).maxMult = maxMult ∧
      (KaonGenerator.new minMult maxMult kaonFraction dccFraction random).kaonFraction
        = kaonFraction ∧
      (KaonGenerator.new minMult maxMult kaonFraction dccFraction random).dccFraction
        = dccFraction ∧
      (KaonDccSimulator.new kaonFraction dccFraction minMult maxMult debugOption event moments
        random).kaonGenerator
        = KaonGenerator.new minMult maxMult kaonFraction dccFraction random :=
  ⟨rfl, rfl, rfl, rfl, rfl⟩

/-- C7 fails as stated: `minMult = 5`, `maxMult = 3`, `kaonFraction = 2`, `dccFraction = -1`
violate each of the three conditions, and both constructors return an object holding exactly
these values. -/
theorem constructor_accepts_invalid_parameters :
    ¬ ((Dbl.fin 0).lt (Dbl.fin 2) = true ∧ (Dbl.fin 2).lt (Dbl.fin 1) = true) ∧
      ¬ ((Dbl.fin 0).le (Dbl.fin (-1)) = true ∧ (Dbl.fin (-1)).le (Dbl.fin 1) = true) ∧
      ¬ ((0 : Int) ≤ 5 ∧ (5 : Int) < 3) ∧
      ¬ validParameters 5 3 (Dbl.fin 2) (Dbl.fin (-1)) ∧
      (KaonGenerator.new 5 3 (Dbl.fin 2) (Dbl.fin (-1)) halfRandom).minMult = 5 ∧
      (KaonGenerator.new 5 3 (Dbl.fin 2) (Dbl.fin (-1)) halfRandom).maxMult = 3 ∧
      (KaonGenerator.new 5 3 (Dbl.fin 2) (Dbl.fin (-1)) halfRandom).kaonFraction = Dbl.fin 2 ∧
      (KaonGenerator.new 5 3 (Dbl.fin 2) (Dbl.fin (-1)) halfRandom).dccFraction
        = Dbl.fin (-1) ∧
      (KaonDccSimulator.new (Dbl.fin 2) (Dbl.fin (-1)) 5 3 false zeroEvent zeroMoments
        halfRandom).kaonGenerator.dccFraction = Dbl.fin (-1) := by
  refine ⟨?_, ?_, ?_, ?_, rfl, rfl, rfl, rfl, rfl⟩
  · simp [Dbl.lt]
  · simp [Dbl.le, Dbl.lt, Dbl.eq]
  · omega
  · simp [validParameters, Dbl.lt]

/-! ## The accumulator -/

/-- C3 fails on the code: for the event of 46341 kaons written by `largeGenerator`, `fill` adds
`-2147479015` to `sum_kSq` (the `int` product `k * k` has left the 32-bit range), not the square
`2147488281`; the first sum and the counter are as claimed. -/
theorem fill_square_overflows_int :
    largeEvent.k = 46341 ∧ largeEvent.k0 = 23170 ∧ largeEvent.kc = 23171 ∧
      (zeroMoments.initializeCounters.fill largeEvent).nEvents = 1 ∧
      (zeroMoments.initializeCounters.fill largeEvent).sum_k = Dbl.fin 46341 ∧
      (zeroMoments.initializeCounters.fill largeEvent).sum_kSq = Dbl.fin (-2147479015) ∧
      (zeroMoments.initializeCounters.fill largeEvent).sum_kSq ≠
        zeroMoments.initializeCounters.sum_kSq + Dbl.ofInt (46341 ^ 2) := by
  have hk : largeEvent.k = 46341 := by with_unfolding_all decide
  have hw : wrapInt32 2147488281 = -2147479015 := by decide
  refine ⟨hk, by with_unfolding_all decide, by with_unfolding_all decide, ?_, ?_, ?_, ?_⟩
  · simp [KaonMoments.fill, KaonMoments.initializeCounters]
  · simp [KaonMoments.fill, KaonMoments.initializeCounters, Dbl.ofInt, hk]
  · simp [KaonMoments.fill, KaonMoments.initializeCounters, Dbl.ofInt, hk, hw]
  · simp [KaonMoments.fill, KaonMoments.initializeCounters, Dbl.ofInt, hk, hw]
    norm_num

/-- C5. `calculateMoments` reports that it cannot calculate exactly when `nEvents < 2`; the
object is then left as it was, member for member; and after such a call at `nEvents = 1` one
more `fill` makes the next `calculateMoments` run to its end. -/
theorem calculateMoments_fails_iff_lt_two (m : KaonMoments) :
    (m.calculateMoments.1 = Report.cannotCalculate ↔ m.nEvents < 2) ∧
      (m.nEvents < 2 → m.calculateMoments.2 = m) ∧
      (m.nEvents = 1 → ∀ e : KaonEvent,
        (m.calculateMoments.2.fill e).calculateMoments.1 = Report.calculated) := by
  refine ⟨?_, ?_, ?_⟩
  · unfold KaonMoments.calculateMoments
    split_ifs with h <;> simp [h]
  · intro h
    simp [KaonMoments.calculateMoments, h]
  · intro h e
    have h1 : m.calculateMoments.2 = m := by
      simp [KaonMoments.calculateMoments, h]
    rw [h1]
    have h2 : ¬ (m.fill e).nEvents < 2 := by
      simp [KaonMoments.fill, h]
    unfold KaonMoments.calculateMoments
    rw [if_neg h2]

/-- With two events or more `calculateMoments` runs to its end, and the ratios and `nuDyn`
values it stores are these expressions of the counter and the running sums. -/
theorem calculateMoments_expand (m : KaonMoments) (hn : 2 ≤ m.nEvents) :
    m.calculateMoments.1 = Report.calculated ∧
      m.calculateMoments.2.r00 =
        (m.sum_k0Sq / Dbl.ofInt m.nEvents - m.sum_k0 / Dbl.ofInt m.nEvents) /
          (m.sum_k0 / Dbl.ofInt m.nEvents) / (m.sum_k0 / Dbl.ofInt m.nEvents) - Dbl.fin 1 ∧
      m.calculateMoments.2.r0s0s =
        (m.sum_k0sSq / Dbl.ofInt m.nEvents - m.sum_k0s / Dbl.ofInt m.nEvents) /
          (m.sum_k0s / Dbl.ofInt m.nEvents) / (m.sum_k0s / Dbl.ofInt m.nEvents) - Dbl.fin 1 ∧
      m.calculateMoments.2.rchch =
        (m.sum_kcSq / Dbl.ofInt m.nEvents - m.sum_kc / Dbl.ofInt m.nEvents) /
          (m.sum_kc / Dbl.ofInt m.nEvents) / (m.sum_kc / Dbl.ofInt m.nEvents) - Dbl.fin 1 ∧
      m.calculateMoments.2.rch0 =
        m.sum_kck0 / Dbl.ofInt m.nEvents /
          (m.sum_kc / Dbl.ofInt m.nEvents) / (m.sum_k0 / Dbl.ofInt m.nEvents) - Dbl.fin 1 ∧
      m.calculateMoments.2.rch0s =
        m.sum_kck0s / Dbl.ofInt m.nEvents /
          (m.sum_kc / Dbl.ofInt m.nEvents) / (m.sum_k0s / Dbl.ofInt m.nEvents) - Dbl.fin 1 ∧
      m.calculateMoments.2.nuDyn_ch0 =
        m.calculateMoments.2.rchch + m.calculateMoments.2.r00
          - Dbl.fin 2 * m.calculateMoments.2.rch0 ∧
      m.calculateMoments.2.nuDyn_ch0s =
        m.calculateMoments.2.rchch + m.calculateMoments.2.r0s0s
          - Dbl.fin 2 * m.calculateMoments.2.rch0s := by
  have h : ¬ m.nEvents < 2 := by omega
  simp [KaonMoments.calculateMoments, h]

/-- C6, as the code has it: with `nEvents ≥ 2` the call raises nothing and runs to its end, and
when the average of `k0`, of `k0s` or of `kc` is exactly zero, every ratio with that average in
its denominator, and every `nuDyn` value built from such a ratio, is stored as a non-finite
double (an infinity or `NaN`). -/
theorem calculateMoments_zero_average_nonfinite (m : KaonMoments) (hn : 2 ≤ m.nEvents) :
    m.calculateMoments.1 = Report.calculated ∧
      (specAverage m.sum_k0 m.nEvents = Dbl.fin 0 →
        m.calculateMoments.2.r00.isFinite = false ∧
        m.calculateMoments.2.rch0.isFinite = false ∧
        m.calculateMoments.2.nuDyn_ch0.isFinite = false) ∧
      (specAverage m.sum_k0s m.nEvents = Dbl.fin 0 →
        m.calculateMoments.2.r0s0s.isFinite = false ∧
        m.calculateMoments.2.rch0s.isFinite = false ∧
        m.calculateMoments.2.nuDyn_ch0s.isFinite = false) ∧
      (specAverage m.sum_kc m.nEvents = Dbl.fin 0 →
        m.calculateMoments.2.rchch.isFinite = false ∧
        m.calculateMoments.2.rch0.isFinite = false ∧
        m.calculateMoments.2.rch0s.isFinite = false ∧
        m.calculateMoments.2.nuDyn_ch0.isFinite = false ∧
        m.calculateMoments.2.nuDyn_ch0s.isFinite = false) := by
  obtain ⟨e0, e1, e2, e3, e4, e5, e6, e7⟩ := calculateMoments_expand m hn
  refine ⟨e0, ?_, ?_, ?_⟩
  · intro h
    unfold specAverage at h
    have a1 : m.calculateMoments.2.r00.isFinite = false := by
      rw [e1, h]
      exact Dbl.isFinite_sub_left _ _ (Dbl.isFinite_div_zero _)
    have a2 : m.calculateMoments.2.rch0.isFinite = false := by
      rw [e4, h]
      exact Dbl.isFinite_sub_left _ _ (Dbl.isFinite_div_zero _)
    refine ⟨a1, a2, ?_⟩
    rw [e6]
    exact Dbl.isFinite_sub_right _ _ (Dbl.isFinite_two_mul _ a2)
  · intro h
    unfold specAverage at h
    have a1 : m.calculateMoments.2.r0s0s.isFinite = false := by
      rw [e2, h]
      exact Dbl.isFinite_sub_left _ _ (Dbl.isFinite_div_zero _)
    have a2 : m.calculateMoments.2.rch0s.isFinite = false := by
      rw [e5, h]
      exact Dbl.isFinite_sub_left _ _ (Dbl.isFinite_div_zero _)
    refine ⟨a1, a2, ?_⟩
    rw [e7]
    exact Dbl.isFinite_sub_right _ _ (Dbl.isFinite_two_mul _ a2)
  · intro h
    unfold specAverage at h
    have a1 : m.calculateMoments.2.rchch.isFinite = false := by
      rw [e3, h]
      exact Dbl.isFinite_sub_left _ _ (Dbl.isFinite_div_zero _)
    have a2 : m.calculateMoments.2.rch0.isFinite = false := by
      rw [e4, h]
      exact Dbl.isFinite_sub_left _ _ (Dbl.isFinite_div_left _ _ (Dbl.isFinite_div_zero _))
    have a3 : m.calculateMoments.2.rch0s.isFinite = false := by
      rw [e5, h]
      exact Dbl.isFinite_sub_left _ _ (Dbl.isFinite_div_left _ _ (Dbl.isFinite_div_zero _))
    refine ⟨a1, a2, a3, ?_, ?_⟩
    · rw [e6]
      exact Dbl.isFinite_sub_right _ _ (Dbl.isFinite_two_mul _ a2)
    · rw [e7]
      exact Dbl.isFinite_sub_right _ _ (Dbl.isFinite_two_mul _ a3)

/-- Witness of C6 as amended: the accumulator holding two events without any kaon. -/
theorem calculateMoments_zero_average_nonfinite_witness :
    2 ≤ emptyEventsMoments.nEvents ∧
      specAverage emptyEventsMoments.sum_k0 emptyEventsMoments.nEvents = Dbl.fin 0 ∧
      emptyEventsMoments.calculateMoments.1 = Report.calculated ∧
      emptyEventsMoments.calculateMoments.2.r00.isFinite = false :=
  ⟨by with_unfolding_all decide, by with_unfolding_all decide,
    (calculateMoments_zero_average_nonfinite emptyEventsMoments
      (by with_unfolding_all decide)).1,
    ((calculateMoments_zero_average_nonfinite emptyEventsMoments
      (by with_unfolding_all decide)).2.1 (by with_unfolding_all decide)).1⟩

/-- C6 fails as stated: after two events without any kaon (`nEvents = 2`, every average zero)
`calculateMoments` raises nothing; it runs to its end and stores `NaN` in all five ratios and in
both `nuDyn` values. -/
theorem calculateMoments_zero_average_no_error :
    emptyEventsMoments.nEvents = 2 ∧
      specAverage emptyEventsMoments.sum_k0 emptyEventsMoments.nEvents = Dbl.fin 0 ∧
      specAverage emptyEventsMoments.sum_k0s emptyEventsMoments.nEvents = Dbl.fin 0 ∧
      specAverage emptyEventsMoments.sum_kc emptyEventsMoments.nEvents = Dbl.fin 0 ∧
      emptyEventsMoments.calculateMoments.1 = Report.calculated ∧
      emptyEventsMoments.calculateMoments.2.r00 = Dbl.nan ∧
      emptyEventsMoments.calculateMoments.2.r0s0s = Dbl.nan ∧
      emptyEventsMoments.calculateMoments.2.rchch = Dbl.nan ∧
      emptyEventsMoments.calculateMoments.2.rch0 = Dbl.nan ∧
      emptyEventsMoments.calculateMoments.2.rch0s = Dbl.nan ∧
      emptyEventsMoments.calculateMoments.2.nuDyn_ch0 = Dbl.nan ∧
      emptyEventsMoments.calculateMoments.2.nuDyn_ch0s = Dbl.nan := by
  refine ⟨?_, ?_, ?_, ?_, ?_, ?_, ?_, ?_, ?_, ?_, ?_, ?_⟩ <;> with_unfolding_all decide

/-! ## Equality of the counter and the running sums -/

namespace KaonMoments

theorem SameSums.refl (a : KaonMoments) : a.SameSums a := by
  simp [SameSums]

theorem SameSums.symm {a b : KaonMoments} (h : a.SameSums b) : b.SameSums a := by
  unfold SameSums at *
  simp_all

theorem SameSums.trans {a b c : KaonMoments} (h1 : a.SameSums b) (h2 : b.SameSums c) :
    a.SameSums c := by
  unfold SameSums at *
  simp_all

/-- Two initialized accumulators have the same counter and running sums. -/
theorem sameSums_init (a b : KaonMoments) : a.initializeCounters.SameSums b.initializeCounters := by
  simp [SameSums, initializeCounters]

/-- `fill` respects equality of the counter and running sums. -/
theorem SameSums.fill {a b : KaonMoments} (h : a.SameSums b) (e : KaonEvent) :
    (a.fill e).SameSums (b.fill e) := by
  unfold SameSums at *
  simp_all [KaonMoments.fill]

/-- Folding `fill` over a list respects equality of the counter and running sums. -/
theorem SameSums.foldl_fill (l : List KaonEvent) :
    ∀ {a b : KaonMoments}, a.SameSums b →
      (l.foldl KaonMoments.fill a).SameSums (l.foldl KaonMoments.fill b) := by
  induction l with
  | nil => intro a b h; exact h
  | cons e l ih => intro a b h; exact ih (h.fill e)

/-- When `calculateMoments` runs to its end, its result depends on the counter and the running
sums only. -/
theorem calculateMoments_congr {a b : KaonMoments} (h : a.SameSums b) :
    a.calculateMoments.1 = b.calculateMoments.1 ∧
      (2 ≤ a.nEvents → a.calculateMoments.2 = b.calculateMoments.2) := by
  cases a
  cases b
  simp only [SameSums] at h
  obtain ⟨h0, h1, h2, h3, h4, h5, h6, h7, h8, h9, h10, h11, h12, h13, h14, h15, h16, h17, h18,
    h19, h20, h21, h22, h23, h24, h25, h26⟩ := h
  subst h0 h1 h2 h3 h4 h5 h6 h7 h8 h9 h10 h11 h12 h13 h14 h15 h16 h17 h18 h19 h20 h21 h22 h23
    h24 h25 h26
  constructor
  · simp only [calculateMoments]
    split_ifs <;> rfl
  · intro hn
    have hn2 : ¬ (_ : Int) < 2 := not_lt.mpr hn
    simp only [calculateMoments] at hn2 ⊢
    simp [hn2]

end KaonMoments

/-! ## The calls of the random generator, branch by branch -/

/-- The conversion `double → int` of a finite value is the truncation toward zero. -/
theorem Dbl.toInt_fin (x : ℚ) : (Dbl.fin x).toInt = truncTowardZero x := by
  unfold Dbl.toInt truncTowardZero
  split_ifs with h
  · rw [Rat.floor_def]
    exact Int.tdiv_eq_ediv (Rat.num_nonneg.mpr h) (Int.ofNat_nonneg _)
  · have hx : 0 ≤ -x := by linarith
    rw [← neg_neg ⌈x⌉, ← Int.floor_neg, Rat.floor_def, Rat.neg_num, Rat.neg_den,
      ← Int.tdiv_eq_ediv (by simpa using Rat.num_nonneg.mpr hx) (Int.ofNat_nonneg _),
      Int.neg_tdiv, neg_neg]

/-- The truncation of a rational between `0` and an integer `n` lies between `0` and `n`. -/
theorem truncTowardZero_bounds (x : ℚ) (n : Int) (h0 : 0 ≤ x) (hn : x ≤ n) :
    0 ≤ truncTowardZero x ∧ truncTowardZero x ≤ n := by
  unfold truncTowardZero
  rw [if_pos h0]
  refine ⟨Int.floor_nonneg.mpr h0, ?_⟩
  have h1 : ((⌊x⌋ : Int) : ℚ) ≤ n := le_trans (Int.floor_le x) hn
  exact_mod_cast h1

/-- A double of `[0, 1)` is a finite value between `0` and `1`. -/
theorem Dbl.inUnitInterval_iff (v : Dbl) :
    v.inUnitInterval ↔ ∃ x : ℚ, v = Dbl.fin x ∧ 0 ≤ x ∧ x < 1 := by
  cases v <;> simp [Dbl.inUnitInterval]

/-- A fraction `x` of `[0, 1]` of a count `n ≥ 0`, converted to `int`, lies between `0` and
`n`. -/
theorem toInt_fraction_bounds (n : Int) (x : ℚ) (hn : 0 ≤ n) (h0 : 0 ≤ x) (h1 : x ≤ 1) :
    0 ≤ (Dbl.ofInt n * Dbl.fin x).toInt ∧ (Dbl.ofInt n * Dbl.fin x).toInt ≤ n := by
  have hn' : (0 : ℚ) ≤ (n : ℚ) := by exact_mod_cast hn
  have e : Dbl.ofInt n * Dbl.fin x = Dbl.fin ((n : ℚ) * x) := rfl
  rw [e, Dbl.toInt_fin]
  exact truncTowardZero_bounds _ n (mul_nonneg hn' h0) (by nlinarith)

/-- The calls made by `generate` are the calls its generator has recorded beyond those it had
recorded before. -/
theorem generate_drawn (g : KaonGenerator) (event : KaonEvent) :
    (g.generate event).2.random.drawn = g.random.drawn ++ g.draws event := by
  simp only [KaonGenerator.draws, KaonGenerator.generate, TRandom.Uniform, TRandom.Binomial]
  split_ifs <;> simp

/-- In every branch the totals written by `generate` are the sums of the two categories. -/
theorem generate_totals (g : KaonGenerator) (event : KaonEvent) :
    (g.generate event).1.k0
        = (g.generate event).1.k0_Binomial + (g.generate event).1.k0_DCC ∧
      (g.generate event).1.k0s
        = (g.generate event).1.k0s_Binomial + (g.generate event).1.k0s_DCC ∧
      (g.generate event).1.kc
        = (g.generate event).1.kc_Binomial + (g.generate event).1.kc_DCC := by
  simp [KaonGenerator.generate, TRandom.Uniform, TRandom.Binomial]

/-- Symbolic run of `generate` in the branch `dccFraction == 0.0`: the four calls of the random
generator, in order, and the counts of the two categories. -/
theorem generate_binomial_branch (g : KaonGenerator) (event : KaonEvent)
    (h : g.dccFraction = Dbl.fin 0) :
    g.draws event =
        [Draw.uniform (Dbl.ofInt g.minMult) (Dbl.ofInt g.maxMult)
            (g.generate event).1.centrality,
          Draw.binomial (g.generate event).1.centrality.toInt g.kaonFraction
            (g.generate event).1.k,
          Draw.binomial (g.generate event).1.k_Binomial (Dbl.fin (1/2))
            (g.generate event).1.k0_Binomial,
          Draw.binomial (g.generate event).1.k0_Binomial (Dbl.fin (1/2))
            (g.generate event).1.k0s_Binomial] ∧
      (g.generate event).1.k_DCC = 0 ∧ (g.generate event).1.k0_DCC = 0 ∧
      (g.generate event).1.k0s_DCC = 0 ∧ (g.generate event).1.kc_DCC = 0 ∧
      (g.generate event).1.k_Binomial = (g.generate event).1.k ∧
      (g.generate event).1.kc_Binomial
        = (g.generate event).1.k_Binomial - (g.generate event).1.k0_Binomial := by
  simp [KaonGenerator.draws, KaonGenerator.generate, TRandom.Uniform, TRandom.Binomial, h]

/-- Symbolic run of `generate` in the branch `dccFraction == 1.0`: the four calls of the random
generator, in order, and how the counts come from `k` and the neutral fraction `φ` drawn. -/
theorem generate_dcc_branch (g : KaonGenerator) (event : KaonEvent)
    (h : g.dccFraction = Dbl.fin 1) :
    ∃ φ : Dbl,
      g.draws event =
        [Draw.uniform (Dbl.ofInt g.minMult) (Dbl.ofInt g.maxMult)
            (g.generate event).1.centrality,
          Draw.binomial (g.generate event).1.centrality.toInt g.kaonFraction
            (g.generate event).1.k,
          Draw.uniform (Dbl.fin 0) (Dbl.fin 1) φ,
          Draw.binomial (g.generate event).1.k0_DCC (Dbl.fin (1/2))
            (g.generate event).1.k0s_DCC] ∧
      (g.generate event).1.k_DCC = (g.generate event).1.k ∧
      (g.generate event).1.k0_DCC = (Dbl.ofInt (g.generate event).1.k_DCC * φ).toInt ∧
      (g.generate event).1.kc_DCC
        = (g.generate event).1.k_DCC - (g.generate event).1.k0_DCC ∧
      (g.generate event).1.k_Binomial = 0 ∧ (g.generate event).1.k0_Binomial = 0 ∧
      (g.generate event).1.k0s_Binomial = 0 ∧ (g.generate event).1.kc_Binomial = 0 := by
  simp [KaonGenerator.draws, KaonGenerator.generate, TRandom.Uniform, TRandom.Binomial, h]

/-- Symbolic run of `generate` in the branch taken when `dccFraction` is neither `0.0` nor
`1.0`: the six calls of the random generator, in order, and how the counts of the two
categories come from `k` and the neutral fraction `φ` drawn. -/
theorem generate_mixed_branch (g : KaonGenerator) (event : KaonEvent)
    (h0 : g.dccFraction ≠ Dbl.fin 0) (h1 : g.dccFraction ≠ Dbl.fin 1) :
    ∃ φ : Dbl,
      g.draws event =
        [Draw.uniform (Dbl.ofInt g.minMult) (Dbl.ofInt g.maxMult)
            (g.generate event).1.centrality,
          Draw.binomial (g.generate event).1.centrality.toInt g.kaonFraction
            (g.generate event).1.k,
          Draw.uniform (Dbl.fin 0) (Dbl.fin 1) φ,
          Draw.binomial (g.generate event).1.k0_DCC (Dbl.fin (1/2))
            (g.generate event).1.k0s_DCC,
          Draw.binomial (g.generate event).1.k_Binomial (Dbl.fin (1/2))
            (g.generate event).1.k0_Binomial,
          Draw.binomial (g.generate event).1.k0_Binomial (Dbl.fin (1/2))
            (g.generate event).1.k0s_Binomial] ∧
      (g.generate event).1.k_DCC = (g.dccFraction * Dbl.ofInt (g.generate event).1.k).toInt ∧
      (g.generate event).1.k0_DCC = (Dbl.ofInt (g.generate event).1.k_DCC * φ).toInt ∧
      (g.generate event).1.kc_DCC
        = (g.generate event).1.k_DCC - (g.generate event).1.k0_DCC ∧
      (g.generate event).1.k_Binomial = (g.generate event).1.k - (g.generate event).1.k_DCC ∧
      (g.generate event).1.kc_Binomial
        = (g.generate event).1.k_Binomial - (g.generate event).1.k0_Binomial := by
  have e0 : g.dccFraction.eq (Dbl.fin 0) = false := by
    rw [Bool.eq_false_iff]; simpa using h0
  have e1 : g.dccFraction.eq (Dbl.fin 1) = false := by
    rw [Bool.eq_false_iff]; simpa using h1
  simp only [KaonGenerator.draws, KaonGenerator.generate, TRandom.Uniform, TRandom.Binomial, e0,
    e1]
  simp

/-! ## An event without DCC kaons -/

/-- C12, as the code has it.  For an event with `k_DCC == 0`, when every neutral-fraction draw is
a finite number and every `Binomial(n, p)` call returns an integer between `0` and `n`, the
counts `k0_DCC`, `k0s_DCC`, `kc_DCC` are `0`.  Only in the branch `dccFraction == 0.0` are the
calls of the DCC category not made: there the calls after the first two are the two of the
Binomial category and the stream advances by four calls.  In the other two branches the third
and fourth calls are the uniform draw of the neutral fraction and `Binomial(0, 0.5)` for
`k0s_DCC`, and the stream advances by four calls when `dccFraction == 1.0` and by six
otherwise. -/
theorem generate_zero_dcc_still_draws (g : KaonGenerator) (event : KaonEvent)
    (hz : (g.generate event).1.k_DCC = 0)
    (hb : ∀ d ∈ g.draws event, d.inRange)
    (hu : ∀ d ∈ g.draws event, d.fractionFinite) :
    ((g.generate event).1.k0_DCC = 0 ∧ (g.generate event).1.k0s_DCC = 0 ∧
        (g.generate event).1.kc_DCC = 0) ∧
      (g.dccFraction = Dbl.fin 0 →
        (g.draws event).drop 2 =
            [Draw.binomial (g.generate event).1.k_Binomial (Dbl.fin (1/2))
                (g.generate event).1.k0_Binomial,
              Draw.binomial (g.generate event).1.k0_Binomial (Dbl.fin (1/2))
                (g.generate event).1.k0s_Binomial] ∧
          (g.generate event).2.random.drawn.length = g.random.drawn.length + 4) ∧
      (g.dccFraction ≠ Dbl.fin 0 →
        (∃ φ : Dbl, ((g.draws event).drop 2).take 2 =
            [Draw.uniform (Dbl.fin 0) (Dbl.fin 1) φ, Draw.binomial 0 (Dbl.fin (1/2)) 0]) ∧
          (g.generate event).2.random.drawn.length
            = g.random.drawn.length + (if g.dccFraction = Dbl.fin 1 then 4 else 6)) := by
  have zero_of_finite : ∀ φ : Dbl, φ.isFinite = true → (Dbl.ofInt 0 * φ).toInt = 0 := by
    intro φ hφ
    cases φ <;> simp [Dbl.isFinite] at hφ
    simp [Dbl.ofInt]
  by_cases c0 : g.dccFraction = Dbl.fin 0
  · obtain ⟨hd, -, h2, h3, h4, -, -⟩ := generate_binomial_branch g event c0
    refine ⟨⟨h2, h3, h4⟩, fun _ => ⟨?_, ?_⟩, fun h => absurd c0 h⟩
    · rw [hd]; rfl
    · rw [generate_drawn, hd]; simp
  · by_cases c1 : g.dccFraction = Dbl.fin 1
    · obtain ⟨φ, hd, -, h0D, hcD, -⟩ := generate_dcc_branch g event c1
      rw [hd] at hb hu
      simp [Draw.inRange, Draw.fractionFinite] at hb hu
      have k0 : (g.generate event).1.k0_DCC = 0 := by
        rw [h0D, hz]; exact zero_of_finite φ hu.2
      have k0s : (g.generate event).1.k0s_DCC = 0 := by
        have := hb.2; rw [k0] at this; omega
      refine ⟨⟨k0, k0s, by rw [hcD, hz, k0]; rfl⟩, fun h => absurd h c0, fun _ => ⟨⟨φ, ?_⟩, ?_⟩⟩
      · rw [hd, k0, k0s]; rfl
      · rw [generate_drawn, hd, if_pos c1]; simp
    · obtain ⟨φ, hd, -, h0D, hcD, -⟩ := generate_mixed_branch g event c0 c1
      rw [hd] at hb hu
      simp [Draw.inRange, Draw.fractionFinite] at hb hu
      have k0 : (g.generate event).1.k0_DCC = 0 := by
        rw [h0D, hz]; exact zero_of_finite φ hu.2
      have k0s : (g.generate event).1.k0s_DCC = 0 := by
        have := hb.2.1; rw [k0] at this; omega
      refine ⟨⟨k0, k0s, by rw [hcD, hz, k0]; rfl⟩, fun h => absurd h c0, fun _ => ⟨⟨φ, ?_⟩, ?_⟩⟩
      · rw [hd, k0, k0s]; rfl
      · rw [generate_drawn, hd, if_neg c1]; simp

/-- Witness of C12 as amended: `dccFraction = 0.5` and a drawn total of one kaon. -/
theorem generate_zero_dcc_still_draws_witness :
    (singleKaonGenerator.generate zeroEvent).1.k_DCC = 0 ∧
      (∀ d ∈ singleKaonGenerator.draws zeroEvent, d.inRange) ∧
      (∀ d ∈ singleKaonGenerator.draws zeroEvent, d.fractionFinite) ∧
      (singleKaonGenerator.generate zeroEvent).1.k0_DCC = 0 ∧
      (singleKaonGenerator.generate zeroEvent).1.k0s_DCC = 0 ∧
      (singleKaonGenerator.generate zeroEvent).1.kc_DCC = 0 :=
  ⟨by with_unfolding_all decide, by with_unfolding_all decide, by with_unfolding_all decide,
    (generate_zero_dcc_still_draws singleKaonGenerator zeroEvent (by with_unfolding_all decide)
      (by with_unfolding_all decide) (by with_unfolding_all decide)).1⟩

/-- C12 fails as stated.  With `dccFraction = 0.5` and a drawn total `k = 1`, `k_DCC = 0` and
`generate` makes six calls: the third is the uniform draw of the neutral fraction, the fourth
`Binomial(0, 0.5)` for `k0s_DCC`.  With `dccFraction = 1` and a drawn total `k = 0`, `k_DCC = 0`
and `generate` makes four calls, the last two being those of the DCC category.  Skipping the DCC
step would leave four and two calls. -/
theorem generate_zero_dcc_draws_made :
    (singleKaonGenerator.generate zeroEvent).1.k = 1 ∧
      (singleKaonGenerator.generate zeroEvent).1.k_DCC = 0 ∧
      singleKaonGenerator.draws zeroEvent =
        [Draw.uniform (Dbl.fin 1) (Dbl.fin 3) (Dbl.fin 3),
          Draw.binomial 3 (Dbl.fin (3/10)) 1,
          Draw.uniform (Dbl.fin 0) (Dbl.fin 1) (Dbl.fin (1/2)),
          Draw.binomial 0 (Dbl.fin (1/2)) 0,
          Draw.binomial 1 (Dbl.fin (1/2)) 0,
          Draw.binomial 0 (Dbl.fin (1/2)) 0] ∧
      (singleKaonGenerator.generate zeroEvent).2.random.drawn.length
        = singleKaonGenerator.random.drawn.length + 6 ∧
      noKaonDccGenerator.dccFraction = Dbl.fin 1 ∧
      (noKaonDccGenerator.generate zeroEvent).1.k = 0 ∧
      (noKaonDccGenerator.generate zeroEvent).1.k_DCC = 0 ∧
      noKaonDccGenerator.draws zeroEvent =
        [Draw.uniform (Dbl.fin 0) (Dbl.fin 1) (Dbl.fin (1/2)),
          Draw.binomial 0 (Dbl.fin (3/10)) 0,
          Draw.uniform (Dbl.fin 0) (Dbl.fin 1) (Dbl.fin (1/2)),
          Draw.binomial 0 (Dbl.fin (1/2)) 0] ∧
      (noKaonDccGenerator.generate zeroEvent).2.random.drawn.length
        = noKaonDccGenerator.random.drawn.length + 4 := by
  refine ⟨?_, ?_, ?_, ?_, ?_, ?_, ?_, ?_, ?_⟩ <;> with_unfolding_all decide

/-! ## Bounds on the counts -/

/-- C15. When `0 ≤ dccFraction ≤ 1`, every `Binomial(n, p)` call returns an integer between `0`
and `n` (so that the drawn total `k` is not negative) and the neutral-fraction draw is in
`[0, 1)`, every count written by `generate` is non-negative and bounded by its parent:
`0 ≤ k_DCC ≤ k`, `0 ≤ k_Binomial ≤ k`, `0 ≤ k0_DCC ≤ k_DCC`, `0 ≤ k0_Binomial ≤ k_Binomial`,
`kc_DCC ≥ 0`, `kc_Binomial ≥ 0` and `0 ≤ k0s ≤ k0 ≤ k`.  No validation being applied, a generator
built with `dccFraction = 2` that draws `k = 1` writes `k_DCC = 2` and `k_Binomial = -1`. -/
theorem generate_counts_bounded :
    (∀ (g : KaonGenerator) (event : KaonEvent) (q : ℚ),
      g.dccFraction = Dbl.fin q → 0 ≤ q → q ≤ 1 →
      (∀ d ∈ g.draws event, d.inRange) → (∀ d ∈ g.draws event, d.fractionInUnit) →
      (0 ≤ (g.generate event).1.k_DCC ∧ (g.generate event).1.k_DCC ≤ (g.generate event).1.k) ∧
      (0 ≤ (g.generate event).1.k_Binomial ∧
        (g.generate event).1.k_Binomial ≤ (g.generate event).1.k) ∧
      (0 ≤ (g.generate event).1.k0_DCC ∧
        (g.generate event).1.k0_DCC ≤ (g.generate event).1.k_DCC) ∧
      (0 ≤ (g.generate event).1.k0_Binomial ∧
        (g.generate event).1.k0_Binomial ≤ (g.generate event).1.k_Binomial) ∧
      0 ≤ (g.generate event).1.kc_DCC ∧ 0 ≤ (g.generate event).1.kc_Binomial ∧
      (0 ≤ (g.generate event).1.k0s ∧ (g.generate event).1.k0s ≤ (g.generate event).1.k0 ∧
        (g.generate event).1.k0 ≤ (g.generate event).1.k)) ∧
    (∃ (g : KaonGenerator) (q : ℚ), g.dccFraction = Dbl.fin q ∧ 1 < q ∧
      (g.generate zeroEvent).1.k = 1 ∧ (g.generate zeroEvent).1.k_DCC = 2 ∧
      (g.generate zeroEvent).1.k_Binomial = -1) := by
  constructor
  · intro g event q hq q0 q1 hb hu
    obtain ⟨t0, t0s, tc⟩ := generate_totals g event
    by_cases c0 : g.dccFraction = Dbl.fin 0
    · obtain ⟨hd, h1, h2, h3, h4, h5, h6⟩ := generate_binomial_branch g event c0
      rw [hd] at hb
      simp [Draw.inRange] at hb
      omega
    · by_cases c1 : g.dccFraction = Dbl.fin 1
      · obtain ⟨φ, hd, h1, h2, h3, h4, h5, h6, h7⟩ := generate_dcc_branch g event c1
        rw [hd] at hb hu
        simp [Draw.inRange, Draw.fractionInUnit] at hb hu
        obtain ⟨x, rfl, x0, x1⟩ := (Dbl.inUnitInterval_iff φ).mp hu.2
        have hk : 0 ≤ (g.generate event).1.k_DCC := by rw [h1]; exact hb.1.1
        have b := toInt_fraction_bounds _ x hk x0 x1.le
        rw [← h2] at b
        omega
      · obtain ⟨φ, hd, h1, h2, h3, h4, h5⟩ := generate_mixed_branch g event c0 c1
        rw [hd] at hb hu
        simp [Draw.inRange, Draw.fractionInUnit] at hb hu
        obtain ⟨x, rfl, x0, x1⟩ := (Dbl.inUnitInterval_iff φ).mp hu.2
        have a : 0 ≤ (g.generate event).1.k_DCC ∧
            (g.generate event).1.k_DCC ≤ (g.generate event).1.k := by
          have e : g.dccFraction * Dbl.ofInt (g.generate event).1.k
              = Dbl.ofInt (g.generate event).1.k * Dbl.fin q := by
            rw [hq]
            show Dbl.fin (q * _) = Dbl.fin (_ * q)
            rw [mul_comm]
          rw [h1, e]
          exact toInt_fraction_bounds _ q hb.1.1 q0 q1
        have b := toInt_fraction_bounds _ x a.1 x0 x1.le
        rw [← h2] at b
        omega
  · refine ⟨doubleDccGenerator, 2, rfl, by norm_num, ?_, ?_, ?_⟩ <;> with_unfolding_all decide

/-- Witness of C15: `dccFraction = 0.5`, multiplicities 1 to 15, a drawn total of 7 kaons. -/
theorem generate_counts_bounded_witness :
    mixedGenerator.dccFraction = Dbl.fin (1/2) ∧
      (∀ d ∈ mixedGenerator.draws zeroEvent, d.inRange) ∧
      (∀ d ∈ mixedGenerator.draws zeroEvent, d.fractionInUnit) ∧
      (0 ≤ (mixedGenerator.generate zeroEvent).1.k_DCC ∧
        (mixedGenerator.generate zeroEvent).1.k_DCC ≤ (mixedGenerator.generate zeroEvent).1.k) :=
  ⟨rfl, by with_unfolding_all decide, by with_unfolding_all decide,
    (generate_counts_bounded.1 mixedGenerator zeroEvent (1/2) rfl (by norm_num) (by norm_num)
      (by with_unfolding_all decide) (by with_unfolding_all decide)).1⟩

/-! ## The running sums across `calculateMoments` and `initialize` -/

namespace KaonMoments

/-- `calculateMoments` leaves the counter and every running sum as they were. -/
theorem sameSums_calculateMoments (m : KaonMoments) : m.calculateMoments.2.SameSums m := by
  unfold calculateMoments
  split_ifs <;> simp [SameSums]

/-- With fewer than two events `calculateMoments` returns the object as it was. -/
theorem calculateMoments_of_lt_two (m : KaonMoments) (h : m.nEvents < 2) :
    m.calculateMoments = (Report.cannotCalculate, m) := by
  simp [calculateMoments, h]

/-- After `initialize` the counter and every running sum are zero. -/
theorem sameSums_init_zero (m : KaonMoments) : m.initializeCounters.SameSums zeroMoments := by
  simp [SameSums, initializeCounters, zeroMoments]

/-- `initialize` after `fill` is `initialize`. -/
theorem init_fill (a : KaonMoments) (e : KaonEvent) :
    (a.fill e).initializeCounters = a.initializeCounters := by
  simp [KaonMoments.fill, initializeCounters]

/-- `initialize` after any number of `fill` is `initialize`. -/
theorem init_foldl_fill (es : List KaonEvent) :
    ∀ a : KaonMoments, (es.foldl KaonMoments.fill a).initializeCounters = a.initializeCounters := by
  induction es with
  | nil => intro a; rfl
  | cons e es ih => intro a; rw [List.foldl_cons, ih, init_fill]

/-- Every `fill` adds one to the counter. -/
theorem nEvents_foldl_fill (es : List KaonEvent) :
    ∀ a : KaonMoments, (es.foldl KaonMoments.fill a).nEvents = a.nEvents + es.length := by
  induction es with
  | nil => intro a; simp
  | cons e es ih =>
    intro a
    rw [List.foldl_cons, ih]
    simp [KaonMoments.fill]
    omega

end KaonMoments

/-- C13. `calculateMoments` never changes the counter or a running sum, whether it calculates or
not: after the call `nEvents` and every `sum_*` member are as before.  Hence events filled after
the call accumulate on the same sums as without the call, and the next `calculateMoments` ends
the same way and, when it calculates, leaves the same object.  `initialize` is what sets the
counter and the sums to zero. -/
theorem calculateMoments_keeps_sums (m : KaonMoments) (es : List KaonEvent) :
    m.calculateMoments.2.SameSums m ∧
      (es.foldl KaonMoments.fill m.calculateMoments.2).SameSums
        (es.foldl KaonMoments.fill m) ∧
      (es.foldl KaonMoments.fill m.calculateMoments.2).calculateMoments.1 =
        (es.foldl KaonMoments.fill m).calculateMoments.1 ∧
      (2 ≤ (es.foldl KaonMoments.fill m).nEvents →
        (es.foldl KaonMoments.fill m.calculateMoments.2).calculateMoments.2 =
          (es.foldl KaonMoments.fill m).calculateMoments.2) ∧
      m.initializeCounters.SameSums zeroMoments := by
  have h1 := KaonMoments.sameSums_calculateMoments m
  have h2 := KaonMoments.SameSums.foldl_fill es h1
  have h3 := KaonMoments.calculateMoments_congr h2
  refine ⟨h1, h2, h3.1, ?_, KaonMoments.sameSums_init_zero m⟩
  intro hn
  apply h3.2
  rw [h2.1]
  exact hn

/-- C14. Round trip through the reset.  From any accumulator `m`: `initialize`, `fill` of each
event of the list and `calculateMoments`, followed by `initialize`, the same `fill`s and
`calculateMoments` again, ends as the first pass did and leaves the same object, every derived
member included.  `initialize` sets the counter and every running sum to zero, and from any two
accumulators `m`, `m'` the pass ends the same way and, with two events or more, leaves the same
object: the derived values depend on the events filled since the reset only. -/
theorem reset_round_trip (m m' : KaonMoments) (es : List KaonEvent) :
    (es.foldl KaonMoments.fill
        (es.foldl KaonMoments.fill
          m.initializeCounters).calculateMoments.2.initializeCounters).calculateMoments =
        (es.foldl KaonMoments.fill m.initializeCounters).calculateMoments ∧
      m.initializeCounters.SameSums zeroMoments ∧
      (es.foldl KaonMoments.fill m.initializeCounters).calculateMoments.1 =
        (es.foldl KaonMoments.fill m'.initializeCounters).calculateMoments.1 ∧
      (2 ≤ es.length →
        (es.foldl KaonMoments.fill m.initializeCounters).calculateMoments.2 =
          (es.foldl KaonMoments.fill m'.initializeCounters).calculateMoments.2) := by
  have hlen : ∀ a : KaonMoments,
      (es.foldl KaonMoments.fill a.initializeCounters).nEvents = es.length := by
    intro a
    rw [KaonMoments.nEvents_foldl_fill]
    simp [KaonMoments.initializeCounters]
  have hmm := KaonMoments.calculateMoments_congr
    (KaonMoments.SameSums.foldl_fill es (KaonMoments.sameSums_init m m'))
  refine ⟨?_, KaonMoments.sameSums_init_zero m, hmm.1, ?_⟩
  · by_cases h : (es.foldl KaonMoments.fill m.initializeCounters).nEvents < 2
    · have e : (es.foldl KaonMoments.fill
          m.initializeCounters).calculateMoments.2.initializeCounters = m.initializeCounters := by
        rw [KaonMoments.calculateMoments_of_lt_two _ h]
        show (es.foldl KaonMoments.fill m.initializeCounters).initializeCounters = _
        rw [KaonMoments.init_foldl_fill]
        rfl
      rw [e]
    · have hs := KaonMoments.SameSums.foldl_fill es
        (KaonMoments.sameSums_init
          (es.foldl KaonMoments.fill m.initializeCounters).calculateMoments.2 m)
      have hc := KaonMoments.calculateMoments_congr hs
      refine Prod.ext hc.1 (hc.2 ?_)
      rw [hs.1]
      omega
  · intro h2
    apply hmm.2
    rw [hlen]
    exact_mod_cast h2

/-! ## Rounding to a double -/

theorem roundHalfEven_sub_le (y : ℚ) : |(roundHalfEven y : ℚ) - y| ≤ 1/2 := by
  have h1 := Int.floor_le y
  have h2 := Int.lt_floor_add_one y
  unfold roundHalfEven
  split_ifs with a b c
  · rw [abs_le]; constructor <;> linarith
  · push_cast; rw [abs_le]; constructor <;> linarith
  · rw [abs_le]; constructor <;> linarith
  · push_cast; rw [abs_le]; constructor <;> linarith

theorem roundHalfEven_intCast (n : Int) : roundHalfEven (n : ℚ) = n := by
  unfold roundHalfEven
  simp

/-- A value closer than one half to an integer rounds to it. -/
theorem roundHalfEven_eq_of_near (y : ℚ) (m : Int) (h1 : (m : ℚ) - 1/2 < y)
    (h2 : y < (m : ℚ) + 1/2) : roundHalfEven y = m := by
  have hle := roundHalfEven_sub_le y
  rw [abs_le] at hle
  have a : ((roundHalfEven y : Int) : ℚ) < (m : ℚ) + 1 := by linarith [hle.2]
  have b : (m : ℚ) - 1 < ((roundHalfEven y : Int) : ℚ) := by linarith [hle.1]
  have a' : roundHalfEven y < m + 1 := by exact_mod_cast a
  have b' : m - 1 < roundHalfEven y := by exact_mod_cast b
  omega

/-- A tie rounds to the even neighbour. -/
theorem roundHalfEven_tie (f : Int) :
    roundHalfEven ((f : ℚ) + 1/2) = if f % 2 = 0 then f else f + 1 := by
  have hf : ⌊(f : ℚ) + 1/2⌋ = f := by
    rw [Int.floor_eq_iff]; constructor <;> norm_num
  unfold roundHalfEven
  rw [hf]
  norm_num

theorem ulp_pos (x : ℚ) : 0 < ulp x := by
  unfold ulp; positivity

/-- Below `2 ^ t` the spacing of the doubles is at most `2 ^ (t - 53)`. -/
theorem ulp_le (x : ℚ) (t : Int) (hx : x ≠ 0) (h : |x| < (2 : ℚ) ^ t) (ht : -1021 ≤ t) :
    ulp x ≤ (2 : ℚ) ^ (t - 53) := by
  have hpos : 0 < |x| := abs_pos.mpr hx
  have hlog : Int.log 2 |x| < t := by
    rw [← Int.lt_zpow_iff_log_lt (by norm_num) hpos]
    exact_mod_cast h
  unfold ulp
  apply zpow_le_zpow_right₀ (by norm_num)
  have : max (Int.log 2 |x|) (-1022) ≤ t - 1 := max_le (by omega) (by omega)
  omega

/-- The exponent of a rational of the binade `[2 ^ e, 2 ^ (e + 1))`. -/
theorem log_eq_of_binade (x : ℚ) (e : Int) (h1 : (2 : ℚ) ^ e ≤ |x|)
    (h2 : |x| < (2 : ℚ) ^ (e + 1)) : Int.log 2 |x| = e := by
  have hpos : 0 < |x| := lt_of_lt_of_le (by positivity) h1
  have a : e ≤ Int.log 2 |x| := by
    rw [← Int.zpow_le_iff_le_log (by norm_num) hpos]
    exact_mod_cast h1
  have b : Int.log 2 |x| < e + 1 := by
    rw [← Int.lt_zpow_iff_log_lt (by norm_num) hpos]
    exact_mod_cast h2
  omega

/-- Rounding below `2 ^ t`, for `t` in the range of the normal doubles: the result is finite and
within `2 ^ (t - 54)`, half the spacing, of the exact value. -/
theorem round64_error (x : ℚ) (t : Int) (h : |x| < (2 : ℚ) ^ t) (ht : -1021 ≤ t)
    (ht' : t ≤ 1023) : ∃ r : ℚ, round64 x = Dbl.fin r ∧ |r - x| ≤ (2 : ℚ) ^ (t - 54) := by
  by_cases hx : x = 0
  · refine ⟨0, by simp [round64, hx], ?_⟩
    rw [hx]; simp; positivity
  · have hu := ulp_pos x
    have hle := ulp_le x t hx h ht
    have herr : |(roundHalfEven (x / ulp x) : ℚ) * ulp x - x| ≤ (2 : ℚ) ^ (t - 54) := by
      have e1 : (roundHalfEven (x / ulp x) : ℚ) * ulp x - x
          = ((roundHalfEven (x / ulp x) : ℚ) - x / ulp x) * ulp x := by
        field_simp
      rw [e1, abs_mul, abs_of_pos hu]
      have e2 : (2 : ℚ) ^ (t - 54) = 1/2 * (2 : ℚ) ^ (t - 53) := by
        rw [show t - 53 = (t - 54) + 1 by ring, zpow_add_one₀ (by norm_num)]
        ring
      rw [e2]
      exact mul_le_mul (roundHalfEven_sub_le _) hle hu.le (by norm_num)
    refine ⟨(roundHalfEven (x / ulp x) : ℚ) * ulp x, ?_, herr⟩
    have hsmall : ¬ (2 : ℚ) ^ (1024 : Int) ≤ |(roundHalfEven (x / ulp x) : ℚ) * ulp x| := by
      rw [not_le]
      have t1 : (2 : ℚ) ^ t ≤ (2 : ℚ) ^ (1023 : Int) := zpow_le_zpow_right₀ (by norm_num) ht'
      have t2 : (2 : ℚ) ^ (t - 54) ≤ (2 : ℚ) ^ (1023 : Int) :=
        zpow_le_zpow_right₀ (by norm_num) (by omega)
      have t3 : (2 : ℚ) ^ (1024 : Int) = 2 * (2 : ℚ) ^ (1023 : Int) := by
        rw [show (1024 : Int) = 1023 + 1 by norm_num, zpow_add_one₀ (by norm_num)]
        ring
      have t4 : |(roundHalfEven (x / ulp x) : ℚ) * ulp x|
          ≤ |(roundHalfEven (x / ulp x) : ℚ) * ulp x - x| + |x| := by
        have := abs_add ((roundHalfEven (x / ulp x) : ℚ) * ulp x - x) x
        simpa using this
      rw [t3]
      linarith
    simp [round64, hx, hsmall]

/-- A rational `j * 2 ^ s` with an integer `j` is a double, and rounds to itself, when it is
below `2 ^ (s + 53)` and `s` is in the range of the exponents. -/
theorem round64_exact (j s : Int) (h : |(j : ℚ) * (2 : ℚ) ^ s| < (2 : ℚ) ^ (s + 53))
    (hs : -1074 ≤ s) (hs' : s ≤ 971) :
    round64 ((j : ℚ) * (2 : ℚ) ^ s) = Dbl.fin ((j : ℚ) * (2 : ℚ) ^ s) := by
  by_cases hx : (j : ℚ) * (2 : ℚ) ^ s = 0
  · simp [round64, hx]
  · have hpos : 0 < |(j : ℚ) * (2 : ℚ) ^ s| := abs_pos.mpr hx
    have hlog : Int.log 2 |(j : ℚ) * (2 : ℚ) ^ s| < s + 53 := by
      rw [← Int.lt_zpow_iff_log_lt (by norm_num) hpos]
      exact_mod_cast h
    obtain ⟨E, hE⟩ : ∃ E : Int, E = max (Int.log 2 |(j : ℚ) * (2 : ℚ) ^ s|) (-1022) - 52 :=
      ⟨_, rfl⟩
    have hmax : E ≤ s := by
      have : max (Int.log 2 |(j : ℚ) * (2 : ℚ) ^ s|) (-1022) ≤ s + 52 :=
        max_le (by omega) (by omega)
      omega
    obtain ⟨n, hn⟩ : ∃ n : ℕ, s = E + n := ⟨(s - E).toNat, by omega⟩
    have hu : ulp ((j : ℚ) * (2 : ℚ) ^ s) = (2 : ℚ) ^ E := by
      unfold ulp; rw [hE]
    have hpow : (2 : ℚ) ^ s = (2 : ℚ) ^ E * (2 : ℚ) ^ n := by
      rw [hn, zpow_add₀ (by norm_num), zpow_natCast]
    have hE0 : (2 : ℚ) ^ E ≠ 0 := by positivity
    have hdiv : (j : ℚ) * (2 : ℚ) ^ s / (2 : ℚ) ^ E = ((j * 2 ^ n : Int) : ℚ) := by
      rw [hpow]; push_cast; field_simp; ring
    have hr : (roundHalfEven ((j : ℚ) * (2 : ℚ) ^ s / (2 : ℚ) ^ E) : ℚ) * (2 : ℚ) ^ E
        = (j : ℚ) * (2 : ℚ) ^ s := by
      rw [hdiv, roundHalfEven_intCast, hpow]; push_cast; ring
    have hsmall : ¬ (2 : ℚ) ^ (1024 : Int) ≤ |(j : ℚ) * (2 : ℚ) ^ s| := by
      rw [not_le]
      exact lt_of_lt_of_le h (zpow_le_zpow_right₀ (by norm_num) (by omega))
    simp only [round64, hu, hr, if_neg hx, if_neg hsmall]

/-- An integer of absolute value at most `2 ^ 53` is a double, and rounds to itself. -/
theorem round64_intCast (n : Int) (h : |n| ≤ 9007199254740992) :
    round64 (n : ℚ) = Dbl.fin (n : ℚ) := by
  by_cases hlt : |n| < 9007199254740992
  · have hq : |(n : ℚ)| < 9007199254740992 := by
      have : ((|n| : Int) : ℚ) < ((9007199254740992 : Int) : ℚ) := by exact_mod_cast hlt
      rw [Int.cast_abs] at this
      exact_mod_cast this
    have := round64_exact n 0 (by rw [zpow_zero, mul_one]; norm_num; exact hq) (by norm_num)
      (by norm_num)
    rw [zpow_zero, mul_one] at this
    exact this
  · have hn : |n| = 9007199254740992 := le_antisymm h (not_lt.mp hlt)
    rcases (abs_eq (by norm_num : (0 : Int) ≤ 9007199254740992)).mp hn with e | e
    · have := round64_exact 1 53 (by norm_num) (by norm_num) (by norm_num)
      rw [e]
      norm_num at this ⊢
      exact this
    · have := round64_exact (-1) 53 (by norm_num) (by norm_num) (by norm_num)
      rw [e]
      norm_num at this ⊢
      exact this

/-- Evaluation of the rounding in the binade `[2 ^ e, 2 ^ (e + 1))` of the normal doubles. -/
theorem round64_eq (x : ℚ) (e m : Int) (h1 : (2 : ℚ) ^ e ≤ |x|) (h2 : |x| < (2 : ℚ) ^ (e + 1))
    (he : -1022 ≤ e) (he' : e ≤ 1022) (hm : roundHalfEven (x / (2 : ℚ) ^ (e - 52)) = m) :
    round64 x = Dbl.fin ((m : ℚ) * (2 : ℚ) ^ (e - 52)) := by
  have hx : x ≠ 0 := by
    intro h0; rw [h0] at h1; simp at h1
    exact absurd h1 (not_le.mpr (by positivity))
  have hu : ulp x = (2 : ℚ) ^ (e - 52) := by
    unfold ulp; rw [log_eq_of_binade x e h1 h2, max_eq_left he]
  obtain ⟨r, hr, -⟩ := round64_error x (e + 1) h2 (by omega) (by omega)
  by_cases c : (2 : ℚ) ^ (1024 : Int) ≤ |(m : ℚ) * (2 : ℚ) ^ (e - 52)|
  · exfalso
    simp only [round64, if_neg hx, hu, hm, if_pos c] at hr
    split_ifs at hr
  · simp only [round64, if_neg hx, hu, hm, if_neg c]

/-- An integer below a rational stays below its rounding. -/
theorem le_roundHalfEven (j : Int) (y : ℚ) (h : (j : ℚ) ≤ y) : j ≤ roundHalfEven y := by
  have hf : j ≤ ⌊y⌋ := Int.le_floor.mpr h
  unfold roundHalfEven
  split_ifs <;> omega

/-- An integer above a rational stays above its rounding. -/
theorem roundHalfEven_le (j : Int) (y : ℚ) (h : y ≤ (j : ℚ)) : roundHalfEven y ≤ j := by
  have h1 := Int.floor_le y
  have hf : ⌊y⌋ ≤ j := by
    have : ((⌊y⌋ : Int) : ℚ) ≤ (j : ℚ) := le_trans h1 h
    exact_mod_cast this
  unfold roundHalfEven
  split_ifs with a b c
  · exact hf
  · have : ((⌊y⌋ : Int) : ℚ) < (j : ℚ) := by linarith
    have : ⌊y⌋ < j := by exact_mod_cast this
    omega
  · exact hf
  · have : ((⌊y⌋ : Int) : ℚ) < (j : ℚ) := by linarith
    have : ⌊y⌋ < j := by exact_mod_cast this
    omega

/-- Rounding keeps a rational between the integers that enclose it, as long as these are below
`2 ^ 53` in absolute value (they are doubles): the result is finite and between them. -/
theorem round64_between (x : ℚ) (a b : Int) (ha : (a : ℚ) ≤ x) (hb : x ≤ (b : ℚ))
    (ha' : -9007199254740992 < a) (hb' : b < 9007199254740992) :
    ∃ r : ℚ, round64 x = Dbl.fin r ∧ (a : ℚ) ≤ r ∧ r ≤ (b : ℚ) := by
  by_cases hx : x = 0
  · refine ⟨0, by simp [round64, hx], ?_, ?_⟩
    · rw [hx] at ha; exact ha
    · rw [hx] at hb; exact hb
  · have hpos : 0 < |x| := abs_pos.mpr hx
    have qa : ((-9007199254740992 : Int) : ℚ) < (a : ℚ) := by exact_mod_cast ha'
    have qb : (b : ℚ) < ((9007199254740992 : Int) : ℚ) := by exact_mod_cast hb'
    have habs : |x| < (2 : ℚ) ^ (53 : Int) := by
      rw [abs_lt]
      norm_num at qa qb ⊢
      constructor <;> linarith
    have hlog : Int.log 2 |x| < 53 := by
      rw [← Int.lt_zpow_iff_log_lt (by norm_num) hpos]
      exact_mod_cast habs
    have hm : max (Int.log 2 |x|) (-1022) ≤ 52 := max_le (by omega) (by norm_num)
    obtain ⟨n, hn⟩ : ∃ n : ℕ, max (Int.log 2 |x|) (-1022) - 52 = -(n : Int) :=
      ⟨(52 - max (Int.log 2 |x|) (-1022)).toNat, by omega⟩
    have hu : ulp x = ((2 : ℚ) ^ n)⁻¹ := by
      unfold ulp; rw [hn, zpow_neg, zpow_natCast]
    have h2 : (0 : ℚ) < (2 : ℚ) ^ n := by positivity
    have hdiv : x / ulp x = x * (2 : ℚ) ^ n := by rw [hu, div_inv_eq_mul]
    have lo : ((a * 2 ^ n : Int) : ℚ) ≤ (roundHalfEven (x / ulp x) : ℚ) := by
      have := le_roundHalfEven (a * 2 ^ n) (x / ulp x)
        (by rw [hdiv]; push_cast; exact mul_le_mul_of_nonneg_right ha h2.le)
      exact_mod_cast this
    have hi : (roundHalfEven (x / ulp x) : ℚ) ≤ ((b * 2 ^ n : Int) : ℚ) := by
      have := roundHalfEven_le (b * 2 ^ n) (x / ulp x)
        (by rw [hdiv]; push_cast; exact mul_le_mul_of_nonneg_right hb h2.le)
      exact_mod_cast this
    push_cast at lo hi
    obtain ⟨R, hR⟩ : ∃ R : Int, R = roundHalfEven (x / ulp x) := ⟨_, rfl⟩
    rw [← hR] at lo hi
    have lo' : (a : ℚ) ≤ (R : ℚ) * ulp x := by
      rw [hu, ← div_eq_mul_inv, le_div_iff₀ h2]; exact lo
    have hi' : (R : ℚ) * ulp x ≤ (b : ℚ) := by
      rw [hu, ← div_eq_mul_inv, div_le_iff₀ h2]; exact hi
    refine ⟨(R : ℚ) * ulp x, ?_, lo', hi'⟩
    have hsmall : ¬ (2 : ℚ) ^ (1024 : Int) ≤ |(R : ℚ) * ulp x| := by
      rw [not_le]
      have t1 : |(R : ℚ) * ulp x| < (2 : ℚ) ^ (53 : Int) := by
        rw [abs_lt]
        norm_num at qa qb ⊢
        constructor <;> linarith
      exact lt_trans t1 (zpow_lt_zpow_right₀ (by norm_num) (by norm_num))
    simp only [round64, if_neg hx, ← hR, if_neg hsmall]

/-- An integer reduced to the 32-bit range is in that range. -/
theorem wrapInt32_range (x : Int) :
    -2147483648 ≤ wrapInt32 x ∧ wrapInt32 x ≤ 2147483647 := by
  unfold wrapInt32
  omega

namespace Dbl

/-- The 32-bit conversion of a finite value whose truncation is in the `int` range is the
truncation toward zero. -/
theorem toInt32_fin (x : ℚ) (h0 : -2147483648 ≤ truncTowardZero x)
    (h1 : truncTowardZero x ≤ 2147483647) : (fin x).toInt32 = truncTowardZero x := by
  have e : Int.tdiv x.num x.den = truncTowardZero x := Dbl.toInt_fin x
  simp only [toInt32, e]
  rw [if_pos ⟨h0, h1⟩]

/-- The 32-bit conversion always gives a value of the `int` range. -/
theorem toInt32_range (d : Dbl) : -2147483648 ≤ d.toInt32 ∧ d.toInt32 ≤ 2147483647 := by
  cases d with
  | fin q =>
    simp only [toInt32]
    split_ifs with h
    · exact h
    · omega
  | pinf => simp [toInt32]
  | ninf => simp [toInt32]
  | nan => simp [toInt32]

/-- The rounded sum of two integers carried by doubles is their sum, when this is at most
`2 ^ 53` in absolute value. -/
theorem fadd_int (s v : Int) (h : |s + v| ≤ 9007199254740992) :
    fadd (fin (s : ℚ)) (ofInt v) = fin ((s + v : Int) : ℚ) := by
  show round (fin ((s : ℚ) + (v : ℚ))) = _
  rw [← Int.cast_add]
  exact round64_intCast _ h

/-- The rounded sum is commutative. -/
theorem fadd_comm (x y : Dbl) : fadd x y = fadd y x := by
  unfold fadd
  rw [dadd_comm]

end Dbl


/-! ## The generator on the machine -/

namespace Dbl

@[simp] theorem toInt32_fin_zero : (fin 0).toInt32 = 0 := by
  simp [toInt32]

end Dbl

namespace Machine

/-- The total `k` written by `generate` is an `int`. -/
theorem generate_k_range (g : KaonGenerator) (event : KaonEvent) :
    -2147483648 ≤ (generate g event).1.k ∧ (generate g event).1.k ≤ 2147483647 := by
  simp only [generate, TRandom.Uniform, Binomial]
  split_ifs <;> exact wrapInt32_range _

/-- In every branch the totals written by `generate` are the 32-bit sums of the two
categories. -/
theorem generate_totals_wrapped (g : KaonGenerator) (event : KaonEvent) :
    (generate g event).1.k0
        = wrapInt32 ((generate g event).1.k0_Binomial + (generate g event).1.k0_DCC) ∧
      (generate g event).1.k0s
        = wrapInt32 ((generate g event).1.k0s_Binomial + (generate g event).1.k0s_DCC) ∧
      (generate g event).1.kc
        = wrapInt32 ((generate g event).1.kc_Binomial + (generate g event).1.kc_DCC) := by
  simp [generate, TRandom.Uniform, Binomial]

/-- Symbolic run of `generate` in the branch `dccFraction == 0.0`. -/
theorem generate_binomial_run (g : KaonGenerator) (event : KaonEvent)
    (h : g.dccFraction = Dbl.fin 0) :
    draws g event =
        [Draw.uniform (Dbl.ofInt g.minMult) (Dbl.ofInt g.maxMult)
            (generate g event).1.centrality,
          Draw.binomial (generate g event).1.centrality.toInt32 g.kaonFraction
            (generate g event).1.k,
          Draw.binomial (generate g event).1.k_Binomial (Dbl.fin (1/2))
            (generate g event).1.k0_Binomial,
          Draw.binomial (generate g event).1.k0_Binomial (Dbl.fin (1/2))
            (generate g event).1.k0s_Binomial] ∧
      (generate g event).1.k_DCC = 0 ∧ (generate g event).1.k0_DCC = 0 ∧
      (generate g event).1.k0s_DCC = 0 ∧ (generate g event).1.kc_DCC = 0 ∧
      (generate g event).1.k_Binomial = (generate g event).1.k ∧
      (generate g event).1.kc_Binomial
        = wrapInt32 ((generate g event).1.k_Binomial - (generate g event).1.k0_Binomial) := by
  simp [draws, generate, TRandom.Uniform, Binomial, h]

/-- Symbolic run of `generate` in the branch `dccFraction == 1.0`; `φ` is the neutral fraction
drawn, the outcome of the third call. -/
theorem generate_dcc_run (g : KaonGenerator) (event : KaonEvent)
    (h : g.dccFraction = Dbl.fin 1) :
    ∃ φ : Dbl, φ = g.random.uniformValue (g.random.drawn.length + 2) (Dbl.fin 0) (Dbl.fin 1) ∧
      draws g event =
        [Draw.uniform (Dbl.ofInt g.minMult) (Dbl.ofInt g.maxMult)
            (generate g event).1.centrality,
          Draw.binomial (generate g event).1.centrality.toInt32 g.kaonFraction
            (generate g event).1.k,
          Draw.uniform (Dbl.fin 0) (Dbl.fin 1) φ,
          Draw.binomial (generate g event).1.k0_DCC (Dbl.fin (1/2))
            (generate g event).1.k0s_DCC] ∧
      (generate g event).1.k_DCC = (generate g event).1.k ∧
      (generate g event).1.k0_DCC
        = (Dbl.fmul (Dbl.ofInt (generate g event).1.k_DCC) φ).toInt32 ∧
      (generate g event).1.kc_DCC
        = wrapInt32 ((generate g event).1.k_DCC - (generate g event).1.k0_DCC) ∧
      (generate g event).1.k_Binomial = 0 ∧ (generate g event).1.k0_Binomial = 0 ∧
      (generate g event).1.k0s_Binomial = 0 ∧ (generate g event).1.kc_Binomial = 0 := by
  simp [draws, generate, TRandom.Uniform, Binomial, h]

/-- Symbolic run of `generate` in the branch taken when `dccFraction` is neither `0.0` nor
`1.0`; `φ` is the neutral fraction drawn, the outcome of the third call. -/
theorem generate_mixed_run (g : KaonGenerator) (event : KaonEvent)
    (h0 : g.dccFraction ≠ Dbl.fin 0) (h1 : g.dccFraction ≠ Dbl.fin 1) :
    ∃ φ : Dbl, φ = g.random.uniformValue (g.random.drawn.length + 2) (Dbl.fin 0) (Dbl.fin 1) ∧
      draws g event =
        [Draw.uniform (Dbl.ofInt g.minMult) (Dbl.ofInt g.maxMult)
            (generate g event).1.centrality,
          Draw.binomial (generate g event).1.centrality.toInt32 g.kaonFraction
            (generate g event).1.k,
          Draw.uniform (Dbl.fin 0) (Dbl.fin 1) φ,
          Draw.binomial (generate g event).1.k0_DCC (Dbl.fin (1/2))
            (generate g event).1.k0s_DCC,
          Draw.binomial (generate g event).1.k_Binomial (Dbl.fin (1/2))
            (generate g event).1.k0_Binomial,
          Draw.binomial (generate g event).1.k0_Binomial (Dbl.fin (1/2))
            (generate g event).1.k0s_Binomial] ∧
      (generate g event).1.k_DCC
        = (Dbl.fmul g.dccFraction (Dbl.ofInt (generate g event).1.k)).toInt32 ∧
      (generate g event).1.k0_DCC
        = (Dbl.fmul (Dbl.ofInt (generate g event).1.k_DCC) φ).toInt32 ∧
      (generate g event).1.kc_DCC
        = wrapInt32 ((generate g event).1.k_DCC - (generate g event).1.k0_DCC) ∧
      (generate g event).1.k_Binomial
        = wrapInt32 ((generate g event).1.k - (generate g event).1.k_DCC) ∧
      (generate g event).1.kc_Binomial
        = wrapInt32 ((generate g event).1.k_Binomial - (generate g event).1.k0_Binomial) := by
  have e0 : g.dccFraction.eq (Dbl.fin 0) = false := by
    rw [Bool.eq_false_iff]; simpa using h0
  have e1 : g.dccFraction.eq (Dbl.fin 1) = false := by
    rw [Bool.eq_false_iff]; simpa using h1
  simp only [draws, generate, TRandom.Uniform, Binomial, e0, e1]
  simp

end Machine


namespace Machine

/-- The values `generate` writes in the branch taken when `dccFraction` is neither `0.0` nor
`1.0`, each in terms of the values written before it and of the outcomes of the calls of the
random generator. -/
theorem generate_mixed_values (g : KaonGenerator) (event : KaonEvent)
    (h0 : g.dccFraction ≠ Dbl.fin 0) (h1 : g.dccFraction ≠ Dbl.fin 1) :
    (generate g event).1.centrality
        = g.random.uniformValue g.random.drawn.length (Dbl.ofInt g.minMult)
          (Dbl.ofInt g.maxMult) ∧
      (generate g event).1.k
        = wrapInt32 (g.random.binomialValue (g.random.drawn.length + 1)
          (generate g event).1.centrality.toInt32 g.kaonFraction) ∧
      (generate g event).1.k_DCC
        = (Dbl.fmul g.dccFraction (Dbl.ofInt (generate g event).1.k)).toInt32 ∧
      (generate g event).1.k0_DCC
        = (Dbl.fmul (Dbl.ofInt (generate g event).1.k_DCC)
          (g.random.uniformValue (g.random.drawn.length + 2) (Dbl.fin 0) (Dbl.fin 1))).toInt32 ∧
      (generate g event).1.k0s_DCC
        = wrapInt32 (g.random.binomialValue (g.random.drawn.length + 3)
          (generate g event).1.k0_DCC (Dbl.fin (1/2))) ∧
      (generate g event).1.kc_DCC
        = wrapInt32 ((generate g event).1.k_DCC - (generate g event).1.k0_DCC) ∧
      (generate g event).1.k_Binomial
        = wrapInt32 ((generate g event).1.k - (generate g event).1.k_DCC) ∧
      (generate g event).1.k0_Binomial
        = wrapInt32 (g.random.binomialValue (g.random.drawn.length + 4)
          (generate g event).1.k_Binomial (Dbl.fin (1/2))) ∧
      (generate g event).1.k0s_Binomial
        = wrapInt32 (g.random.binomialValue (g.random.drawn.length + 5)
          (generate g event).1.k0_Binomial (Dbl.fin (1/2))) ∧
      (generate g event).1.kc_Binomial
        = wrapInt32 ((generate g event).1.k_Binomial - (generate g event).1.k0_Binomial) := by
  have e0 : g.dccFraction.eq (Dbl.fin 0) = false := by
    rw [Bool.eq_false_iff]; simpa using h0
  have e1 : g.dccFraction.eq (Dbl.fin 1) = false := by
    rw [Bool.eq_false_iff]; simpa using h1
  simp only [generate, TRandom.Uniform, Binomial, e0, e1]
  simp

/-- A fraction `x` of `[0, 1]` of a count `n` of the `int` range, `n ≥ 0`: the rounded product,
converted to `int`, lies between `0` and `n`. -/
theorem toInt32_fmul_bounds (n : Int) (x : ℚ) (hn0 : 0 ≤ n) (hn : n ≤ 2147483647)
    (h0 : 0 ≤ x) (h1 : x ≤ 1) :
    0 ≤ (Dbl.fmul (Dbl.ofInt n) (Dbl.fin x)).toInt32 ∧
      (Dbl.fmul (Dbl.ofInt n) (Dbl.fin x)).toInt32 ≤ n := by
  have hn' : (0 : ℚ) ≤ (n : ℚ) := by exact_mod_cast hn0
  obtain ⟨r, hr, r0, rn⟩ := round64_between ((n : ℚ) * x) 0 n
    (by push_cast; exact mul_nonneg hn' h0) (by nlinarith) (by norm_num) (by omega)
  have e : Dbl.fmul (Dbl.ofInt n) (Dbl.fin x) = Dbl.fin r := hr
  rw [e]
  have tb := truncTowardZero_bounds r n (by exact_mod_cast r0) rn
  rw [Dbl.toInt32_fin r (by omega) (by omega)]
  exact tb

/-- The same with the fraction as the left factor. -/
theorem toInt32_fmul_bounds_left (n : Int) (x : ℚ) (hn0 : 0 ≤ n) (hn : n ≤ 2147483647)
    (h0 : 0 ≤ x) (h1 : x ≤ 1) :
    0 ≤ (Dbl.fmul (Dbl.fin x) (Dbl.ofInt n)).toInt32 ∧
      (Dbl.fmul (Dbl.fin x) (Dbl.ofInt n)).toInt32 ≤ n := by
  have e : Dbl.fmul (Dbl.fin x) (Dbl.ofInt n) = Dbl.fmul (Dbl.ofInt n) (Dbl.fin x) := by
    show Dbl.round (Dbl.fin (x * (n : ℚ))) = Dbl.round (Dbl.fin ((n : ℚ) * x))
    rw [mul_comm]
  rw [e]
  exact toInt32_fmul_bounds n x hn0 hn h0 h1

/-- With `0 ≤ dccFraction ≤ 1`, in-range binomial draws and a neutral fraction of `[0, 1)`, no
`int` operation of `generate` leaves the 32-bit range: every count is between `0` and its parent,
and the differences and sums are those of the integers. -/
theorem generate_bounds (g : KaonGenerator) (event : KaonEvent) (q : ℚ)
    (hq : g.dccFraction = Dbl.fin q) (q0 : 0 ≤ q) (q1 : q ≤ 1)
    (hb : ∀ d ∈ draws g event, d.inRange) (hu : ∀ d ∈ draws g event, d.fractionInUnit) :
    (0 ≤ (generate g event).1.k ∧ (generate g event).1.k ≤ 2147483647) ∧
      (0 ≤ (generate g event).1.k_DCC ∧ (generate g event).1.k_DCC ≤ (generate g event).1.k) ∧
      (generate g event).1.k_Binomial = (generate g event).1.k - (generate g event).1.k_DCC ∧
      (0 ≤ (generate g event).1.k0_DCC ∧
        (generate g event).1.k0_DCC ≤ (generate g event).1.k_DCC) ∧
      (generate g event).1.kc_DCC
        = (generate g event).1.k_DCC - (generate g event).1.k0_DCC ∧
      (0 ≤ (generate g event).1.k0_Binomial ∧
        (generate g event).1.k0_Binomial ≤ (generate g event).1.k_Binomial) ∧
      (generate g event).1.kc_Binomial
        = (generate g event).1.k_Binomial - (generate g event).1.k0_Binomial ∧
      (0 ≤ (generate g event).1.k0s_DCC ∧
        (generate g event).1.k0s_DCC ≤ (generate g event).1.k0_DCC) ∧
      (0 ≤ (generate g event).1.k0s_Binomial ∧
        (generate g event).1.k0s_Binomial ≤ (generate g event).1.k0_Binomial) ∧
      (generate g event).1.k0
        = (generate g event).1.k0_Binomial + (generate g event).1.k0_DCC ∧
      (generate g event).1.k0s
        = (generate g event).1.k0s_Binomial + (generate g event).1.k0s_DCC ∧
      (generate g event).1.kc
        = (generate g event).1.kc_Binomial + (generate g event).1.kc_DCC := by
  obtain ⟨t0, t0s, tc⟩ := generate_totals_wrapped g event
  have kr := generate_k_range g event
  by_cases c0 : g.dccFraction = Dbl.fin 0
  · obtain ⟨hd, h1, h2, h3, h4, h5, h6⟩ := generate_binomial_run g event c0
    rw [hd] at hb
    simp [Draw.inRange] at hb
    unfold wrapInt32 at t0 t0s tc h6
    omega
  · by_cases c1 : g.dccFraction = Dbl.fin 1
    · obtain ⟨φ, -, hd, h1, h2, h3, h4, h5, h6, h7⟩ := generate_dcc_run g event c1
      rw [hd] at hb hu
      simp [Draw.inRange, Draw.fractionInUnit] at hb hu
      obtain ⟨x, rfl, x0, x1⟩ := (Dbl.inUnitInterval_iff φ).mp hu.2
      have hk : 0 ≤ (generate g event).1.k_DCC := by rw [h1]; exact hb.1.1
      have b := toInt32_fmul_bounds _ x hk (by omega) x0 x1.le
      rw [← h2] at b
      unfold wrapInt32 at t0 t0s tc h3
      omega
    · obtain ⟨φ, -, hd, h1, h2, h3, h4, h5⟩ := generate_mixed_run g event c0 c1
      rw [hd] at hb hu
      simp [Draw.inRange, Draw.fractionInUnit] at hb hu
      obtain ⟨x, rfl, x0, x1⟩ := (Dbl.inUnitInterval_iff φ).mp hu.2
      have a : 0 ≤ (generate g event).1.k_DCC ∧
          (generate g event).1.k_DCC ≤ (generate g event).1.k := by
        rw [h1, hq]
        exact toInt32_fmul_bounds_left _ q hb.1.1 kr.2 q0 q1
      have b := toInt32_fmul_bounds _ x a.1 (by omega) x0 x1.le
      rw [← h2] at b
      unfold wrapInt32 at t0 t0s tc h3 h4 h5
      omega

end Machine


/-- Reducing to the 32-bit range changes an integer by a multiple of `2 ^ 32`. -/
theorem wrapInt32_spec (x : Int) : ∃ t : Int, wrapInt32 x = x + 4294967296 * t := by
  refine ⟨-((x + 2147483648) / 4294967296), ?_⟩
  unfold wrapInt32
  omega

/-- An integer that differs from an `int` by a multiple of `2 ^ 32` reduces to it. -/
theorem wrapInt32_eq (y k t : Int) (h : y = k + 4294967296 * t)
    (hk : -2147483648 ≤ k ∧ k ≤ 2147483647) : wrapInt32 y = k := by
  unfold wrapInt32
  omega

namespace Machine

/-- Every count written by `generate` is in the range of a 32-bit `int`. -/
theorem generate_countsInt32 (g : KaonGenerator) (event : KaonEvent) :
    (generate g event).1.CountsInt32 := by
  simp only [KaonEvent.CountsInt32, generate, TRandom.Uniform, Binomial]
  split_ifs
  all_goals
    simp only [Dbl.toInt32_fin_zero]
    refine ⟨?_, ?_, ?_, ?_, ?_, ?_, ?_, ?_, ?_, ?_, ?_, ?_⟩
  all_goals first
    | exact wrapInt32_range _
    | exact Dbl.toInt32_range _
    | omega

/-- In every branch the identities of the charge decomposition hold in 32-bit arithmetic. -/
theorem generate_decomposition_wrapped (g : KaonGenerator) (event : KaonEvent) :
    wrapInt32 ((generate g event).1.kc + (generate g event).1.k0) = (generate g event).1.k ∧
      wrapInt32 ((generate g event).1.kc_Binomial + (generate g event).1.k0_Binomial)
        = (generate g event).1.k_Binomial ∧
      wrapInt32 ((generate g event).1.kc_DCC + (generate g event).1.k0_DCC)
        = (generate g event).1.k_DCC ∧
      wrapInt32 ((generate g event).1.k_Binomial + (generate g event).1.k_DCC)
        = (generate g event).1.k := by
  obtain ⟨t0, -, tc⟩ := generate_totals_wrapped g event
  obtain ⟨r1, -, -, -, r5, -, -, -, r9, -, -, -⟩ := generate_countsInt32 g event
  obtain ⟨a, ha⟩ := wrapInt32_spec ((generate g event).1.k0_Binomial + (generate g event).1.k0_DCC)
  obtain ⟨b, hb⟩ := wrapInt32_spec ((generate g event).1.kc_Binomial + (generate g event).1.kc_DCC)
  rw [ha] at t0
  rw [hb] at tc
  by_cases c0 : g.dccFraction = Dbl.fin 0
  · obtain ⟨-, h1, h2, h3, h4, h5, h6⟩ := generate_binomial_run g event c0
    obtain ⟨c, hc⟩ := wrapInt32_spec
      ((generate g event).1.k_Binomial - (generate g event).1.k0_Binomial)
    rw [hc] at h6
    refine ⟨wrapInt32_eq _ _ (a + b + c) ?_ r1, wrapInt32_eq _ _ c ?_ r5,
      wrapInt32_eq _ _ 0 ?_ r9, wrapInt32_eq _ _ 0 ?_ r1⟩ <;> omega
  · by_cases c1 : g.dccFraction = Dbl.fin 1
    · obtain ⟨φ, -, -, h1, h2, h3, h4, h5, h6, h7⟩ := generate_dcc_run g event c1
      obtain ⟨c, hc⟩ := wrapInt32_spec
        ((generate g event).1.k_DCC - (generate g event).1.k0_DCC)
      rw [hc] at h3
      refine ⟨wrapInt32_eq _ _ (a + b + c) ?_ r1, wrapInt32_eq _ _ 0 ?_ r5,
        wrapInt32_eq _ _ c ?_ r9, wrapInt32_eq _ _ 0 ?_ r1⟩ <;> omega
    · obtain ⟨φ, -, -, h1, h2, h3, h4, h5⟩ := generate_mixed_run g event c0 c1
      obtain ⟨c, hc⟩ := wrapInt32_spec
        ((generate g event).1.k_DCC - (generate g event).1.k0_DCC)
      obtain ⟨d, hd⟩ := wrapInt32_spec ((generate g event).1.k - (generate g event).1.k_DCC)
      obtain ⟨e, he⟩ := wrapInt32_spec
        ((generate g event).1.k_Binomial - (generate g event).1.k0_Binomial)
      rw [hc] at h3
      rw [hd] at h4
      rw [he] at h5
      refine ⟨wrapInt32_eq _ _ (a + b + c + d + e) ?_ r1, wrapInt32_eq _ _ e ?_ r5,
        wrapInt32_eq _ _ c ?_ r9, wrapInt32_eq _ _ d ?_ r1⟩ <;> omega

end Machine

/-- C1, as the code has it.  Whatever the construction parameters, the event passed in and the
outcomes of the random draws, the event written by `generate` satisfies `kc + k0 = k`,
`kc_Binomial + k0_Binomial = k_Binomial`, `kc_DCC + k0_DCC = k_DCC` and
`k_Binomial + k_DCC = k` modulo `2 ^ 32`: the left-hand side, reduced to the range of `int`, is
the right-hand side (all three branches on `dccFraction` are covered).  When
`0 ≤ dccFraction ≤ 1`, every `Binomial(n, p)` call returns an integer between `0` and `n` and the
neutral fraction drawn is in `[0, 1)`, the four identities hold as equalities of integers. -/
theorem generate_charge_decomposition_int32 :
    (∀ (g : KaonGenerator) (event : KaonEvent),
      wrapInt32 ((Machine.generate g event).1.kc + (Machine.generate g event).1.k0)
          = (Machine.generate g event).1.k ∧
        wrapInt32 ((Machine.generate g event).1.kc_Binomial
            + (Machine.generate g event).1.k0_Binomial)
          = (Machine.generate g event).1.k_Binomial ∧
        wrapInt32 ((Machine.generate g event).1.kc_DCC + (Machine.generate g event).1.k0_DCC)
          = (Machine.generate g event).1.k_DCC ∧
        wrapInt32 ((Machine.generate g event).1.k_Binomial + (Machine.generate g event).1.k_DCC)
          = (Machine.generate g event).1.k) ∧
    (∀ (g : KaonGenerator) (event : KaonEvent) (q : ℚ),
      g.dccFraction = Dbl.fin q → 0 ≤ q → q ≤ 1 →
      (∀ d ∈ Machine.draws g event, d.inRange) →
      (∀ d ∈ Machine.draws g event, d.fractionInUnit) →
      (Machine.generate g event).1.kc + (Machine.generate g event).1.k0
          = (Machine.generate g event).1.k ∧
        (Machine.generate g event).1.kc_Binomial + (Machine.generate g event).1.k0_Binomial
          = (Machine.generate g event).1.k_Binomial ∧
        (Machine.generate g event).1.kc_DCC + (Machine.generate g event).1.k0_DCC
          = (Machine.generate g event).1.k_DCC ∧
        (Machine.generate g event).1.k_Binomial + (Machine.generate g event).1.k_DCC
          = (Machine.generate g event).1.k) := by
  refine ⟨Machine.generate_decomposition_wrapped, ?_⟩
  intro g event q hq q0 q1 hb hu
  have b := Machine.generate_bounds g event q hq q0 q1 hb hu
  omega


namespace Dbl

/-- The 32-bit conversion of an integer of the `int` range carried by a double. -/
theorem toInt32_intCast (n : Int) (h0 : -2147483648 ≤ n) (h1 : n ≤ 2147483647) :
    (fin (n : ℚ)).toInt32 = n := by
  simp [toInt32, h0, h1]

/-- The 32-bit conversion of an integer beyond the `int` range carried by a double. -/
theorem toInt32_intCast_out (n : Int) (h : ¬ (-2147483648 ≤ n ∧ n ≤ 2147483647)) :
    (fin (n : ℚ)).toInt32 = -2147483648 := by
  simp only [toInt32, Rat.num_intCast, Rat.den_intCast, Nat.cast_one, Int.tdiv_one]
  rw [if_neg h]

end Dbl

/-- The counts `overflowGenerator` writes: the conversion of `3e9` to `int` gives `-2147483648`,
and the differences and sums that follow wrap around. -/
theorem overflowGenerator_values :
    round64 3000000000 = Dbl.fin 3000000000 ∧
      (Machine.generate overflowGenerator zeroEvent).1.k = 1 ∧
      (Machine.generate overflowGenerator zeroEvent).1.k_DCC = -2147483648 ∧
      (Machine.generate overflowGenerator zeroEvent).1.k_Binomial = -2147483647 ∧
      (Machine.generate overflowGenerator zeroEvent).1.k0 = -2147483647 ∧
      (Machine.generate overflowGenerator zeroEvent).1.kc = -2147483648 ∧
      (Machine.generate overflowGenerator zeroEvent).1.k0_Binomial = 0 ∧
      (Machine.generate overflowGenerator zeroEvent).1.kc_Binomial = -2147483647 ∧
      (Machine.generate overflowGenerator zeroEvent).1.k0_DCC = -2147483647 ∧
      (Machine.generate overflowGenerator zeroEvent).1.kc_DCC = -1 := by
  have r1 : round64 3000000000 = Dbl.fin 3000000000 := by
    have := round64_intCast 3000000000 (by norm_num)
    norm_num at this
    exact this
  have r2 : round64 (-2147483647) = Dbl.fin (-2147483647) := by
    have := round64_intCast (-2147483647) (by norm_num)
    norm_num at this
    exact this
  obtain ⟨hc, hk, hD, h0D, h0sD, hcD, hB, h0B, h0sB, hcB⟩ :=
    Machine.generate_mixed_values overflowGenerator zeroEvent
      (by simp [overflowGenerator, KaonGenerator.new])
      (by simp [overflowGenerator, KaonGenerator.new])
  obtain ⟨t0, -, tc⟩ := Machine.generate_totals_wrapped overflowGenerator zeroEvent
  have c : (Machine.generate overflowGenerator zeroEvent).1.centrality = Dbl.fin ((2 : Int) : ℚ) := by
    rw [hc]; simp [overflowGenerator, KaonGenerator.new, edgeRandom, Dbl.ofInt]
  rw [c, Dbl.toInt32_intCast 2 (by norm_num) (by norm_num)] at hk
  have k : (Machine.generate overflowGenerator zeroEvent).1.k = 1 := by
    rw [hk]; simp [overflowGenerator, KaonGenerator.new, edgeRandom, wrapInt32]
  have e1 : Dbl.fmul (Dbl.fin 3000000000) (Dbl.ofInt 1) = Dbl.fin ((3000000000 : Int) : ℚ) := by
    show round64 (3000000000 * ((1 : Int) : ℚ)) = _
    norm_num
    exact r1
  have kD : (Machine.generate overflowGenerator zeroEvent).1.k_DCC = -2147483648 := by
    rw [hD, k]
    show (Dbl.fmul (Dbl.fin 3000000000) (Dbl.ofInt 1)).toInt32 = _
    rw [e1, Dbl.toInt32_intCast_out _ (by norm_num)]
  have e2 : Dbl.fmul (Dbl.ofInt (-2147483648)) (Dbl.fin (2147483647/2147483648))
      = Dbl.fin ((-2147483647 : Int) : ℚ) := by
    show round64 (((-2147483648 : Int) : ℚ) * (2147483647/2147483648)) = _
    norm_num
    exact r2
  have k0D : (Machine.generate overflowGenerator zeroEvent).1.k0_DCC = -2147483647 := by
    rw [h0D, kD]
    have : overflowGenerator.random.uniformValue (overflowGenerator.random.drawn.length + 2)
        (Dbl.fin 0) (Dbl.fin 1) = Dbl.fin (2147483647/2147483648) := by
      simp [overflowGenerator, KaonGenerator.new, edgeRandom]
    rw [this, e2, Dbl.toInt32_intCast _ (by norm_num) (by norm_num)]
  have kcD : (Machine.generate overflowGenerator zeroEvent).1.kc_DCC = -1 := by
    rw [hcD, kD, k0D]; decide
  have kB : (Machine.generate overflowGenerator zeroEvent).1.k_Binomial = -2147483647 := by
    rw [hB, k, kD]; decide
  have k0B : (Machine.generate overflowGenerator zeroEvent).1.k0_Binomial = 0 := by
    rw [h0B, kB]; simp [overflowGenerator, KaonGenerator.new, edgeRandom, wrapInt32]
  have kcB : (Machine.generate overflowGenerator zeroEvent).1.kc_Binomial = -2147483647 := by
    rw [hcB, kB, k0B]; decide
  have k0 : (Machine.generate overflowGenerator zeroEvent).1.k0 = -2147483647 := by
    rw [t0, k0B, k0D]; decide
  have kc : (Machine.generate overflowGenerator zeroEvent).1.kc = -2147483648 := by
    rw [tc, kcB, kcD]; decide
  exact ⟨r1, k, kD, kB, k0, kc, k0B, kcB, k0D, kcD⟩

/-- C1 fails on the code.  The constructor accepts `dccFraction = 3e9` (a double), and for a drawn
total `k = 1` the conversion of the product `3e9` to `int` leaves the range of `int` and gives
`-2147483648`; `k_Binomial = k - k_DCC` then wraps around to `-2147483647`, and with a neutral
fraction of `1 - 2 ^ (-31)` drawn the event has `k0 = -2147483647` and `kc = -2147483648`.  So
`k_Binomial + k_DCC` and `kc + k0` are `-4294967295`, not `k = 1`. -/
theorem generate_decomposition_overflows :
    overflowGenerator.dccFraction = Dbl.fin 3000000000 ∧
      round64 3000000000 = Dbl.fin 3000000000 ∧
      (Machine.generate overflowGenerator zeroEvent).1.k = 1 ∧
      (Machine.generate overflowGenerator zeroEvent).1.k_DCC = -2147483648 ∧
      (Machine.generate overflowGenerator zeroEvent).1.k_Binomial = -2147483647 ∧
      (Machine.generate overflowGenerator zeroEvent).1.k0 = -2147483647 ∧
      (Machine.generate overflowGenerator zeroEvent).1.kc = -2147483648 ∧
      (Machine.generate overflowGenerator zeroEvent).1.k_Binomial
          + (Machine.generate overflowGenerator zeroEvent).1.k_DCC
        ≠ (Machine.generate overflowGenerator zeroEvent).1.k ∧
      (Machine.generate overflowGenerator zeroEvent).1.kc
          + (Machine.generate overflowGenerator zeroEvent).1.k0
        ≠ (Machine.generate overflowGenerator zeroEvent).1.k := by
  obtain ⟨r1, k, kD, kB, k0, kc, -⟩ := overflowGenerator_values
  refine ⟨rfl, r1, k, kD, kB, k0, kc, ?_, ?_⟩
  · rw [kB, kD, k]; decide
  · rw [kc, k0, k]; decide


/-! ### The split of the kaons, with the rounded product -/

/-- The value `double07` is a double: rounding leaves it as it is. -/
theorem round64_double07 : round64 double07 = Dbl.fin double07 := by
  have h := round64_exact 6305039478318694 (-53) (by norm_num [abs_of_pos]) (by norm_num)
    (by norm_num)
  have e : ((6305039478318694 : Int) : ℚ) * (2 : ℚ) ^ (-53 : Int) = double07 := by
    unfold double07; norm_num
  rw [e] at h
  exact h

/-- The double product `0.7 * 10` is `7`: the exact product is halfway between `7` and the
double before it, and the tie goes to `7`. -/
theorem fmul_double07_ten : Dbl.fmul (Dbl.fin double07) (Dbl.ofInt 10) = Dbl.fin 7 := by
  show round64 (double07 * ((10 : Int) : ℚ)) = Dbl.fin 7
  have := round64_eq (double07 * ((10 : Int) : ℚ)) 2 7881299347898368
    (by unfold double07; norm_num [abs_of_pos]) (by unfold double07; norm_num [abs_of_pos])
    (by norm_num) (by norm_num)
    (by
      have e : (double07 * ((10 : Int) : ℚ)) / (2 : ℚ) ^ ((2 : Int) - 52)
          = ((7881299347898367 : Int) : ℚ) + 1/2 := by unfold double07; norm_num
      rw [e, roundHalfEven_tie]; norm_num)
  rw [this]; norm_num

/-- The counts `seventyGenerator` writes and the calls of the random generator it makes. -/
theorem seventyGenerator_values :
    (Machine.generate seventyGenerator zeroEvent).1.k = 10 ∧
      (Machine.generate seventyGenerator zeroEvent).1.k_DCC = 7 ∧
      (Machine.generate seventyGenerator zeroEvent).1.k_Binomial = 3 ∧
      Machine.draws seventyGenerator zeroEvent =
        [Draw.uniform (Dbl.fin 1) (Dbl.fin 20) (Dbl.fin 20),
          Draw.binomial 20 (Dbl.fin (1/4)) 10,
          Draw.uniform (Dbl.fin 0) (Dbl.fin 1) (Dbl.fin (1/2)),
          Draw.binomial 3 (Dbl.fin (1/2)) 1,
          Draw.binomial 3 (Dbl.fin (1/2)) 1,
          Draw.binomial 1 (Dbl.fin (1/2)) 0] := by
  have n0 : seventyGenerator.dccFraction ≠ Dbl.fin 0 := by
    simp [seventyGenerator, KaonGenerator.new, double07]
  have n1 : seventyGenerator.dccFraction ≠ Dbl.fin 1 := by
    simp [seventyGenerator, KaonGenerator.new, double07]
    norm_num
  obtain ⟨hc, hk, hD, h0D, h0sD, -, hB, h0B, h0sB, -⟩ :=
    Machine.generate_mixed_values seventyGenerator zeroEvent n0 n1
  obtain ⟨φ, hφ, hd, -⟩ := Machine.generate_mixed_run seventyGenerator zeroEvent n0 n1
  have c : (Machine.generate seventyGenerator zeroEvent).1.centrality
      = Dbl.fin ((20 : Int) : ℚ) := by
    rw [hc]; simp [seventyGenerator, KaonGenerator.new, halfRandom, Dbl.ofInt]
  have c' : (Machine.generate seventyGenerator zeroEvent).1.centrality.toInt32 = 20 := by
    rw [c, Dbl.toInt32_intCast 20 (by norm_num) (by norm_num)]
  rw [c'] at hk
  have k : (Machine.generate seventyGenerator zeroEvent).1.k = 10 := by
    rw [hk]; simp [seventyGenerator, KaonGenerator.new, halfRandom, wrapInt32]
  have kD : (Machine.generate seventyGenerator zeroEvent).1.k_DCC = 7 := by
    rw [hD, k]
    show (Dbl.fmul (Dbl.fin double07) (Dbl.ofInt 10)).toInt32 = 7
    rw [fmul_double07_ten]
    exact Dbl.toInt32_intCast 7 (by norm_num) (by norm_num)
  have f : φ = Dbl.fin (1/2) := by
    rw [hφ]; simp [seventyGenerator, KaonGenerator.new, halfRandom]
  have half : Dbl.fmul (Dbl.ofInt 7) (Dbl.fin (1/2)) = Dbl.fin (7/2) := by
    show round64 (((7 : Int) : ℚ) * (1/2)) = _
    have := round64_exact 7 (-1) (by norm_num [abs_of_pos]) (by norm_num) (by norm_num)
    norm_num at this ⊢
    exact this
  have t : truncTowardZero (7/2) = 3 := by
    unfold truncTowardZero
    rw [if_pos (by norm_num), Int.floor_eq_iff]
    constructor <;> norm_num
  have k0D : (Machine.generate seventyGenerator zeroEvent).1.k0_DCC = 3 := by
    rw [h0D, kD, ← hφ, f, half, Dbl.toInt32_fin _ (by rw [t]; norm_num) (by rw [t]; norm_num), t]
  have k0sD : (Machine.generate seventyGenerator zeroEvent).1.k0s_DCC = 1 := by
    rw [h0sD, k0D]; simp [seventyGenerator, KaonGenerator.new, halfRandom, wrapInt32]
  have kB : (Machine.generate seventyGenerator zeroEvent).1.k_Binomial = 3 := by
    rw [hB, k, kD]; decide
  have k0B : (Machine.generate seventyGenerator zeroEvent).1.k0_Binomial = 1 := by
    rw [h0B, kB]; simp [seventyGenerator, KaonGenerator.new, halfRandom, wrapInt32]
  have k0sB : (Machine.generate seventyGenerator zeroEvent).1.k0s_Binomial = 0 := by
    rw [h0sB, k0B]; simp [seventyGenerator, KaonGenerator.new, halfRandom, wrapInt32]
  refine ⟨k, kD, kB, ?_⟩
  rw [hd, c', k, f, k0D, k0sD, kB, k0B, k0sB, c]
  simp [seventyGenerator, KaonGenerator.new, Dbl.ofInt]

/-- Witness of C1 as amended: `dccFraction = 0.7`, multiplicities 1 to 20, a drawn total of 10
kaons. -/
theorem generate_charge_decomposition_int32_witness :
    seventyGenerator.dccFraction = Dbl.fin double07 ∧ 0 ≤ double07 ∧ double07 ≤ 1 ∧
      (∀ d ∈ Machine.draws seventyGenerator zeroEvent, d.inRange) ∧
      (∀ d ∈ Machine.draws seventyGenerator zeroEvent, d.fractionInUnit) ∧
      (Machine.generate seventyGenerator zeroEvent).1.kc
          + (Machine.generate seventyGenerator zeroEvent).1.k0
        = (Machine.generate seventyGenerator zeroEvent).1.k :=
  ⟨rfl, by unfold double07; norm_num, by unfold double07; norm_num,
    by rw [seventyGenerator_values.2.2.2]; simp [Draw.inRange],
    by rw [seventyGenerator_values.2.2.2]; simp [Draw.fractionInUnit, Dbl.inUnitInterval]; norm_num,
    (generate_charge_decomposition_int32.2 seventyGenerator zeroEvent double07 rfl
      (by unfold double07; norm_num) (by unfold double07; norm_num)
      (by rw [seventyGenerator_values.2.2.2]; simp [Draw.inRange])
      (by rw [seventyGenerator_values.2.2.2]
          simp [Draw.fractionInUnit, Dbl.inUnitInterval]
          norm_num)).1⟩

/-- C11 fails as stated.  With `dccFraction = 0.7` (the double nearest to it, which is below
`7/10`) and a drawn total `k = 10`, the exact product is below `7` and truncates to `6`, while
the double product `dccFraction * k` is `7` (the exact product is halfway between two doubles and
rounds to `7`), so that `generate` writes `k_DCC = 7`. -/
theorem generate_dcc_split_rounds_up :
    seventyGenerator.dccFraction = Dbl.fin double07 ∧
      round64 double07 = Dbl.fin double07 ∧ 0 < double07 ∧ double07 < 1 ∧
      (Machine.generate seventyGenerator zeroEvent).1.k = 10 ∧
      Dbl.fmul (Dbl.fin double07) (Dbl.ofInt 10) = Dbl.fin 7 ∧
      (Machine.generate seventyGenerator zeroEvent).1.k_DCC = 7 ∧
      truncTowardZero (double07 * 10) = 6 ∧
      (Machine.generate seventyGenerator zeroEvent).1.k_DCC
        ≠ truncTowardZero (double07 * (Machine.generate seventyGenerator zeroEvent).1.k) := by
  have t : truncTowardZero (double07 * 10) = 6 := by
    unfold truncTowardZero double07
    rw [if_pos (by norm_num), Int.floor_eq_iff]
    constructor <;> norm_num
  obtain ⟨k, kD, -⟩ := seventyGenerator_values
  refine ⟨rfl, round64_double07, by unfold double07; norm_num, by unfold double07; norm_num,
    k, fmul_double07_ten, kD, t, ?_⟩
  rw [kD, k]
  push_cast
  rw [t]
  decide

/-- C11, as the code has it.  When `0 < dccFraction < 1` and the drawn total `k` is not negative,
`generate` sets `k_DCC` to the double product `dccFraction * k` truncated toward zero; the double
product is the exact product rounded to a double `r`, within `2 ^ (-23)` of it.  `k_DCC` is the
truncation of the exact product or one more, and one more only when the double product is that
integer; it lies between `0` and `k`, and `k_Binomial = k - k_DCC`. -/
theorem generate_dcc_split_truncates_rounded (g : KaonGenerator) (event : KaonEvent) (q : ℚ)
    (hq : g.dccFraction = Dbl.fin q) (h0 : 0 < q) (h1 : q < 1)
    (hk : 0 ≤ (Machine.generate g event).1.k) :
    ∃ r : ℚ,
      Dbl.fmul g.dccFraction (Dbl.ofInt (Machine.generate g event).1.k) = Dbl.fin r ∧
      |r - q * (Machine.generate g event).1.k| ≤ 1 / 8388608 ∧
      (Machine.generate g event).1.k_DCC = truncTowardZero r ∧
      truncTowardZero (q * (Machine.generate g event).1.k)
        ≤ (Machine.generate g event).1.k_DCC ∧
      (Machine.generate g event).1.k_DCC
        ≤ truncTowardZero (q * (Machine.generate g event).1.k) + 1 ∧
      ((Machine.generate g event).1.k_DCC
          = truncTowardZero (q * (Machine.generate g event).1.k) + 1 →
        r = ((Machine.generate g event).1.k_DCC : ℚ)) ∧
      (0 ≤ (Machine.generate g event).1.k_DCC ∧
        (Machine.generate g event).1.k_DCC ≤ (Machine.generate g event).1.k) ∧
      (Machine.generate g event).1.k_Binomial
        = (Machine.generate g event).1.k - (Machine.generate g event).1.k_DCC := by
  have n0 : g.dccFraction ≠ Dbl.fin 0 := by
    rw [hq]; intro h; injection h with h; exact h0.ne' h
  have n1 : g.dccFraction ≠ Dbl.fin 1 := by
    rw [hq]; intro h; injection h with h; exact h1.ne h
  obtain ⟨-, -, hD, -, -, -, hB, -⟩ := Machine.generate_mixed_values g event n0 n1
  have kr := (Machine.generate_k_range g event).2
  obtain ⟨K, hK⟩ : ∃ K : Int, K = (Machine.generate g event).1.k := ⟨_, rfl⟩
  rw [← hK] at hD hB hk kr ⊢
  have hKq : (0 : ℚ) ≤ (K : ℚ) := by exact_mod_cast hk
  have hKq' : (K : ℚ) ≤ 2147483647 := by exact_mod_cast kr
  have x0 : 0 ≤ q * (K : ℚ) := mul_nonneg h0.le hKq
  have xK : q * (K : ℚ) ≤ (K : ℚ) := by nlinarith
  have f0 : 0 ≤ ⌊q * (K : ℚ)⌋ := Int.floor_nonneg.mpr x0
  have fK : ⌊q * (K : ℚ)⌋ ≤ K := by
    have : ((⌊q * (K : ℚ)⌋ : Int) : ℚ) ≤ (K : ℚ) := le_trans (Int.floor_le _) xK
    exact_mod_cast this
  have ht : truncTowardZero (q * (K : ℚ)) = ⌊q * (K : ℚ)⌋ := by
    unfold truncTowardZero; rw [if_pos x0]
  obtain ⟨r, hr, ra, rb⟩ := round64_between (q * (K : ℚ)) ⌊q * (K : ℚ)⌋ (⌊q * (K : ℚ)⌋ + 1)
    (Int.floor_le _) (by push_cast; exact (Int.lt_floor_add_one _).le) (by omega) (by omega)
  obtain ⟨r', hr', r0, rK⟩ := round64_between (q * (K : ℚ)) 0 K (by push_cast; exact x0) xK
    (by norm_num) (by omega)
  have same : r' = r := by
    rw [hr] at hr'; injection hr' with h; exact h.symm
  rw [same] at r0 rK
  push_cast at r0 rb
  obtain ⟨r2, hr2, herr⟩ := round64_error (q * (K : ℚ)) 31
    (by rw [abs_of_nonneg x0]; norm_num; linarith) (by norm_num) (by norm_num)
  have same' : r2 = r := by
    rw [hr] at hr2; injection hr2 with h; exact h.symm
  rw [same'] at herr
  have hprod : Dbl.fmul g.dccFraction (Dbl.ofInt K) = Dbl.fin r := by
    rw [hq]; exact hr
  have tr : truncTowardZero r = ⌊r⌋ := by
    unfold truncTowardZero; rw [if_pos r0]
  have fr0 : ⌊q * (K : ℚ)⌋ ≤ ⌊r⌋ := Int.le_floor.mpr ra
  have fr1 : ⌊r⌋ ≤ ⌊q * (K : ℚ)⌋ + 1 := by
    have : ((⌊r⌋ : Int) : ℚ) ≤ ((⌊q * (K : ℚ)⌋ + 1 : Int) : ℚ) := by
      push_cast; exact le_trans (Int.floor_le r) rb
    exact_mod_cast this
  have frK : ⌊r⌋ ≤ K := by
    have : ((⌊r⌋ : Int) : ℚ) ≤ (K : ℚ) := le_trans (Int.floor_le r) rK
    exact_mod_cast this
  have kD : (Machine.generate g event).1.k_DCC = ⌊r⌋ := by
    rw [hD, hprod, Dbl.toInt32_fin r (by rw [tr]; omega) (by rw [tr]; omega), tr]
  refine ⟨r, hprod, ?_, by rw [kD, tr], by rw [kD, ht]; exact fr0, by rw [kD, ht]; exact fr1,
    ?_, ⟨by rw [kD]; omega, by rw [kD]; exact frK⟩, ?_⟩
  · have e : (2 : ℚ) ^ ((31 : Int) - 54) = 1 / 8388608 := by norm_num
    rw [e] at herr
    exact herr
  · intro h
    rw [kD, ht] at h
    rw [kD]
    have h2 : ((⌊r⌋ : Int) : ℚ) ≤ r := Int.floor_le r
    rw [h] at h2 ⊢
    push_cast at h2 ⊢
    exact le_antisymm rb h2
  · rw [hB, kD]
    exact wrapInt32_of_range _ (by omega) (by omega)

/-- Witness of C11 as amended: `dccFraction = 0.7` and a drawn total of 10 kaons. -/
theorem generate_dcc_split_truncates_rounded_witness :
    seventyGenerator.dccFraction = Dbl.fin double07 ∧ 0 < double07 ∧ double07 < 1 ∧
      0 ≤ (Machine.generate seventyGenerator zeroEvent).1.k ∧
      (Machine.generate seventyGenerator zeroEvent).1.k_Binomial
        = (Machine.generate seventyGenerator zeroEvent).1.k
          - (Machine.generate seventyGenerator zeroEvent).1.k_DCC :=
  ⟨rfl, by unfold double07; norm_num, by unfold double07; norm_num,
    by rw [seventyGenerator_values.1]; decide,
    (generate_dcc_split_truncates_rounded seventyGenerator zeroEvent double07 rfl
      (by unfold double07; norm_num) (by unfold double07; norm_num)
      (by rw [seventyGenerator_values.1]; decide)).elim fun _ h => h.2.2.2.2.2.2.2⟩

/-! ## The accumulator on the machine -/

namespace KaonMoments

/-- Two accumulators have the same counter and running sums when the counters agree and the
running sums agree name by name. -/
theorem sameSums_iff (a b : KaonMoments) :
    a.SameSums b ↔ a.nEvents = b.nEvents ∧ ∀ i, a.sumOf i = b.sumOf i := by
  constructor
  · intro h
    refine ⟨h.1, fun i => ?_⟩
    unfold SameSums at h
    cases i <;> simp only [sumOf] <;> tauto
  · intro h
    obtain ⟨h0, h⟩ := h
    exact ⟨h0, h SumIndex.k, h SumIndex.kSq, h SumIndex.k0, h SumIndex.k0Sq, h SumIndex.k0s,
      h SumIndex.k0sSq, h SumIndex.kc, h SumIndex.kcSq, h SumIndex.kck0, h SumIndex.kck0s,
      h SumIndex.k_Binomial, h SumIndex.kSq_Binomial, h SumIndex.k0_Binomial,
      h SumIndex.k0Sq_Binomial, h SumIndex.k0s_Binomial, h SumIndex.k0sSq_Binomial,
      h SumIndex.kc_Binomial, h SumIndex.kcSq_Binomial, h SumIndex.k_DCC, h SumIndex.kSq_DCC,
      h SumIndex.k0_DCC, h SumIndex.k0Sq_DCC, h SumIndex.k0s_DCC, h SumIndex.k0sSq_DCC,
      h SumIndex.kc_DCC, h SumIndex.kcSq_DCC⟩

/-- After `initialize` every running sum is zero. -/
theorem init_sumOf (m : KaonMoments) (i : SumIndex) :
    m.initializeCounters.sumOf i = Dbl.fin ((0 : Int) : ℚ) := by
  cases i <;> simp [sumOf, initializeCounters]

end KaonMoments

/-- An integer reduced to the 32-bit range is at most `2 ^ 31` in absolute value. -/
theorem wrapInt32_abs (x : Int) : |wrapInt32 x| ≤ 2147483648 := by
  have h := wrapInt32_range x
  rw [abs_le]
  constructor <;> omega

/-- What `fill` adds to a running sum is an `int`, at most `2 ^ 31` in absolute value. -/
theorem KaonEvent.addend_range (e : KaonEvent) (h : e.CountsInt32) (i : SumIndex) :
    |e.addend i| ≤ 2147483648 := by
  obtain ⟨r1, r2, r3, r4, r5, r6, r7, r8, r9, r10, r11, r12⟩ := h
  cases i <;> simp only [KaonEvent.addend] <;>
    first
      | (rw [abs_le]; constructor <;> omega)
      | exact wrapInt32_abs _

/-- A sum of integers each at most `B` in absolute value is at most the number of terms times
`B`. -/
theorem abs_sum_map_le (f : KaonEvent → Int) (B : Int) (l : List KaonEvent)
    (h : ∀ e ∈ l, |f e| ≤ B) : |(l.map f).sum| ≤ (l.length : Int) * B := by
  induction l with
  | nil => simp
  | cons e l ih =>
    have h1 := h e (List.mem_cons_self _ _)
    have h2 := ih (fun x hx => h x (List.mem_cons_of_mem _ hx))
    simp only [List.map_cons, List.sum_cons, List.length_cons]
    have := abs_add (f e) (l.map f).sum
    push_cast
    linarith

namespace Dbl

/-- The rounded sum of two integers carried by doubles. -/
theorem fadd_fin_int (s v : Int) (h : |s + v| ≤ 9007199254740992) :
    fadd (fin (s : ℚ)) (fin (v : ℚ)) = fin ((s + v : Int) : ℚ) :=
  fadd_int s v h

end Dbl

namespace Machine

theorem fill_sumOf (m : KaonMoments) (e : KaonEvent) (i : SumIndex) :
    (fill m e).sumOf i = Dbl.fadd (m.sumOf i) (Dbl.ofInt (e.addend i)) := by
  cases i <;> rfl

theorem merge_sumOf (a b : KaonMoments) (i : SumIndex) :
    (merge a b).sumOf i = Dbl.fadd (a.sumOf i) (b.sumOf i) := by
  cases i <;> rfl

/-- Along a list of events a running sum stays the exact sum of the integers added, as long as
these are at most `B` in absolute value and the bound `|s| + length * B` on every partial sum is
at most `2 ^ 53`. -/
theorem foldl_fill_sumOf (i : SumIndex) (B : Int) (es : List KaonEvent) :
    ∀ (m : KaonMoments) (s : Int), m.sumOf i = Dbl.fin (s : ℚ) →
      (∀ e ∈ es, |e.addend i| ≤ B) → |s| + (es.length : Int) * B ≤ 9007199254740992 →
      (es.foldl fill m).sumOf i
        = Dbl.fin ((s + (es.map (fun e => e.addend i)).sum : Int) : ℚ) := by
  induction es with
  | nil => intro m s hm _ _; simpa using hm
  | cons e es ih =>
    intro m s hm hB hlen
    have h1 := hB e (List.mem_cons_self _ _)
    have hB0 : 0 ≤ B := le_trans (abs_nonneg _) h1
    have hl0 : (0 : Int) ≤ (es.length : Int) * B := mul_nonneg (Int.ofNat_nonneg _) hB0
    simp only [List.length_cons] at hlen
    push_cast at hlen
    have hsv : |s + e.addend i| ≤ |s| + B := le_trans (abs_add _ _) (by linarith)
    have step : (fill m e).sumOf i = Dbl.fin ((s + e.addend i : Int) : ℚ) := by
      rw [fill_sumOf, hm]
      exact Dbl.fadd_int _ _ (by linarith)
    have := ih (fill m e) (s + e.addend i) step
      (fun x hx => hB x (List.mem_cons_of_mem _ hx)) (by linarith)
    rw [List.foldl_cons, this]
    simp only [List.map_cons, List.sum_cons]
    rw [add_assoc]

/-- Every `fill` adds one to the counter, as long as it stays in the `int` range. -/
theorem foldl_fill_nEvents (es : List KaonEvent) :
    ∀ m : KaonMoments, 0 ≤ m.nEvents → m.nEvents + (es.length : Int) ≤ 2147483647 →
      (es.foldl fill m).nEvents = m.nEvents + (es.length : Int) := by
  induction es with
  | nil => intro m _ _; simp
  | cons e es ih =>
    intro m h0 h1
    simp only [List.length_cons] at h1
    push_cast at h1
    have step : (fill m e).nEvents = m.nEvents + 1 :=
      wrapInt32_of_range _ (by omega) (by omega)
    rw [List.foldl_cons, ih (fill m e) (by omega) (by omega), step]
    simp only [List.length_cons]
    push_cast
    omega

/-- When `calculateMoments` runs to its end, its result depends on the counter and the running
sums only. -/
theorem calculateMoments_depends_on_sums {a b : KaonMoments} (h : a.SameSums b) :
    (calculateMoments a).1 = (calculateMoments b).1 ∧
      (2 ≤ a.nEvents → (calculateMoments a).2 = (calculateMoments b).2) := by
  cases a
  cases b
  simp only [KaonMoments.SameSums] at h
  obtain ⟨h0, h1, h2, h3, h4, h5, h6, h7, h8, h9, h10, h11, h12, h13, h14, h15, h16, h17, h18,
    h19, h20, h21, h22, h23, h24, h25, h26⟩ := h
  subst h0 h1 h2 h3 h4 h5 h6 h7 h8 h9 h10 h11 h12 h13 h14 h15 h16 h17 h18 h19 h20 h21 h22 h23
    h24 h25 h26
  constructor
  · simp only [calculateMoments]
    split_ifs <;> rfl
  · intro hn
    have hn2 : ¬ (_ : Int) < 2 := not_lt.mpr hn
    simp only [calculateMoments] at hn2 ⊢
    simp [hn2]

/-- From an initialized accumulator, `fill` accumulates a list of events exactly, as long as the
integers added are at most `B` in absolute value, the number of events times `B` is at most
`2 ^ 53`, and the number of events is in the `int` range. -/
theorem accumulates_foldl_fill (es : List KaonEvent) (m : KaonMoments) (B : Int)
    (hB : ∀ e ∈ es, ∀ i, |e.addend i| ≤ B)
    (hlen : (es.length : Int) * B ≤ 9007199254740992) (hn : es.length ≤ 2147483647) :
    (es.foldl fill m.initializeCounters).Accumulates es := by
  have hl : (es.length : Int) ≤ 2147483647 := by exact_mod_cast hn
  constructor
  · have := foldl_fill_nEvents es m.initializeCounters (by simp [KaonMoments.initializeCounters])
      (by simp [KaonMoments.initializeCounters]; omega)
    rw [this]
    simp [KaonMoments.initializeCounters]
  · intro i
    have := foldl_fill_sumOf i B es m.initializeCounters 0
      (KaonMoments.init_sumOf m i) (fun e he => hB e he i)
      (by rw [abs_zero, zero_add]; exact hlen)
    rw [this, zero_add]

/-- The same for at most `2 ^ 22` events with `int` counts, whatever these are. -/
theorem accumulates_foldl_fill_int32 (es : List KaonEvent) (m : KaonMoments)
    (h : ∀ e ∈ es, e.CountsInt32) (hlen : es.length ≤ 4194304) :
    (es.foldl fill m.initializeCounters).Accumulates es := by
  have hl : (es.length : Int) ≤ 4194304 := by exact_mod_cast hlen
  exact accumulates_foldl_fill es m 2147483648
    (fun e he i => KaonEvent.addend_range e (h e he) i) (by omega) (by omega)

/-- The merge of two accumulators that hold `ls` and `rs` exactly holds `ls ++ rs` exactly, under
the same bounds on `ls ++ rs`. -/
theorem accumulates_merge (p q : KaonMoments) (ls rs : List KaonEvent) (B : Int)
    (hp : p.Accumulates ls) (hq : q.Accumulates rs)
    (hB : ∀ e ∈ ls ++ rs, ∀ i, |e.addend i| ≤ B)
    (hlen : ((ls ++ rs).length : Int) * B ≤ 9007199254740992)
    (hn : (ls ++ rs).length ≤ 2147483647) :
    (merge p q).Accumulates (ls ++ rs) := by
  have hn' : ((ls ++ rs).length : Int) ≤ 2147483647 := by exact_mod_cast hn
  constructor
  · show wrapInt32 (p.nEvents + q.nEvents) = _
    rw [hp.1, hq.1]
    rw [List.length_append] at hn' ⊢
    push_cast at hn' ⊢
    exact wrapInt32_of_range _ (by omega) (by omega)
  · intro i
    have hb := abs_sum_map_le (fun e => e.addend i) B (ls ++ rs) (fun e he => hB e he i)
    rw [List.map_append, List.sum_append] at hb ⊢
    rw [merge_sumOf, hp.2 i, hq.2 i]
    exact Dbl.fadd_fin_int _ _ (by omega)

/-- With two events or more, the average of the squares of `k` that `calculateMoments` stores is
the rounded quotient of the running sum by the counter. -/
theorem calculateMoments_kSq_avg (m : KaonMoments) (h : 2 ≤ m.nEvents) :
    (calculateMoments m).2.kSq_avg = Dbl.fdiv m.sum_kSq (Dbl.ofInt m.nEvents) := by
  have h' : ¬ m.nEvents < 2 := not_lt.mpr h
  simp [calculateMoments, h']

/-- The machine `calculateMoments` preserves the invariant of the running sums and the counter. -/
theorem invariant_after_calculateMoments (a : KaonMoments) (ha : Invariant a) :
    Invariant (calculateMoments a).2 ∧ (calculateMoments a).2.nEvents = a.nEvents := by
  unfold calculateMoments
  split_ifs
  · exact ⟨ha, rfl⟩
  · exact ⟨ha, rfl⟩

/-- The accumulator after `n` times the same event, from `initialize`: the counter is `n`. -/
theorem replicate_nEvents (e : KaonEvent) (n : Nat) (h : (n : Int) ≤ 2147483647) :
    ((List.replicate n e).foldl fill zeroMoments.initializeCounters).nEvents = (n : Int) := by
  have hn := foldl_fill_nEvents (List.replicate n e) zeroMoments.initializeCounters
    (by simp [KaonMoments.initializeCounters])
    (by simp [KaonMoments.initializeCounters]; omega)
  rw [hn]
  simp [KaonMoments.initializeCounters]

/-- The accumulator after `n` times the same event, from `initialize`: a running sum is `n` times
what `fill` adds for the event, as long as this is at most `2 ^ 53` in absolute value. -/
theorem replicate_sumOf (e : KaonEvent) (i : SumIndex) (n : Nat)
    (h : (n : Int) * |e.addend i| ≤ 9007199254740992) :
    ((List.replicate n e).foldl fill zeroMoments.initializeCounters).sumOf i
      = Dbl.fin (((n : Int) * e.addend i : Int) : ℚ) := by
  have hs := foldl_fill_sumOf i |e.addend i| (List.replicate n e)
    zeroMoments.initializeCounters 0 (KaonMoments.init_sumOf _ _)
    (fun x hx => by rw [List.eq_of_mem_replicate hx])
    (by rw [abs_zero, zero_add, List.length_replicate]; exact h)
  rw [hs]
  simp

end Machine

namespace KaonMoments

/-- Two accumulators that hold the same events exactly have the same counter and running
sums. -/
theorem Accumulates.sameSums {p q : KaonMoments} {es : List KaonEvent}
    (hp : p.Accumulates es) (hq : q.Accumulates es) : p.SameSums q := by
  rw [sameSums_iff]
  exact ⟨hp.1.trans hq.1.symm, fun i => (hp.2 i).trans (hq.2 i).symm⟩

end KaonMoments

/-- The sums of two maps over a list add up term by term. -/
theorem sum_map_add (f g h : KaonEvent → Int) (l : List KaonEvent)
    (hfg : ∀ e ∈ l, f e + g e = h e) : (l.map f).sum + (l.map g).sum = (l.map h).sum := by
  induction l with
  | nil => simp
  | cons e l ih =>
    have h1 := hfg e (List.mem_cons_self _ _)
    have h2 := ih (fun x hx => hfg x (List.mem_cons_of_mem _ hx))
    simp only [List.map_cons, List.sum_cons]
    omega

/-- An event with `int` counts has its counts within `2 ^ 31`. -/
theorem KaonEvent.countsWithin_of_int32 (e : KaonEvent) (h : e.CountsInt32) :
    e.CountsWithin 2147483648 := by
  obtain ⟨r1, r2, r3, r4, r5, r6, r7, r8, r9, r10, r11, r12⟩ := h
  simp only [KaonEvent.CountsWithin, abs_le]
  omega

/-- The rounded sum `2 ^ 53 + 1` is `2 ^ 53`: the exact sum is halfway between two doubles and
the tie goes to the even one. -/
theorem fadd_two_pow_53_one :
    Dbl.fadd (Dbl.fin 9007199254740992) (Dbl.ofInt 1) = Dbl.fin 9007199254740992 := by
  show round64 (9007199254740992 + ((1 : Int) : ℚ)) = _
  have := round64_eq (9007199254740992 + ((1 : Int) : ℚ)) 53 4503599627370496
    (by norm_num [abs_of_pos]) (by norm_num [abs_of_pos]) (by norm_num) (by norm_num)
    (by
      have e : (9007199254740992 + ((1 : Int) : ℚ)) / (2 : ℚ) ^ ((53 : Int) - 52)
          = ((4503599627370496 : Int) : ℚ) + 1/2 := by norm_num
      rw [e, roundHalfEven_tie]; norm_num)
  rw [this]; norm_num

/-- The rounded sum `2 ^ 53 + 3` is `2 ^ 53 + 4`. -/
theorem fadd_two_pow_53_three :
    Dbl.fadd (Dbl.fin 9007199254740992) (Dbl.fin 3) = Dbl.fin 9007199254740996 := by
  show round64 (9007199254740992 + 3) = _
  have := round64_eq (9007199254740992 + 3) 53 4503599627370498
    (by norm_num [abs_of_pos]) (by norm_num [abs_of_pos]) (by norm_num) (by norm_num)
    (by
      have e : (9007199254740992 + 3 : ℚ) / (2 : ℚ) ^ ((53 : Int) - 52)
          = ((4503599627370497 : Int) : ℚ) + 1/2 := by norm_num
      rw [e, roundHalfEven_tie]; norm_num)
  rw [this]; norm_num

/-- The accumulator after three times `unitEvent`, from `initialize`: the sums of `k`, of its
squares and of `k0` are `3`, the sum of `kc` is zero. -/
theorem three_unitEvent_sums :
    ([unitEvent, unitEvent, unitEvent].foldl Machine.fill
        zeroMoments.initializeCounters).nEvents = 3 ∧
      ([unitEvent, unitEvent, unitEvent].foldl Machine.fill
        zeroMoments.initializeCounters).sum_k = Dbl.fin 3 ∧
      ([unitEvent, unitEvent, unitEvent].foldl Machine.fill
        zeroMoments.initializeCounters).sum_kSq = Dbl.fin 3 ∧
      ([unitEvent, unitEvent, unitEvent].foldl Machine.fill
        zeroMoments.initializeCounters).sum_kc = Dbl.fin 0 ∧
      ([unitEvent, unitEvent, unitEvent].foldl Machine.fill
        zeroMoments.initializeCounters).sum_k0 = Dbl.fin 3 := by
  have h := Machine.accumulates_foldl_fill_int32 [unitEvent, unitEvent, unitEvent] zeroMoments
    (fun e he => by
      have : e = unitEvent := by simpa using he
      rw [this]; simp [KaonEvent.CountsInt32, unitEvent, zeroEvent])
    (by simp)
  have w : wrapInt32 1 = 1 := by decide
  refine ⟨?_, ?_, ?_, ?_, ?_⟩
  · rw [h.1]; simp
  · show KaonMoments.sumOf _ SumIndex.k = _
    rw [h.2]; simp [KaonEvent.addend, unitEvent]
  · show KaonMoments.sumOf _ SumIndex.kSq = _
    rw [h.2]; simp [KaonEvent.addend, unitEvent, w]
  · show KaonMoments.sumOf _ SumIndex.kc = _
    rw [h.2]; simp [KaonEvent.addend, unitEvent, zeroEvent]
  · show KaonMoments.sumOf _ SumIndex.k0 = _
    rw [h.2]; simp [KaonEvent.addend, unitEvent]

/-- Three times `unitEvent` filled into an accumulator whose sum is `2 ^ 53`, for a running sum
to which `fill` adds `1` for `unitEvent`: the sum stays at `2 ^ 53`. -/
theorem fill_three_unitEvent_stays (r : KaonMoments) (i : SumIndex)
    (hi : unitEvent.addend i = 1) (hr : r.sumOf i = Dbl.fin 9007199254740992) :
    ([unitEvent, unitEvent, unitEvent].foldl Machine.fill r).sumOf i
      = Dbl.fin 9007199254740992 := by
  simp only [List.foldl_cons, List.foldl_nil]
  rw [Machine.fill_sumOf, Machine.fill_sumOf, Machine.fill_sumOf, hi, hr, fadd_two_pow_53_one,
    fadd_two_pow_53_one, fadd_two_pow_53_one]

/-- Three times `unitEvent` filled into an accumulator: the counter goes up by three. -/
theorem fill_three_unitEvent_nEvents (r : KaonMoments) (n : Int) (hn0 : 0 ≤ n)
    (hn1 : n ≤ 2147483644) (hn : r.nEvents = n) :
    ([unitEvent, unitEvent, unitEvent].foldl Machine.fill r).nEvents = n + 3 := by
  simp only [List.foldl_cons, List.foldl_nil]
  show wrapInt32 (wrapInt32 (wrapInt32 (r.nEvents + 1) + 1) + 1) = _
  rw [hn]
  unfold wrapInt32
  omega

/-! ### The merge law -/

/-- Every event of `mergeList` has counts between `0` and `46340`, so that `fill` forms its
squares and cross products without leaving the range of `int`. -/
theorem mergeList_events : ∀ e ∈ mergeList, e.CountsWithin 46340 ∧ e.CountsInt32 := by
  intro e he
  have : e = squareEvent ∨ e = unitEvent := by
    unfold mergeList squareList at he
    rcases List.mem_append.mp he with h | h
    · exact Or.inl (List.eq_of_mem_replicate h)
    · right
      simpa using h
  rcases this with rfl | rfl
  · simp [KaonEvent.CountsWithin, KaonEvent.CountsInt32, squareEvent, zeroEvent]
  · simp [KaonEvent.CountsWithin, KaonEvent.CountsInt32, unitEvent, zeroEvent]

/-- The accumulator after the events of `squareList`: the sum of the squares of `k` is `2 ^ 53`
exactly. -/
theorem squareList_sums :
    (squareList.foldl Machine.fill zeroMoments.initializeCounters).nEvents = 8388608 ∧
      (squareList.foldl Machine.fill zeroMoments.initializeCounters).sum_kSq
        = Dbl.fin 9007199254740992 := by
  have a : squareEvent.addend SumIndex.kSq = 1073741824 := by
    simp [KaonEvent.addend, squareEvent, wrapInt32]
  have hn := Machine.replicate_nEvents squareEvent 8388608 (by norm_num)
  have hs := Machine.replicate_sumOf squareEvent SumIndex.kSq 8388608 (by rw [a]; norm_num)
  rw [a] at hs
  unfold squareList
  obtain ⟨R, hR⟩ : ∃ R, R = (List.replicate 8388608 squareEvent).foldl Machine.fill
    zeroMoments.initializeCounters := ⟨_, rfl⟩
  rw [← hR] at hn hs ⊢
  refine ⟨by rw [hn]; norm_num, ?_⟩
  show R.sumOf SumIndex.kSq = _
  rw [hs]
  norm_num

/-- The accumulator after the events of `mergeList`, filled in one pass: the sum of the squares
of `k` has stayed at `2 ^ 53` over the last three events. -/
theorem mergeList_sums :
    (mergeList.foldl Machine.fill zeroMoments.initializeCounters).nEvents = 8388611 ∧
      (mergeList.foldl Machine.fill zeroMoments.initializeCounters).sum_kSq
        = Dbl.fin 9007199254740992 := by
  obtain ⟨hn, hs⟩ := squareList_sums
  have a : unitEvent.addend SumIndex.kSq = 1 := by
    simp [KaonEvent.addend, unitEvent, wrapInt32]
  unfold mergeList
  rw [List.foldl_append]
  obtain ⟨R, hR⟩ : ∃ R, R = squareList.foldl Machine.fill zeroMoments.initializeCounters :=
    ⟨_, rfl⟩
  rw [← hR] at hn hs ⊢
  refine ⟨by
    rw [fill_three_unitEvent_nEvents R 8388608 (by norm_num) (by norm_num) hn]
    norm_num, ?_⟩
  show KaonMoments.sumOf _ SumIndex.kSq = _
  exact fill_three_unitEvent_stays R SumIndex.kSq a hs

/-- The merge of the accumulators of `squareList` and of three times `unitEvent`. -/
theorem merged_mergeList_sums :
    (Machine.merge (squareList.foldl Machine.fill zeroMoments.initializeCounters)
        ([unitEvent, unitEvent, unitEvent].foldl Machine.fill
          zeroMoments.initializeCounters)).nEvents = 8388611 ∧
      (Machine.merge (squareList.foldl Machine.fill zeroMoments.initializeCounters)
        ([unitEvent, unitEvent, unitEvent].foldl Machine.fill
          zeroMoments.initializeCounters)).sum_kSq = Dbl.fin 9007199254740996 := by
  obtain ⟨hn, hs⟩ := squareList_sums
  obtain ⟨gn, -, gs, -, -⟩ := three_unitEvent_sums
  obtain ⟨X, hX⟩ : ∃ X, X = squareList.foldl Machine.fill zeroMoments.initializeCounters :=
    ⟨_, rfl⟩
  obtain ⟨Y, hY⟩ : ∃ Y, Y = [unitEvent, unitEvent, unitEvent].foldl Machine.fill
    zeroMoments.initializeCounters := ⟨_, rfl⟩
  rw [← hX] at hn hs ⊢
  rw [← hY] at gn gs ⊢
  constructor
  · show wrapInt32 (X.nEvents + Y.nEvents) = _
    rw [hn, gn]; decide
  · show Dbl.fadd X.sum_kSq Y.sum_kSq = _
    rw [hs, gs, fadd_two_pow_53_three]

/-- The rounded average `2 ^ 53 / 8388611`. -/
theorem fdiv_mergeList_onePass :
    Dbl.fdiv (Dbl.fin 9007199254740992) (Dbl.ofInt 8388611)
      = Dbl.fin (70368719011849 / 65536) := by
  show round64 (9007199254740992 / ((8388611 : Int) : ℚ)) = _
  have := round64_eq (9007199254740992 / ((8388611 : Int) : ℚ)) 29 9007196033516672
    (by norm_num [abs_of_pos]) (by norm_num [abs_of_pos]) (by norm_num) (by norm_num)
    (roundHalfEven_eq_of_near _ _ (by norm_num) (by norm_num))
  rw [this]; norm_num

/-- The rounded average `(2 ^ 53 + 4) / 8388611`. -/
theorem fdiv_mergeList_merged :
    Dbl.fdiv (Dbl.fin 9007199254740996) (Dbl.ofInt 8388611)
      = Dbl.fin (2251799008379169 / 2097152) := by
  show round64 (9007199254740996 / ((8388611 : Int) : ℚ)) = _
  have := round64_eq (9007199254740996 / ((8388611 : Int) : ℚ)) 29 9007196033516676
    (by norm_num [abs_of_pos]) (by norm_num [abs_of_pos]) (by norm_num) (by norm_num)
    (roundHalfEven_eq_of_near _ _ (by norm_num) (by norm_num))
  rw [this]; norm_num

/-- C4 fails on the code.  `mergeList` is `2 ^ 23` events of `32768` kaons followed by three
events of one kaon; no `int` operation of `fill` leaves the range of `int` on them.  Filled in
one pass, the sum of the squares of `k` reaches `2 ^ 53` and stays there (`2 ^ 53 + 1` rounds to
`2 ^ 53`, three times); filled in two batches and merged, it is `2 ^ 53 + 3` rounded, which is
`2 ^ 53 + 4`.  The running sums differ, and so does the average of the squares that
`calculateMoments` stores. -/
theorem fill_merge_law_fails_beyond_exact :
    mergeList = squareList ++ [unitEvent, unitEvent, unitEvent] ∧
      (∀ e ∈ mergeList, e.CountsWithin 46340 ∧ e.CountsInt32) ∧
      (mergeList.foldl Machine.fill zeroMoments.initializeCounters).sum_kSq
        = Dbl.fin 9007199254740992 ∧
      (Machine.merge (squareList.foldl Machine.fill zeroMoments.initializeCounters)
        ([unitEvent, unitEvent, unitEvent].foldl Machine.fill
          zeroMoments.initializeCounters)).sum_kSq = Dbl.fin 9007199254740996 ∧
      ¬ (mergeList.foldl Machine.fill zeroMoments.initializeCounters).SameSums
        (Machine.merge (squareList.foldl Machine.fill zeroMoments.initializeCounters)
          ([unitEvent, unitEvent, unitEvent].foldl Machine.fill
            zeroMoments.initializeCounters)) ∧
      (Machine.calculateMoments
        (mergeList.foldl Machine.fill zeroMoments.initializeCounters)).2.kSq_avg
        = Dbl.fin (70368719011849 / 65536) ∧
      (Machine.calculateMoments
        (Machine.merge (squareList.foldl Machine.fill zeroMoments.initializeCounters)
          ([unitEvent, unitEvent, unitEvent].foldl Machine.fill
            zeroMoments.initializeCounters))).2.kSq_avg
        = Dbl.fin (2251799008379169 / 2097152) ∧
      (Machine.calculateMoments
        (mergeList.foldl Machine.fill zeroMoments.initializeCounters)).2
        ≠ (Machine.calculateMoments
          (Machine.merge (squareList.foldl Machine.fill zeroMoments.initializeCounters)
            ([unitEvent, unitEvent, unitEvent].foldl Machine.fill
              zeroMoments.initializeCounters))).2 := by
  obtain ⟨hn, hk⟩ := mergeList_sums
  obtain ⟨gn, gk⟩ := merged_mergeList_sums
  have a1 : (Machine.calculateMoments
      (mergeList.foldl Machine.fill zeroMoments.initializeCounters)).2.kSq_avg
      = Dbl.fin (70368719011849 / 65536) := by
    rw [Machine.calculateMoments_kSq_avg _ (by rw [hn]; norm_num), hk, hn]
    exact fdiv_mergeList_onePass
  have a2 : (Machine.calculateMoments
      (Machine.merge (squareList.foldl Machine.fill zeroMoments.initializeCounters)
        ([unitEvent, unitEvent, unitEvent].foldl Machine.fill
          zeroMoments.initializeCounters))).2.kSq_avg
      = Dbl.fin (2251799008379169 / 2097152) := by
    rw [Machine.calculateMoments_kSq_avg _ (by rw [gn]; norm_num), gk, gn]
    exact fdiv_mergeList_merged
  refine ⟨rfl, mergeList_events, hk, gk, ?_, a1, a2, ?_⟩
  · intro h
    have := h.2.2.1
    rw [hk, gk] at this
    injection this with this
    norm_num at this
  · intro h
    have := congrArg KaonMoments.kSq_avg h
    rw [a1, a2] at this
    injection this with this
    norm_num at this

/-- C4, as the code has it.  Merge law, for lists of events such that every integer `fill` adds
to a running sum (a count, or a square or cross product as the `int` arithmetic forms it) is at
most `B` in absolute value, the number of events in all times `B` is at most `2 ^ 53`, and the
number of events is in the range of `int`: every running sum is then an integer that a double
carries exactly.  Folding `fill` over `xs ++ ys` from an initialized accumulator gives the same
counter and the same running sums as folding `fill` over `xs` and over `ys` from initialized
accumulators and adding the two states component-wise; `calculateMoments` then ends the same way
on both and, when it calculates, leaves the same object, every derived member included.  The
merge is commutative on the counter and the sums for any two states, and associative on the
accumulators of three such lists.  For events with `int` counts `B = 2 ^ 31` serves, so that
the law holds for any lists of at most `2 ^ 22` events in all. -/
theorem fill_merge_law_bounded (a b c d : KaonMoments) (xs ys zs : List KaonEvent) (B : Int)
    (h0 : 0 ≤ B) (hB : ∀ e ∈ xs ++ ys ++ zs, ∀ i, |e.addend i| ≤ B)
    (hlen : ((xs ++ ys ++ zs).length : Int) * B ≤ 9007199254740992)
    (hn : (xs ++ ys ++ zs).length ≤ 2147483647) :
    ((xs ++ ys).foldl Machine.fill a.initializeCounters).SameSums
        (Machine.merge (xs.foldl Machine.fill b.initializeCounters)
          (ys.foldl Machine.fill c.initializeCounters)) ∧
      (Machine.calculateMoments ((xs ++ ys).foldl Machine.fill a.initializeCounters)).1 =
        (Machine.calculateMoments
          (Machine.merge (xs.foldl Machine.fill b.initializeCounters)
            (ys.foldl Machine.fill c.initializeCounters))).1 ∧
      (2 ≤ ((xs ++ ys).foldl Machine.fill a.initializeCounters).nEvents →
        (Machine.calculateMoments ((xs ++ ys).foldl Machine.fill a.initializeCounters)).2 =
          (Machine.calculateMoments
            (Machine.merge (xs.foldl Machine.fill b.initializeCounters)
              (ys.foldl Machine.fill c.initializeCounters))).2) ∧
      (∀ x y : KaonMoments, (Machine.merge x y).SameSums (Machine.merge y x)) ∧
      (Machine.merge
          (Machine.merge (xs.foldl Machine.fill b.initializeCounters)
            (ys.foldl Machine.fill c.initializeCounters))
          (zs.foldl Machine.fill d.initializeCounters)).SameSums
        (Machine.merge (xs.foldl Machine.fill b.initializeCounters)
          (Machine.merge (ys.foldl Machine.fill c.initializeCounters)
            (zs.foldl Machine.fill d.initializeCounters))) ∧
      (∀ e : KaonEvent, e.CountsInt32 → ∀ i, |e.addend i| ≤ 2147483648) := by
  have hx : ∀ e ∈ xs, ∀ i, |e.addend i| ≤ B := fun e he =>
    hB e (List.mem_append_left _ (List.mem_append_left _ he))
  have hy : ∀ e ∈ ys, ∀ i, |e.addend i| ≤ B := fun e he =>
    hB e (List.mem_append_left _ (List.mem_append_right _ he))
  have hz : ∀ e ∈ zs, ∀ i, |e.addend i| ≤ B := fun e he =>
    hB e (List.mem_append_right _ he)
  have hxy : ∀ e ∈ xs ++ ys, ∀ i, |e.addend i| ≤ B := fun e he =>
    hB e (List.mem_append_left _ he)
  have hyz : ∀ e ∈ ys ++ zs, ∀ i, |e.addend i| ≤ B := by
    intro e he
    rcases List.mem_append.mp he with h | h
    · exact hy e h
    · exact hz e h
  have hxyz : ∀ e ∈ xs ++ (ys ++ zs), ∀ i, |e.addend i| ≤ B := by
    intro e he
    rw [← List.append_assoc] at he
    exact hB e he
  simp only [List.length_append] at hlen hn
  push_cast at hlen
  have sub : ∀ l : Nat, l ≤ xs.length + ys.length + zs.length →
      (l : Int) * B ≤ 9007199254740992 := by
    intro l hl
    have h1 : (l : Int) ≤ (xs.length : Int) + (ys.length : Int) + (zs.length : Int) := by
      exact_mod_cast hl
    exact le_trans (mul_le_mul_of_nonneg_right h1 h0) hlen
  have aX := Machine.accumulates_foldl_fill xs b B hx (sub _ (by omega)) (by omega)
  have aY := Machine.accumulates_foldl_fill ys c B hy (sub _ (by omega)) (by omega)
  have aZ := Machine.accumulates_foldl_fill zs d B hz (sub _ (by omega)) (by omega)
  have aXY := Machine.accumulates_foldl_fill (xs ++ ys) a B hxy
    (sub _ (by rw [List.length_append]; omega)) (by rw [List.length_append]; omega)
  have mXY := Machine.accumulates_merge _ _ xs ys B aX aY hxy
    (sub _ (by rw [List.length_append]; omega)) (by rw [List.length_append]; omega)
  have mYZ := Machine.accumulates_merge _ _ ys zs B aY aZ hyz
    (sub _ (by rw [List.length_append]; omega)) (by rw [List.length_append]; omega)
  have mXY_Z := Machine.accumulates_merge _ _ (xs ++ ys) zs B mXY aZ hB
    (sub _ (by simp only [List.length_append]; omega))
    (by simp only [List.length_append]; omega)
  have mX_YZ := Machine.accumulates_merge _ _ xs (ys ++ zs) B aX mYZ hxyz
    (sub _ (by simp only [List.length_append]; omega))
    (by simp only [List.length_append]; omega)
  rw [List.append_assoc] at mXY_Z
  have key := aXY.sameSums mXY
  refine ⟨key, (Machine.calculateMoments_depends_on_sums key).1,
    (Machine.calculateMoments_depends_on_sums key).2, ?_, mXY_Z.sameSums mX_YZ,
    fun e he i => KaonEvent.addend_range e he i⟩
  intro x y
  rw [KaonMoments.sameSums_iff]
  refine ⟨?_, fun i => ?_⟩
  · show wrapInt32 (x.nEvents + y.nEvents) = wrapInt32 (y.nEvents + x.nEvents)
    rw [add_comm]
  · rw [Machine.merge_sumOf, Machine.merge_sumOf, Dbl.fadd_comm]

/-- Witness of C4 as amended: the two sample events, one in each batch, with `B = 2 ^ 31`. -/
theorem fill_merge_law_bounded_witness :
    (0 : Int) ≤ 2147483648 ∧
      (∀ e ∈ [sampleEvent1] ++ [sampleEvent2] ++ [], ∀ i, |e.addend i| ≤ 2147483648) ∧
      ((([sampleEvent1] ++ [sampleEvent2] ++ []).length : Nat) : Int) * 2147483648
        ≤ 9007199254740992 ∧
      ([sampleEvent1] ++ [sampleEvent2] ++ []).length ≤ 2147483647 ∧
      (([sampleEvent1] ++ [sampleEvent2]).foldl Machine.fill
          zeroMoments.initializeCounters).SameSums
        (Machine.merge ([sampleEvent1].foldl Machine.fill zeroMoments.initializeCounters)
          ([sampleEvent2].foldl Machine.fill zeroMoments.initializeCounters)) :=
  have hB : ∀ e ∈ [sampleEvent1] ++ [sampleEvent2] ++ [], ∀ i, |e.addend i| ≤ 2147483648 := by
    intro e he i
    have : e = sampleEvent1 ∨ e = sampleEvent2 := by simpa using he
    rcases this with rfl | rfl
    · exact KaonEvent.addend_range _
        (by simp [KaonEvent.CountsInt32, sampleEvent1, zeroEvent]) i
    · exact KaonEvent.addend_range _
        (by simp [KaonEvent.CountsInt32, sampleEvent2, zeroEvent]) i
  ⟨by norm_num, hB, by simp, by simp,
    (fill_merge_law_bounded zeroMoments zeroMoments zeroMoments zeroMoments [sampleEvent1]
      [sampleEvent2] [] 2147483648 (by norm_num) hB (by simp) (by simp)).1⟩

/-! ### The invariant of the running sums -/

/-- Every event of `longList` is decomposed as the data model asks and has `int` counts. -/
theorem longList_events : ∀ e ∈ longList, e.Decomposed ∧ e.CountsInt32 := by
  intro e he
  have : e = bigEvent ∨ e = unitEvent := by
    unfold longList bigList at he
    rcases List.mem_append.mp he with h | h
    · exact Or.inl (List.eq_of_mem_replicate h)
    · right
      simpa using h
  rcases this with rfl | rfl
  · simp [KaonEvent.Decomposed, KaonEvent.CountsInt32, bigEvent, zeroEvent]
  · simp [KaonEvent.Decomposed, KaonEvent.CountsInt32, unitEvent, zeroEvent]

/-- The accumulator after the events of `bigList`: the sums of `k` and `kc` are `2 ^ 53`
exactly, the sum of `k0` is zero. -/
theorem bigList_sums :
    (bigList.foldl Machine.fill zeroMoments.initializeCounters).nEvents = 8388608 ∧
      (bigList.foldl Machine.fill zeroMoments.initializeCounters).sum_k
        = Dbl.fin 9007199254740992 ∧
      (bigList.foldl Machine.fill zeroMoments.initializeCounters).sum_kc
        = Dbl.fin 9007199254740992 ∧
      (bigList.foldl Machine.fill zeroMoments.initializeCounters).sum_k0 = Dbl.fin 0 := by
  have ak : bigEvent.addend SumIndex.k = 1073741824 := by simp [KaonEvent.addend, bigEvent]
  have akc : bigEvent.addend SumIndex.kc = 1073741824 := by simp [KaonEvent.addend, bigEvent]
  have ak0 : bigEvent.addend SumIndex.k0 = 0 := by
    simp [KaonEvent.addend, bigEvent, zeroEvent]
  have hn := Machine.replicate_nEvents bigEvent 8388608 (by norm_num)
  have hk := Machine.replicate_sumOf bigEvent SumIndex.k 8388608 (by rw [ak]; norm_num)
  have hkc := Machine.replicate_sumOf bigEvent SumIndex.kc 8388608 (by rw [akc]; norm_num)
  have hk0 := Machine.replicate_sumOf bigEvent SumIndex.k0 8388608 (by rw [ak0]; norm_num)
  rw [ak] at hk
  rw [akc] at hkc
  rw [ak0] at hk0
  unfold bigList
  obtain ⟨R, hR⟩ : ∃ R, R = (List.replicate 8388608 bigEvent).foldl Machine.fill
    zeroMoments.initializeCounters := ⟨_, rfl⟩
  rw [← hR] at hn hk hkc hk0 ⊢
  refine ⟨by rw [hn]; norm_num, ?_, ?_, ?_⟩
  · show R.sumOf SumIndex.k = _
    rw [hk]
    norm_num
  · show R.sumOf SumIndex.kc = _
    rw [hkc]
    norm_num
  · show R.sumOf SumIndex.k0 = _
    rw [hk0]
    norm_num

/-- The accumulator after the events of `longList`, filled in one pass: the sum of `k` has
stayed at `2 ^ 53` over the last three events, while the sum of `k0` has gone up to `3`. -/
theorem longList_sums :
    (longList.foldl Machine.fill zeroMoments.initializeCounters).nEvents = 8388611 ∧
      (longList.foldl Machine.fill zeroMoments.initializeCounters).sum_k
        = Dbl.fin 9007199254740992 ∧
      (longList.foldl Machine.fill zeroMoments.initializeCounters).sum_kc
        = Dbl.fin 9007199254740992 ∧
      (longList.foldl Machine.fill zeroMoments.initializeCounters).sum_k0 = Dbl.fin 3 := by
  obtain ⟨hn, hk, hkc, hk0⟩ := bigList_sums
  have ak : unitEvent.addend SumIndex.k = 1 := by simp [KaonEvent.addend, unitEvent]
  have z : Dbl.fadd (Dbl.fin 9007199254740992) (Dbl.ofInt 0) = Dbl.fin 9007199254740992 := by
    have := Dbl.fadd_int 9007199254740992 0 (by norm_num)
    norm_num at this
    exact this
  have o1 : Dbl.fadd (Dbl.fin 0) (Dbl.ofInt 1) = Dbl.fin 1 := by
    have := Dbl.fadd_int 0 1 (by norm_num)
    norm_num at this
    exact this
  have o2 : Dbl.fadd (Dbl.fin 1) (Dbl.ofInt 1) = Dbl.fin 2 := by
    have := Dbl.fadd_int 1 1 (by norm_num)
    norm_num at this
    exact this
  have o3 : Dbl.fadd (Dbl.fin 2) (Dbl.ofInt 1) = Dbl.fin 3 := by
    have := Dbl.fadd_int 2 1 (by norm_num)
    norm_num at this
    exact this
  unfold longList
  rw [List.foldl_append]
  obtain ⟨R, hR⟩ : ∃ R, R = bigList.foldl Machine.fill zeroMoments.initializeCounters :=
    ⟨_, rfl⟩
  rw [← hR] at hn hk hkc hk0 ⊢
  refine ⟨by
    rw [fill_three_unitEvent_nEvents R 8388608 (by norm_num) (by norm_num) hn]
    norm_num, fill_three_unitEvent_stays R SumIndex.k ak hk, ?_, ?_⟩
  · simp only [List.foldl_cons, List.foldl_nil]
    show Dbl.fadd (Dbl.fadd (Dbl.fadd R.sum_kc (Dbl.ofInt 0)) (Dbl.ofInt 0)) (Dbl.ofInt 0) = _
    rw [hkc, z, z, z]
  · simp only [List.foldl_cons, List.foldl_nil]
    show Dbl.fadd (Dbl.fadd (Dbl.fadd R.sum_k0 (Dbl.ofInt 1)) (Dbl.ofInt 1)) (Dbl.ofInt 1) = _
    rw [hk0, o1, o2, o3]

namespace Machine

/-- From an initialized accumulator, `fill` of decomposed events with counts of at most `B` in
absolute value, their number times `B` being at most `2 ^ 53`, leaves running sums that satisfy
the invariant. -/
theorem invariant_foldl_fill (es : List KaonEvent) (m : KaonMoments) (B : Int)
    (h : ∀ e ∈ es, e.Decomposed ∧ e.CountsWithin B)
    (hlen : (es.length : Int) * B ≤ 9007199254740992) :
    Invariant (es.foldl fill m.initializeCounters) := by
  have sumEq : ∀ i : SumIndex, (∀ e ∈ es, |e.addend i| ≤ B) →
      (es.foldl fill m.initializeCounters).sumOf i
          = Dbl.fin (((es.map (fun e => e.addend i)).sum : Int) : ℚ) ∧
        |(es.map (fun e => e.addend i)).sum| ≤ 9007199254740992 := by
    intro i hi
    have hs := foldl_fill_sumOf i B es m.initializeCounters 0 (KaonMoments.init_sumOf m i) hi
      (by rw [abs_zero, zero_add]; exact hlen)
    refine ⟨by rw [hs, zero_add], ?_⟩
    exact le_trans (abs_sum_map_le (fun e => e.addend i) B es hi) hlen
  have key : ∀ i j l : SumIndex, (∀ e ∈ es, |e.addend i| ≤ B) → (∀ e ∈ es, |e.addend j| ≤ B) →
      (∀ e ∈ es, |e.addend l| ≤ B) → (∀ e ∈ es, e.addend i + e.addend j = e.addend l) →
      Dbl.fadd ((es.foldl fill m.initializeCounters).sumOf i)
          ((es.foldl fill m.initializeCounters).sumOf j)
        = (es.foldl fill m.initializeCounters).sumOf l := by
    intro i j l hi hj hl hij
    have s := sum_map_add (fun e => e.addend i) (fun e => e.addend j) (fun e => e.addend l) es
      hij
    rw [(sumEq i hi).1, (sumEq j hj).1, (sumEq l hl).1,
      Dbl.fadd_fin_int _ _ (by rw [s]; exact (sumEq l hl).2), s]
  refine ⟨?_, ?_, ?_, ?_, ?_⟩
  · exact key SumIndex.kc SumIndex.k0 SumIndex.k (fun e he => (h e he).2.1.2.2.2)
      (fun e he => (h e he).2.1.2.1) (fun e he => (h e he).2.1.1) (fun e he => (h e he).1.1)
  · exact (key SumIndex.k_Binomial SumIndex.k_DCC SumIndex.k (fun e he => (h e he).2.2.1.1)
      (fun e he => (h e he).2.2.2.1) (fun e he => (h e he).2.1.1)
      (fun e he => (h e he).1.2.1.symm)).symm
  · exact (key SumIndex.k0_Binomial SumIndex.k0_DCC SumIndex.k0
      (fun e he => (h e he).2.2.1.2.1) (fun e he => (h e he).2.2.2.2.1)
      (fun e he => (h e he).2.1.2.1) (fun e he => (h e he).1.2.2.1.symm)).symm
  · exact (key SumIndex.k0s_Binomial SumIndex.k0s_DCC SumIndex.k0s
      (fun e he => (h e he).2.2.1.2.2.1) (fun e he => (h e he).2.2.2.2.2.1)
      (fun e he => (h e he).2.1.2.2.1) (fun e he => (h e he).1.2.2.2.1.symm)).symm
  · exact (key SumIndex.kc_Binomial SumIndex.kc_DCC SumIndex.kc
      (fun e he => (h e he).2.2.1.2.2.2) (fun e he => (h e he).2.2.2.2.2.2)
      (fun e he => (h e he).2.1.2.2.2) (fun e he => (h e he).1.2.2.2.2.symm)).symm

end Machine

/-- C16 fails on the code.  An event written by `generate` need not be decomposed: for
`overflowGenerator`, `k = 1` while `k_Binomial + k_DCC = -4294967295`.  And for the decomposed
events of `longList`, `2 ^ 23` events of `2 ^ 30` kaons followed by three events of one kaon,
the state reached from `initialize` has `sum_k = 2 ^ 53`, while `sum_kc + sum_k0`, a rounded sum,
is `2 ^ 53 + 4`.  (The sums of the invariant are sums of the counts themselves; counts this large
are needed for them to pass `2 ^ 53` within `2 ^ 31` events, and the squares that `fill` forms
of them wrap.) -/
theorem fill_invariant_fails_on_rounding :
    ¬ (Machine.generate overflowGenerator zeroEvent).1.Decomposed ∧
      (∀ e ∈ longList, e.Decomposed ∧ e.CountsInt32) ∧
      (longList.foldl Machine.fill zeroMoments.initializeCounters).nEvents = 8388611 ∧
      (longList.foldl Machine.fill zeroMoments.initializeCounters).sum_k
        = Dbl.fin 9007199254740992 ∧
      Dbl.fadd (longList.foldl Machine.fill zeroMoments.initializeCounters).sum_kc
          (longList.foldl Machine.fill zeroMoments.initializeCounters).sum_k0
        = Dbl.fin 9007199254740996 ∧
      ¬ Machine.Invariant (longList.foldl Machine.fill zeroMoments.initializeCounters) := by
  obtain ⟨-, k, kD, kB, -⟩ := overflowGenerator_values
  obtain ⟨hn, hk, hkc, hk0⟩ := longList_sums
  have s : Dbl.fadd (longList.foldl Machine.fill zeroMoments.initializeCounters).sum_kc
      (longList.foldl Machine.fill zeroMoments.initializeCounters).sum_k0
      = Dbl.fin 9007199254740996 := by
    rw [hkc, hk0, fadd_two_pow_53_three]
  refine ⟨?_, longList_events, hn, hk, s, ?_⟩
  · intro h
    have := h.2.1
    rw [k, kB, kD] at this
    revert this
    decide
  · intro h
    have := h.1
    rw [s, hk] at this
    injection this with this
    norm_num at this

/-- C16, as the code has it.  Accumulator invariant, for a list of events, each decomposed as the
data model asks, whose counts are at most `B` in absolute value, the number of events times `B`
being at most `2 ^ 53` and the number of events in the range of `int` (every first sum is then an
integer that a double carries exactly; with counts up to `46340`, beyond which `fill` overflows
on the squares, any number of events in the range of `int` qualifies): the state reached from
`initialize` by `fill` of each event has `nEvents` equal to the length of the list,
`sum_kc + sum_k0 == sum_k` and `sum_X == sum_X_Binomial + sum_X_DCC` for each `X`, the sums
being rounded `double` sums.  One more `fill` of such an event, within the bounds, preserves
this, and so does every `calculateMoments`.  An event written by `generate` is decomposed, with
counts within `2 ^ 31`, when `0 ≤ dccFraction ≤ 1`, every `Binomial(n, p)` call returns an
integer between `0` and `n` and the neutral fraction drawn is in `[0, 1)`. -/
theorem fill_invariant_bounded (es : List KaonEvent) (m : KaonMoments) (B : Int)
    (h : ∀ e ∈ es, e.Decomposed ∧ e.CountsWithin B)
    (hlen : (es.length : Int) * B ≤ 9007199254740992) (hn : es.length ≤ 2147483647) :
    (es.foldl Machine.fill m.initializeCounters).nEvents = (es.length : Int) ∧
      Machine.Invariant (es.foldl Machine.fill m.initializeCounters) ∧
      (∀ e : KaonEvent, e.Decomposed → e.CountsWithin B →
        ((es.length : Int) + 1) * B ≤ 9007199254740992 → es.length + 1 ≤ 2147483647 →
        (Machine.fill (es.foldl Machine.fill m.initializeCounters) e).nEvents
            = (es.length : Int) + 1 ∧
          Machine.Invariant (Machine.fill (es.foldl Machine.fill m.initializeCounters) e)) ∧
      (∀ a : KaonMoments, Machine.Invariant a →
        Machine.Invariant (Machine.calculateMoments a).2 ∧
          (Machine.calculateMoments a).2.nEvents = a.nEvents) ∧
      (∀ (g : KaonGenerator) (event : KaonEvent) (q : ℚ),
        g.dccFraction = Dbl.fin q → 0 ≤ q → q ≤ 1 →
        (∀ d ∈ Machine.draws g event, d.inRange) →
        (∀ d ∈ Machine.draws g event, d.fractionInUnit) →
        (Machine.generate g event).1.Decomposed ∧
          (Machine.generate g event).1.CountsWithin 2147483648) ∧
      (2147483647 : Int) * 46340 ≤ 9007199254740992 := by
  have hl : (es.length : Int) ≤ 2147483647 := by exact_mod_cast hn
  have cnt : ∀ (l : List KaonEvent), (l.length : Int) ≤ 2147483647 →
      (l.foldl Machine.fill m.initializeCounters).nEvents = (l.length : Int) := by
    intro l hl
    have := Machine.foldl_fill_nEvents l m.initializeCounters
      (by simp [KaonMoments.initializeCounters])
      (by simp [KaonMoments.initializeCounters]; omega)
    rw [this]
    simp [KaonMoments.initializeCounters]
  refine ⟨cnt es hl, Machine.invariant_foldl_fill es m B h hlen, ?_,
    Machine.invariant_after_calculateMoments, ?_, by norm_num⟩
  · intro e hd hc hl1 hn1
    have h' : ∀ x ∈ es ++ [e], x.Decomposed ∧ x.CountsWithin B := by
      intro x hx
      rcases List.mem_append.mp hx with hx | hx
      · exact h x hx
      · rw [List.mem_singleton.mp hx]; exact ⟨hd, hc⟩
    have len : ((es ++ [e]).length : Int) = (es.length : Int) + 1 := by
      rw [List.length_append, List.length_singleton]; push_cast; rfl
    have i1 := Machine.invariant_foldl_fill (es ++ [e]) m B h' (by rw [len]; exact hl1)
    have n1 := cnt (es ++ [e]) (by rw [len]; omega)
    rw [List.foldl_append] at i1 n1
    simp only [List.foldl_cons, List.foldl_nil] at i1 n1
    exact ⟨by rw [n1, len], i1⟩
  · intro g event q hq q0 q1 hb hu
    have b := Machine.generate_bounds g event q hq q0 q1 hb hu
    refine ⟨?_, KaonEvent.countsWithin_of_int32 _ (Machine.generate_countsInt32 g event)⟩
    unfold KaonEvent.Decomposed
    omega

/-- Witness of C16 as amended: the two sample events, filled into a fresh accumulator, with
`B = 6`. -/
theorem fill_invariant_bounded_witness :
    (∀ e ∈ [sampleEvent1, sampleEvent2], e.Decomposed ∧ e.CountsWithin 6) ∧
      (([sampleEvent1, sampleEvent2].length : Nat) : Int) * 6 ≤ 9007199254740992 ∧
      [sampleEvent1, sampleEvent2].length ≤ 2147483647 ∧
      ([sampleEvent1, sampleEvent2].foldl Machine.fill
        zeroMoments.initializeCounters).nEvents = 2 ∧
      Machine.Invariant ([sampleEvent1, sampleEvent2].foldl Machine.fill
        zeroMoments.initializeCounters) :=
  have hs : ∀ e ∈ [sampleEvent1, sampleEvent2], e.Decomposed ∧ e.CountsWithin 6 := by
    intro e he
    have : e = sampleEvent1 ∨ e = sampleEvent2 := by simpa using he
    rcases this with rfl | rfl
    · simp [KaonEvent.Decomposed, KaonEvent.CountsWithin, sampleEvent1, zeroEvent, abs_le]
    · simp [KaonEvent.Decomposed, KaonEvent.CountsWithin, sampleEvent2, zeroEvent, abs_le]
  ⟨hs, by simp, by simp,
    (fill_invariant_bounded [sampleEvent1, sampleEvent2] zeroMoments 6 hs (by simp)
      (by simp)).1,
    (fill_invariant_bounded [sampleEvent1, sampleEvent2] zeroMoments 6 hs (by simp)
      (by simp)).2.1⟩

/-! ### The ratios -/

namespace Dbl

theorem fdiv_fin (a b : ℚ) (hb : b ≠ 0) : fdiv (fin a) (fin b) = round64 (a / b) := by
  unfold fdiv
  rw [fin_div_fin a b hb]
  rfl

theorem fsub_fin (a b : ℚ) : fsub (fin a) (fin b) = round64 (a - b) := by
  unfold fsub
  rw [fin_sub_fin]
  rfl

theorem fmul_fin (a b : ℚ) : fmul (fin a) (fin b) = round64 (a * b) := rfl

end Dbl

namespace Machine

/-- With two events or more the machine `calculateMoments` runs to its end, and the ratios and
`nuDyn` values it stores are these expressions of the counter and the running sums. -/
theorem calculateMoments_unfolded (m : KaonMoments) (hn : 2 ≤ m.nEvents) :
    (calculateMoments m).1 = Report.calculated ∧
      (calculateMoments m).2.k0_avg = Dbl.fdiv m.sum_k0 (Dbl.ofInt m.nEvents) ∧
      (calculateMoments m).2.k0s_avg = Dbl.fdiv m.sum_k0s (Dbl.ofInt m.nEvents) ∧
      (calculateMoments m).2.kc_avg = Dbl.fdiv m.sum_kc (Dbl.ofInt m.nEvents) ∧
      (calculateMoments m).2.k0F_avg =
        Dbl.fsub (Dbl.fdiv m.sum_k0Sq (Dbl.ofInt m.nEvents))
          (Dbl.fdiv m.sum_k0 (Dbl.ofInt m.nEvents)) ∧
      (calculateMoments m).2.k0sF_avg =
        Dbl.fsub (Dbl.fdiv m.sum_k0sSq (Dbl.ofInt m.nEvents))
          (Dbl.fdiv m.sum_k0s (Dbl.ofInt m.nEvents)) ∧
      (calculateMoments m).2.kcF_avg =
        Dbl.fsub (Dbl.fdiv m.sum_kcSq (Dbl.ofInt m.nEvents))
          (Dbl.fdiv m.sum_kc (Dbl.ofInt m.nEvents)) ∧
      (calculateMoments m).2.kck0_avg = Dbl.fdiv m.sum_kck0 (Dbl.ofInt m.nEvents) ∧
      (calculateMoments m).2.kck0s_avg = Dbl.fdiv m.sum_kck0s (Dbl.ofInt m.nEvents) ∧
      (calculateMoments m).2.r00 =
        Dbl.fsub (Dbl.fdiv (Dbl.fdiv (calculateMoments m).2.k0F_avg
          (calculateMoments m).2.k0_avg) (calculateMoments m).2.k0_avg) (Dbl.fin 1) ∧
      (calculateMoments m).2.r0s0s =
        Dbl.fsub (Dbl.fdiv (Dbl.fdiv (calculateMoments m).2.k0sF_avg
          (calculateMoments m).2.k0s_avg) (calculateMoments m).2.k0s_avg) (Dbl.fin 1) ∧
      (calculateMoments m).2.rchch =
        Dbl.fsub (Dbl.fdiv (Dbl.fdiv (calculateMoments m).2.kcF_avg
          (calculateMoments m).2.kc_avg) (calculateMoments m).2.kc_avg) (Dbl.fin 1) ∧
      (calculateMoments m).2.rch0 =
        Dbl.fsub (Dbl.fdiv (Dbl.fdiv (calculateMoments m).2.kck0_avg
          (calculateMoments m).2.kc_avg) (calculateMoments m).2.k0_avg) (Dbl.fin 1) ∧
      (calculateMoments m).2.rch0s =
        Dbl.fsub (Dbl.fdiv (Dbl.fdiv (calculateMoments m).2.kck0s_avg
          (calculateMoments m).2.kc_avg) (calculateMoments m).2.k0s_avg) (Dbl.fin 1) ∧
      (calculateMoments m).2.nuDyn_ch0 =
        Dbl.fsub (Dbl.fadd (calculateMoments m).2.rchch (calculateMoments m).2.r00)
          (Dbl.fmul (Dbl.fin 2) (calculateMoments m).2.rch0) ∧
      (calculateMoments m).2.nuDyn_ch0s =
        Dbl.fsub (Dbl.fadd (calculateMoments m).2.rchch (calculateMoments m).2.r0s0s)
          (Dbl.fmul (Dbl.fin 2) (calculateMoments m).2.rch0s) := by
  have h : ¬ m.nEvents < 2 := by omega
  simp [calculateMoments, h]

end Machine

/-- The counter and the running sums of `ratioMoments`. -/
theorem ratioMoments_sums :
    ratioMoments.nEvents = 2 ∧ ratioMoments.sum_k0 = Dbl.fin 9 ∧
      ratioMoments.sum_k0Sq = Dbl.fin 53 ∧ ratioMoments.sum_k0s = Dbl.fin 4 ∧
      ratioMoments.sum_kc = Dbl.fin 3 := by
  have h := Machine.accumulates_foldl_fill_int32 [ratioEvent1, ratioEvent2] zeroMoments
    (fun e he => by
      have : e = ratioEvent1 ∨ e = ratioEvent2 := by simpa using he
      rcases this with rfl | rfl
      · simp [KaonEvent.CountsInt32, ratioEvent1, zeroEvent]
      · simp [KaonEvent.CountsInt32, ratioEvent2, zeroEvent])
    (by simp)
  have w1 : wrapInt32 4 = 4 := by decide
  have w2 : wrapInt32 49 = 49 := by decide
  refine ⟨?_, ?_, ?_, ?_, ?_⟩
  · show KaonMoments.nEvents (List.foldl _ _ _) = 2
    rw [h.1]; simp
  · show KaonMoments.sumOf (List.foldl _ _ _) SumIndex.k0 = _
    rw [h.2]; simp [KaonEvent.addend, ratioEvent1, ratioEvent2]
  · show KaonMoments.sumOf (List.foldl _ _ _) SumIndex.k0Sq = _
    rw [h.2]; simp [KaonEvent.addend, ratioEvent1, ratioEvent2, w1, w2]
  · show KaonMoments.sumOf (List.foldl _ _ _) SumIndex.k0s = _
    rw [h.2]; simp [KaonEvent.addend, ratioEvent1, ratioEvent2]
  · show KaonMoments.sumOf (List.foldl _ _ _) SumIndex.kc = _
    rw [h.2]; simp [KaonEvent.addend, ratioEvent1, ratioEvent2]

/-- The rounded operations on the way from the sums `53`, `9` and the counter `2` to `R_00`, in
the order of the code (two successive divisions) and in the order of the formula (one division
by the square). -/
theorem ratio_roundings :
    Dbl.fdiv (Dbl.fin 9) (Dbl.ofInt 2) = Dbl.fin (9/2) ∧
      Dbl.fdiv (Dbl.fin 53) (Dbl.ofInt 2) = Dbl.fin (53/2) ∧
      Dbl.fsub (Dbl.fin (53/2)) (Dbl.fin (9/2)) = Dbl.fin 22 ∧
      Dbl.fdiv (Dbl.fin 22) (Dbl.fin (9/2))
        = Dbl.fin (1376099886140985/281474976710656) ∧
      Dbl.fdiv (Dbl.fin (1376099886140985/281474976710656)) (Dbl.fin (9/2))
        = Dbl.fin (4892799595167947/4503599627370496) ∧
      Dbl.fsub (Dbl.fin (4892799595167947/4503599627370496)) (Dbl.fin 1)
        = Dbl.fin (389199967797451/4503599627370496) ∧
      Dbl.fmul (Dbl.fin (9/2)) (Dbl.fin (9/2)) = Dbl.fin (81/4) ∧
      Dbl.fdiv (Dbl.fin 22) (Dbl.fin (81/4))
        = Dbl.fin (2446399797583973/2251799813685248) ∧
      Dbl.fsub (Dbl.fin (2446399797583973/2251799813685248)) (Dbl.fin 1)
        = Dbl.fin (194599983898725/2251799813685248) := by
  have two : Dbl.ofInt 2 = Dbl.fin 2 := by simp [Dbl.ofInt]
  refine ⟨?_, ?_, ?_, ?_, ?_, ?_, ?_, ?_, ?_⟩
  · rw [two, Dbl.fdiv_fin _ _ (by norm_num)]
    have := round64_exact 9 (-1) (by norm_num [abs_of_pos]) (by norm_num) (by norm_num)
    norm_num at this ⊢
    exact this
  · rw [two, Dbl.fdiv_fin _ _ (by norm_num)]
    have := round64_exact 53 (-1) (by norm_num [abs_of_pos]) (by norm_num) (by norm_num)
    norm_num at this ⊢
    exact this
  · rw [Dbl.fsub_fin]
    have := round64_intCast 22 (by norm_num)
    norm_num at this ⊢
    exact this
  · rw [Dbl.fdiv_fin _ _ (by norm_num)]
    have := round64_eq (22 / (9/2)) 2 5504399544563940
      (by norm_num [abs_of_pos]) (by norm_num [abs_of_pos]) (by norm_num) (by norm_num)
      (roundHalfEven_eq_of_near _ _ (by norm_num) (by norm_num))
    rw [this]; norm_num
  · rw [Dbl.fdiv_fin _ _ (by norm_num)]
    have := round64_eq (1376099886140985/281474976710656 / (9/2)) 0 4892799595167947
      (by norm_num [abs_of_pos]) (by norm_num [abs_of_pos]) (by norm_num) (by norm_num)
      (roundHalfEven_eq_of_near _ _ (by norm_num) (by norm_num))
    rw [this]; norm_num
  · rw [Dbl.fsub_fin]
    have := round64_exact 389199967797451 (-52) (by norm_num [abs_of_pos]) (by norm_num)
      (by norm_num)
    norm_num at this ⊢
    exact this
  · rw [Dbl.fmul_fin]
    have := round64_exact 81 (-2) (by norm_num [abs_of_pos]) (by norm_num) (by norm_num)
    norm_num at this ⊢
    exact this
  · rw [Dbl.fdiv_fin _ _ (by norm_num)]
    have := round64_eq (22 / (81/4)) 0 4892799595167946
      (by norm_num [abs_of_pos]) (by norm_num [abs_of_pos]) (by norm_num) (by norm_num)
      (roundHalfEven_eq_of_near _ _ (by norm_num) (by norm_num))
    rw [this]; norm_num
  · rw [Dbl.fsub_fin]
    have := round64_exact 194599983898725 (-51) (by norm_num [abs_of_pos]) (by norm_num)
      (by norm_num)
    norm_num at this ⊢
    exact this

/-- The counter and the running sums of `k0` of `sampleMachineMoments`. -/
theorem sampleMachineMoments_sums :
    sampleMachineMoments.nEvents = 2 ∧ sampleMachineMoments.sum_k0 = Dbl.fin 4 ∧
      sampleMachineMoments.sum_k0Sq = Dbl.fin 8 := by
  have h := Machine.accumulates_foldl_fill_int32 [sampleEvent1, sampleEvent2] zeroMoments
    (fun e he => by
      have : e = sampleEvent1 ∨ e = sampleEvent2 := by simpa using he
      rcases this with rfl | rfl
      · simp [KaonEvent.CountsInt32, sampleEvent1, zeroEvent]
      · simp [KaonEvent.CountsInt32, sampleEvent2, zeroEvent])
    (by simp)
  have w1 : wrapInt32 4 = 4 := by decide
  refine ⟨?_, ?_, ?_⟩
  · show KaonMoments.nEvents (List.foldl _ _ _) = 2
    rw [h.1]; simp
  · show KaonMoments.sumOf (List.foldl _ _ _) SumIndex.k0 = _
    rw [h.2]; simp [KaonEvent.addend, sampleEvent1, sampleEvent2]
  · show KaonMoments.sumOf (List.foldl _ _ _) SumIndex.k0Sq = _
    rw [h.2]; simp [KaonEvent.addend, sampleEvent1, sampleEvent2, w1]

/-- From the sums `8`, `4` and the counter `2` no operation rounds, and `R_00` as the code
computes it is `-1/2`, the exact value of the formula. -/
theorem roundedRSame_sample : roundedRSame (Dbl.fin 8) (Dbl.fin 4) 2 = Dbl.fin (-1/2) := by
  have two : Dbl.ofInt 2 = Dbl.fin 2 := by simp [Dbl.ofInt]
  have r4 : round64 4 = Dbl.fin 4 := by
    have := round64_intCast 4 (by norm_num)
    norm_num at this
    exact this
  have r2 : round64 2 = Dbl.fin 2 := by
    have := round64_intCast 2 (by norm_num)
    norm_num at this
    exact this
  have r1 : round64 1 = Dbl.fin 1 := by
    have := round64_intCast 1 (by norm_num)
    norm_num at this
    exact this
  have rh : round64 (1/2) = Dbl.fin (1/2) := by
    have := round64_exact 1 (-1) (by norm_num [abs_of_pos]) (by norm_num) (by norm_num)
    norm_num at this ⊢
    exact this
  have rn : round64 (-1/2) = Dbl.fin (-1/2) := by
    have := round64_exact (-1) (-1) (by norm_num [abs_of_pos]) (by norm_num) (by norm_num)
    norm_num at this ⊢
    exact this
  have a1 : Dbl.fdiv (Dbl.fin 8) (Dbl.fin 2) = Dbl.fin 4 := by
    rw [Dbl.fdiv_fin _ _ (by norm_num)]; norm_num; exact r4
  have a2 : Dbl.fdiv (Dbl.fin 4) (Dbl.fin 2) = Dbl.fin 2 := by
    rw [Dbl.fdiv_fin _ _ (by norm_num)]; norm_num; exact r2
  have a3 : Dbl.fsub (Dbl.fin 4) (Dbl.fin 2) = Dbl.fin 2 := by
    rw [Dbl.fsub_fin]; norm_num; exact r2
  have a4 : Dbl.fdiv (Dbl.fin 2) (Dbl.fin 2) = Dbl.fin 1 := by
    rw [Dbl.fdiv_fin _ _ (by norm_num)]; norm_num; exact r1
  have a5 : Dbl.fdiv (Dbl.fin 1) (Dbl.fin 2) = Dbl.fin (1/2) := by
    rw [Dbl.fdiv_fin _ _ (by norm_num)]; exact rh
  have a6 : Dbl.fsub (Dbl.fin (1/2)) (Dbl.fin 1) = Dbl.fin (-1/2) := by
    rw [Dbl.fsub_fin]
    have e : (1/2 - 1 : ℚ) = -1/2 := by norm_num
    rw [e]
    exact rn
  unfold roundedRSame roundedFactorialAverage roundedAverage
  rw [two, a1, a2, a3, a4, a5, a6]

/-- C2 fails on the code.  After the two events `ratioEvent1` and `ratioEvent2` (`n = 2`, the sum
of `k0` is `9` and that of its squares `53`; the averages of `k0`, `k0s` and `kc` are `4.5`, `2`
and `1.5`) the factorial average of `k0` is `22`, and `calculateMoments` stores
`R_00 = 0.08641975308641991`, the outcome of two rounded divisions by `4.5` and a subtraction.
The value of `factorialAverage_k0 / average_k0² - 1` is `7/81`, and the formula evaluated in
`double` arithmetic, with one division by the square, gives `0.08641975308641969`. -/
theorem calculateMoments_ratio_rounds :
    ratioMoments.nEvents = 2 ∧ ratioMoments.sum_k0 = Dbl.fin 9 ∧
      ratioMoments.sum_k0Sq = Dbl.fin 53 ∧
      (Machine.calculateMoments ratioMoments).2.k0_avg = Dbl.fin (9/2) ∧
      (Machine.calculateMoments ratioMoments).2.k0s_avg = Dbl.fin 2 ∧
      (Machine.calculateMoments ratioMoments).2.kc_avg = Dbl.fin (3/2) ∧
      (Machine.calculateMoments ratioMoments).2.k0F_avg = Dbl.fin 22 ∧
      (Machine.calculateMoments ratioMoments).2.r00
        = Dbl.fin (389199967797451/4503599627370496) ∧
      specRSame ratioMoments.sum_k0Sq ratioMoments.sum_k0 ratioMoments.nEvents
        = Dbl.fin (7/81) ∧
      Dbl.fsub
          (Dbl.fdiv (Machine.calculateMoments ratioMoments).2.k0F_avg
            (Dbl.fmul (Machine.calculateMoments ratioMoments).2.k0_avg
              (Machine.calculateMoments ratioMoments).2.k0_avg))
          (Dbl.fin 1)
        = Dbl.fin (194599983898725/2251799813685248) ∧
      (Machine.calculateMoments ratioMoments).2.r00
        ≠ specRSame ratioMoments.sum_k0Sq ratioMoments.sum_k0 ratioMoments.nEvents ∧
      (Machine.calculateMoments ratioMoments).2.r00
        ≠ Dbl.fsub
          (Dbl.fdiv (Machine.calculateMoments ratioMoments).2.k0F_avg
            (Dbl.fmul (Machine.calculateMoments ratioMoments).2.k0_avg
              (Machine.calculateMoments ratioMoments).2.k0_avg))
          (Dbl.fin 1) := by
  obtain ⟨hn, h0, h0Sq, h0s, hc⟩ := ratioMoments_sums
  obtain ⟨t1, t2, t3, t4, t5, t6, t7, t8, t9⟩ := ratio_roundings
  obtain ⟨-, e0, e0s, ec, eF, -, -, -, -, er, -⟩ :=
    Machine.calculateMoments_unfolded ratioMoments (by rw [hn])
  rw [h0, hn] at e0
  rw [h0s, hn] at e0s
  rw [hc, hn] at ec
  rw [h0, h0Sq, hn] at eF
  rw [t1] at e0
  rw [t1, t2, t3] at eF
  have e0s' : (Machine.calculateMoments ratioMoments).2.k0s_avg = Dbl.fin 2 := by
    rw [e0s]
    have two : Dbl.ofInt 2 = Dbl.fin 2 := by simp [Dbl.ofInt]
    rw [two, Dbl.fdiv_fin _ _ (by norm_num)]
    have := round64_intCast 2 (by norm_num)
    norm_num at this ⊢
    exact this
  have ec' : (Machine.calculateMoments ratioMoments).2.kc_avg = Dbl.fin (3/2) := by
    rw [ec]
    have two : Dbl.ofInt 2 = Dbl.fin 2 := by simp [Dbl.ofInt]
    rw [two, Dbl.fdiv_fin _ _ (by norm_num)]
    have := round64_exact 3 (-1) (by norm_num [abs_of_pos]) (by norm_num) (by norm_num)
    norm_num at this ⊢
    exact this
  have r : (Machine.calculateMoments ratioMoments).2.r00
      = Dbl.fin (389199967797451/4503599627370496) := by
    rw [er, eF, e0, t4, t5, t6]
  have sp : specRSame ratioMoments.sum_k0Sq ratioMoments.sum_k0 ratioMoments.nEvents
      = Dbl.fin (7/81) := by
    rw [h0, h0Sq, hn]
    have two : Dbl.ofInt 2 = Dbl.fin 2 := by simp [Dbl.ofInt]
    unfold specRSame specFactorialAverage specAverage
    rw [two, Dbl.fin_div_fin _ _ (by norm_num), Dbl.fin_div_fin _ _ (by norm_num),
      Dbl.fin_sub_fin, Dbl.fin_mul_fin, Dbl.fin_div_fin _ _ (by norm_num), Dbl.fin_sub_fin]
    norm_num
  have sd : Dbl.fsub
      (Dbl.fdiv (Machine.calculateMoments ratioMoments).2.k0F_avg
        (Dbl.fmul (Machine.calculateMoments ratioMoments).2.k0_avg
          (Machine.calculateMoments ratioMoments).2.k0_avg))
      (Dbl.fin 1) = Dbl.fin (194599983898725/2251799813685248) := by
    rw [eF, e0, t7, t8, t9]
  refine ⟨hn, h0, h0Sq, e0, e0s', ec', eF, r, sp, sd, ?_, ?_⟩
  · rw [r, sp]
    intro h
    injection h with h
    norm_num at h
  · rw [r, sd]
    intro h
    injection h with h
    norm_num at h

/-- C2, as the code has it.  For an accumulator with `nEvents = n ≥ 2`, `calculateMoments` runs to
its end and stores the averages `sum_X / n`, the factorial averages `average(X²) - average(X)`,
`R_00 = factorialAverage_k0 / average_k0 / average_k0 - 1` (and `R_0s0s`, `R_cc` alike),
`R_c0 = average(kc·k0) / average_kc / average_k0 - 1` (and `R_c0s` alike),
`nuDyn_ch0 = (R_cc + R_00) - 2·R_c0` and `nuDyn_ch0s = (R_cc + R_0s0s) - 2·R_c0s`, where every
quotient, difference, sum and product is rounded to a double before the next operation: each
value is a function of the running sums and `n`. -/
theorem calculateMoments_ratio_formulas_rounded (m : KaonMoments) (hn : 2 ≤ m.nEvents) :
    (Machine.calculateMoments m).1 = Report.calculated ∧
      ((Machine.calculateMoments m).2.k0_avg = roundedAverage m.sum_k0 m.nEvents ∧
        (Machine.calculateMoments m).2.k0s_avg = roundedAverage m.sum_k0s m.nEvents ∧
        (Machine.calculateMoments m).2.kc_avg = roundedAverage m.sum_kc m.nEvents ∧
        (Machine.calculateMoments m).2.k0F_avg
          = roundedFactorialAverage m.sum_k0Sq m.sum_k0 m.nEvents ∧
        (Machine.calculateMoments m).2.k0sF_avg
          = roundedFactorialAverage m.sum_k0sSq m.sum_k0s m.nEvents ∧
        (Machine.calculateMoments m).2.kcF_avg
          = roundedFactorialAverage m.sum_kcSq m.sum_kc m.nEvents ∧
        (Machine.calculateMoments m).2.kck0_avg = roundedAverage m.sum_kck0 m.nEvents ∧
        (Machine.calculateMoments m).2.kck0s_avg = roundedAverage m.sum_kck0s m.nEvents) ∧
      (Machine.calculateMoments m).2.r00 = roundedRSame m.sum_k0Sq m.sum_k0 m.nEvents ∧
      (Machine.calculateMoments m).2.r0s0s = roundedRSame m.sum_k0sSq m.sum_k0s m.nEvents ∧
      (Machine.calculateMoments m).2.rchch = roundedRSame m.sum_kcSq m.sum_kc m.nEvents ∧
      (Machine.calculateMoments m).2.rch0
        = roundedRCross m.sum_kck0 m.sum_kc m.sum_k0 m.nEvents ∧
      (Machine.calculateMoments m).2.rch0s
        = roundedRCross m.sum_kck0s m.sum_kc m.sum_k0s m.nEvents ∧
      (Machine.calculateMoments m).2.nuDyn_ch0 =
        roundedNuDyn (roundedRSame m.sum_kcSq m.sum_kc m.nEvents)
          (roundedRSame m.sum_k0Sq m.sum_k0 m.nEvents)
          (roundedRCross m.sum_kck0 m.sum_kc m.sum_k0 m.nEvents) ∧
      (Machine.calculateMoments m).2.nuDyn_ch0s =
        roundedNuDyn (roundedRSame m.sum_kcSq m.sum_kc m.nEvents)
          (roundedRSame m.sum_k0sSq m.sum_k0s m.nEvents)
          (roundedRCross m.sum_kck0s m.sum_kc m.sum_k0s m.nEvents) := by
  obtain ⟨e, a0, a0s, ac, f0, f0s, fc, c0, c0s, r00, r0s0s, rchch, rch0, rch0s, n0, n0s⟩ :=
    Machine.calculateMoments_unfolded m hn
  have q00 : (Machine.calculateMoments m).2.r00 = roundedRSame m.sum_k0Sq m.sum_k0 m.nEvents := by
    rw [r00, f0, a0]; rfl
  have q0s0s : (Machine.calculateMoments m).2.r0s0s
      = roundedRSame m.sum_k0sSq m.sum_k0s m.nEvents := by
    rw [r0s0s, f0s, a0s]; rfl
  have qchch : (Machine.calculateMoments m).2.rchch
      = roundedRSame m.sum_kcSq m.sum_kc m.nEvents := by
    rw [rchch, fc, ac]; rfl
  have qch0 : (Machine.calculateMoments m).2.rch0
      = roundedRCross m.sum_kck0 m.sum_kc m.sum_k0 m.nEvents := by
    rw [rch0, c0, ac, a0]; rfl
  have qch0s : (Machine.calculateMoments m).2.rch0s
      = roundedRCross m.sum_kck0s m.sum_kc m.sum_k0s m.nEvents := by
    rw [rch0s, c0s, ac, a0s]; rfl
  refine ⟨e, ⟨a0, a0s, ac, f0, f0s, fc, c0, c0s⟩, q00, q0s0s, qchch, qch0, qch0s, ?_, ?_⟩
  · rw [n0, qchch, q00, qch0]; rfl
  · rw [n0s, qchch, q0s0s, qch0s]; rfl

/-- Witness of C2 as amended: the accumulator holding the two sample events, where no operation
rounds and `R_00 = -1/2`. -/
theorem calculateMoments_ratio_formulas_rounded_witness :
    2 ≤ sampleMachineMoments.nEvents ∧
      (Machine.calculateMoments sampleMachineMoments).2.r00
        = roundedRSame sampleMachineMoments.sum_k0Sq sampleMachineMoments.sum_k0
          sampleMachineMoments.nEvents ∧
      roundedRSame sampleMachineMoments.sum_k0Sq sampleMachineMoments.sum_k0
          sampleMachineMoments.nEvents = Dbl.fin (-1/2) :=
  ⟨by rw [sampleMachineMoments_sums.1],
    (calculateMoments_ratio_formulas_rounded sampleMachineMoments
      (by rw [sampleMachineMoments_sums.1])).2.2.1,
    by
      rw [sampleMachineMoments_sums.1, sampleMachineMoments_sums.2.1,
        sampleMachineMoments_sums.2.2]
      exact roundedRSame_sample⟩

end DccToy
